import Mathlib

/-!
# Verification of the Outline workspace reconciliation engine

Shallow embedding of `scripts/sync/sync.js` (class `OutlineSync`): the
Unit/Group phase (`syncUsers`), the Admin phase (`syncAdmins`), the
Collection phase (`syncCollections`) and their helpers, together with the
directory-side recursive admin expansion (`getAllAdmins`) and the
allowed-units policy (`getAllowedUnits` / `isUnitAllowed`).

The workspace server is external to the repository; per the specification
(§6) its list calls are modelled as returning the complete collection.  A
separate paged model (`usersListPage` and friends) is used to analyse the
pagination behaviour of the single `{ limit: 100 }` requests the engine
issues.  Machine state is passed explicitly; every mutating call returns
the new state together with the list of state-changing events it caused
(an `add_user` on an existing member is the tolerated "already a member"
no-op of `addUserToGroup` and produces no event, mirroring the idempotent
server semantics the code relies on).
-/

/-- JavaScript `.toLowerCase()` on a string, written over the character
list so that it evaluates inside the kernel. -/
def String.lowerStr (s : String) : String :=
  ⟨s.data.map Char.toLower⟩

namespace SidocSync

/-- An organizational unit as returned by the directory; the engine only
reads its `name` field. -/
structure OrgUnit where
  name : String
deriving DecidableEq, Repr

/-- A workspace user: `id`, `email`, `role` (`"admin"` / `"viewer"` / ...),
and the suspended flag.  The engine reads users and (in the source at
hand) only ever updates `role`; nothing in the sync scripts writes the
suspended flag. -/
structure User where
  id : Nat
  email : String
  role : String
  suspended : Bool
deriving DecidableEq, Repr

/-- A workspace group: `id`, `name`, and its member set as user ids. -/
structure Group where
  id : Nat
  name : String
  members : List Nat
deriving DecidableEq, Repr

/-- A workspace collection: `id`, `name`, permission, privacy flag, and
the ids of groups linked to it (with their permission). -/
structure Collection where
  id : Nat
  name : String
  permission : String
  isPrivate : Bool
  groupLinks : List (Nat × String)
deriving DecidableEq, Repr

/-- The workspace state: users, groups, collections, plus a fresh-id
counter standing in for server-generated ids. -/
structure WState where
  users : List User
  groups : List Group
  collections : List Collection
  nextId : Nat
deriving DecidableEq, Repr

/-- State-changing mutations issued against the workspace. -/
inductive Ev where
  | groupCreated (id : Nat) (name : String)
  | groupDeleted (id : Nat)
  | memberAdded (groupId userId : Nat)
  | memberRemoved (groupId userId : Nat)
  | roleChanged (userId : Nat) (role : String)
  | collectionCreated (id : Nat) (name : String)
  | collectionDeleted (id : Nat)
  | collectionGroupAdded (collectionId groupId : Nat)
deriving DecidableEq, Repr

/-- A directory admin record (`{ id, email }`) as accumulated by
`getAllAdmins`. -/
structure Admin where
  id : Nat
  email : String
deriving DecidableEq, Repr

/-- A member of a directory-side group: either a person (with id and
email) or a nested group. -/
inductive DirMember where
  | person (id : Nat) (email : String)
  | group (gid : String)
deriving DecidableEq, Repr

/-- The organizational directory, fixed for a run: person lookup by email
(`none` models a failed request, e.g. 404 person-not-found, which the
code catches; `some none` models a response without a sciper id), units
by sciper, and directory group membership lists.  A group id absent from
`groups` is modelled as having no members. -/
structure Dir where
  persons : List (String × Option Nat)
  units : List (Nat × List OrgUnit)
  groups : List (String × List DirMember)
deriving DecidableEq, Repr

/-- The configured allowed-units file as seen by `getAllowedUnits`:
missing file, a JSON array of strings, JSON of another shape, or
unreadable/unparsable content. -/
inductive AllowedUnitsFile where
  | missing
  | arr (units : List String)
  | notArr
  | unreadable
deriving DecidableEq, Repr

/-- Engine configuration (environment): the excluded admin email
(`OUTLINE_ADMIN_EMAIL`), the static collection allowlist
(`ALLOWED_COLLECTIONS`), the optional allowed-units file
(`EPFL_ALLOWED_UNITS_FILE`, `none` when the variable is unset), and the
directory-side admin group (`OUTLINE_ADMIN_GROUP`). -/
structure Config where
  adminEmail : String
  allowedCollections : List String
  allowedUnitsFile : Option AllowedUnitsFile
  dirAdminGroup : String
deriving DecidableEq, Repr

/-- Source `this.ADMIN_GROUP_NAME = 'admin'`. -/
def ADMIN_GROUP_NAME : String := "admin"

/-- A paged Outline list endpoint: one server response holds at most
`limit` records of the underlying collection, and the code never asks
for a further page. -/
def listPage {α : Type} (l : List α) (limit : Nat) : List α :=
  l.take limit

/-- The page size the Outline server applies to a list request that
carries no `limit` field (the API default is 25 records). -/
def DEFAULT_PAGE_LIMIT : Nat := 25

/-- First value in an association list for a key, like a JS object
lookup. -/
def assoc {β : Type} (l : List (String × β)) (k : String) : Option β :=
  (l.find? (fun p => p.1 = k)).map (fun p => p.2)

/-- First value in a `Nat`-keyed association list. -/
def assocN {β : Type} (l : List (Nat × β)) (k : Nat) : Option β :=
  (l.find? (fun p => p.1 = k)).map (fun p => p.2)

/-- Source `getUserUnits`: resolve the person by email, then fetch the units for
the sciper.  Any request failure, including person-not-found, is caught
and yields `[]`; a response without a sciper also yields `[]`. -/
def getUserUnits (d : Dir) (email : String) : List OrgUnit :=
  match assoc d.persons email with
  | none => []
  | some none => []
  | some (some sciper) => (assocN d.units sciper).getD []

/-- Source `getAllUsers`: one `users.list` request with `{ limit: 100 }` —
a single page of at most 100 users — filtered client-side to drop the
configured admin email (the code names the result "active users").  No
further page is requested, so users beyond the first 100 never reach the
engine. -/
def getAllUsers (cfg : Config) (s : WState) : List User :=
  (listPage s.users 100).filter (fun u => u.email ≠ cfg.adminEmail)

/-- Source `getAllGroups`: one `groups.list` request with `{ limit: 100 }`;
only that single page is returned. -/
def getAllGroups (s : WState) : List Group :=
  listPage s.groups 100

/-- Source `getAllCollections`: one `collections.list` request with
`{ limit: 100 }`; only that single page is returned. -/
def getAllCollections (s : WState) : List Collection :=
  listPage s.collections 100

/-- Source `findUserByEmail`: first active user with exactly the given email. -/
def findUserByEmail (cfg : Config) (s : WState) (email : String) : Option User :=
  (getAllUsers cfg s).find? (fun u => u.email = email)

/-- Source `findGroupByName`: exact-name match first, then the first
case-insensitive match. -/
def findGroupByName (s : WState) (name : String) : Option Group :=
  match (getAllGroups s).find? (fun g => g.name = name) with
  | some g => some g
  | none => (getAllGroups s).find? (fun g => g.name.lowerStr = name.lowerStr)

/-- Source `findCollectionByName`: exact-name match first, then the first
case-insensitive match. -/
def findCollectionByName (s : WState) (name : String) : Option Collection :=
  match (getAllCollections s).find? (fun c => c.name = name) with
  | some c => some c
  | none => (getAllCollections s).find? (fun c => c.name.lowerStr = name.lowerStr)

/-- Source `createGroup`: create a group with the given name and a fresh id;
returns the created group. -/
def createGroup (name : String) (s : WState) : Group × WState × List Ev :=
  let g : Group := { id := s.nextId, name := name, members := [] }
  (g, { s with groups := s.groups ++ [g], nextId := s.nextId + 1 },
    [Ev.groupCreated g.id name])

/-- Source `createCollection`: create a collection with the given name, the
`read` permission and the given privacy flag, under a fresh id. -/
def createCollection (name : String) (isPrivate : Bool) (s : WState) :
    Collection × WState × List Ev :=
  let c : Collection :=
    { id := s.nextId, name := name, permission := "read", isPrivate := isPrivate,
      groupLinks := [] }
  (c, { s with collections := s.collections ++ [c], nextId := s.nextId + 1 },
    [Ev.collectionCreated c.id name])

/-- Source `addUserToGroup`: `groups.add_user`; the "already a member" 400 is
tolerated and treated as success, so adding an existing member changes
nothing and emits no mutation event. -/
def addUserToGroup (userId groupId : Nat) (s : WState) : WState × List Ev :=
  match s.groups.find? (fun g => g.id = groupId) with
  | none => (s, [])
  | some g =>
    if userId ∈ g.members then (s, [])
    else
      ({ s with groups := s.groups.map (fun g2 =>
          if g2.id = groupId then { g2 with members := g2.members ++ [userId] } else g2) },
        [Ev.memberAdded groupId userId])

/-- Source `removeUserFromGroup`: `groups.remove_user`. -/
def removeUserFromGroup (userId groupId : Nat) (s : WState) : WState × List Ev :=
  ({ s with groups := s.groups.map (fun g =>
      if g.id = groupId then { g with members := g.members.filter (fun m => m ≠ userId) } else g) },
    [Ev.memberRemoved groupId userId])

/-- Source `makeUserAdmin`: checks the user's current role via `users.info` and
issues `users.update_role` to `admin` only when the user is not already
an admin. -/
def makeUserAdmin (userId : Nat) (s : WState) : WState × List Ev :=
  match s.users.find? (fun u => u.id = userId) with
  | none => (s, [])
  | some u =>
    if u.role = "admin" then (s, [])
    else
      ({ s with users := s.users.map (fun u2 =>
          if u2.id = userId then { u2 with role := "admin" } else u2) },
        [Ev.roleChanged userId "admin"])

/-- Source `removeUserAdmin`: checks the current role and issues
`users.update_role` to `viewer` only when the user is currently an
admin. -/
def removeUserAdmin (userId : Nat) (s : WState) : WState × List Ev :=
  match s.users.find? (fun u => u.id = userId) with
  | none => (s, [])
  | some u =>
    if u.role ≠ "admin" then (s, [])
    else
      ({ s with users := s.users.map (fun u2 =>
          if u2.id = userId then { u2 with role := "viewer" } else u2) },
        [Ev.roleChanged userId "viewer"])

/-- Source `deleteGroup`: `groups.delete`. -/
def deleteGroup (groupId : Nat) (s : WState) : WState × List Ev :=
  ({ s with groups := s.groups.filter (fun g => g.id ≠ groupId) },
    [Ev.groupDeleted groupId])

/-- Source `deleteCollection`: `collections.delete`. -/
def deleteCollection (collectionId : Nat) (s : WState) : WState × List Ev :=
  ({ s with collections := s.collections.filter (fun c => c.id ≠ collectionId) },
    [Ev.collectionDeleted collectionId])

/-- Source `addGroupToCollection`: `collections.add_group` with a permission
level; the code issues it unconditionally. -/
def addGroupToCollection (groupId collectionId : Nat) (permission : String)
    (s : WState) : WState × List Ev :=
  ({ s with collections := s.collections.map (fun c =>
      if c.id = collectionId then { c with groupLinks := c.groupLinks ++ [(groupId, permission)] } else c) },
    [Ev.collectionGroupAdded collectionId groupId])

/-- Source `getGroupMembers`: one `groups.memberships` request with
`{ id: groupId, limit: 100 }`, resolved to user records; only that single
page of at most 100 members is returned. -/
def getGroupMembers (groupId : Nat) (s : WState) : List User :=
  match s.groups.find? (fun g => g.id = groupId) with
  | none => []
  | some g =>
    listPage (g.members.filterMap (fun uid => s.users.find? (fun u => u.id = uid))) 100

/-- Source `getAllAdminUsers`: one `users.list` request with
`{ role: 'admin' }` and no `limit` field — so the server returns a single
page of its default size (`DEFAULT_PAGE_LIMIT`) — with the configured
admin email filtered out client-side. -/
def getAllAdminUsers (cfg : Config) (s : WState) : List User :=
  (listPage (s.users.filter (fun u => u.role = "admin")) DEFAULT_PAGE_LIMIT).filter
    (fun u => u.email ≠ cfg.adminEmail)

/-- Source `getAllowedUnits`: `null` (here `none`) when no file is configured;
`[]` when the configured file does not exist; the parsed array when the
file holds a JSON array; and — because the `Invalid format` error thrown
for non-array content is caught by the surrounding `try` of the same
function, as is any read/parse failure — `[]` in the malformed cases as
well. -/
def getAllowedUnits (file : Option AllowedUnitsFile) : Option (List String) :=
  match file with
  | none => none
  | some AllowedUnitsFile.missing => some []
  | some (AllowedUnitsFile.arr units) => some units
  | some AllowedUnitsFile.notArr => some []
  | some AllowedUnitsFile.unreadable => some []

/-- Source `isUnitAllowed`: `true` when no allowlist is configured, otherwise a
case-insensitive membership test of the unit name. -/
def isUnitAllowed (unit : OrgUnit) (allowedUnits : Option (List String)) : Bool :=
  match allowedUnits with
  | none => true
  | some l => l.any (fun allowedUnit => allowedUnit.lowerStr = unit.name.lowerStr)

/-- The per-user unit filter of `syncUsers`:
`allowedUnits === null ? units : units.filter(isUnitAllowed)`. -/
def filterUnits (allowedUnits : Option (List String)) (units : List OrgUnit) : List OrgUnit :=
  match allowedUnits with
  | none => units
  | some l => units.filter (fun unit => isUnitAllowed unit (some l))

/-- Source `isCollectionManaged`: the admin collection, or a collection whose
name is among the given lowercased group names. -/
def isCollectionManaged (collection : Collection) (groupNames : List String) : Bool :=
  if collection.name.lowerStr = ADMIN_GROUP_NAME.lowerStr then true
  else groupNames.contains collection.name.lowerStr

/-- Run an effectful step for each element of a list in order, threading
the workspace state and concatenating the emitted events. -/
def stepAll {α : Type} (f : α → WState → WState × List Ev) :
    List α → WState → WState × List Ev
  | [], s => (s, [])
  | x :: xs, s =>
    let r1 := f x s
    let r2 := stepAll f xs r1.1
    (r2.1, r1.2 ++ r2.2)

/-- The `userUnitsMap` of `syncUsers`: for each active user, the units
reported by the directory filtered through the allowlist policy. -/
def userUnitsMap (cfg : Config) (d : Dir) (activeUsers : List User) :
    List (String × List OrgUnit) :=
  activeUsers.map (fun user =>
    (user.email, filterUnits (getAllowedUnits cfg.allowedUnitsFile) (getUserUnits d user.email)))

/-- The `validGroupNames` set as it stands when the find-or-create loop
has completed: the reserved admin name plus the lowercased name of every
allowed unit of every active user (the loop adds each processed unit
name and, in this failure-free model, always runs to completion). -/
def validGroupNames (uum : List (String × List OrgUnit)) : List String :=
  ADMIN_GROUP_NAME.lowerStr ::
    ((uum.map (fun p => p.2)).flatten.map (fun unit => unit.name.lowerStr))

/-- One iteration of the find-or-create loop body of `syncUsers`: find or
create the group named after the unit, then add the user to it. -/
def processUnit (user : User) (unit : OrgUnit) (s : WState) : WState × List Ev :=
  match findGroupByName s unit.name with
  | some group => addUserToGroup user.id group.id s
  | none =>
    let r := createGroup unit.name s
    let r2 := addUserToGroup user.id r.1.id r.2.1
    (r2.1, r.2.2 ++ r2.2)

/-- The inner unit loop of `syncUsers` for one user. -/
def processUser (uum : List (String × List OrgUnit)) (user : User) (s : WState) :
    WState × List Ev :=
  stepAll (processUnit user) ((assoc uum user.email).getD []) s

/-- Source `ensureAdminGroup`: find the reserved admin group, creating it when
absent. -/
def ensureAdminGroup (s : WState) : Group × WState × List Ev :=
  match findGroupByName s ADMIN_GROUP_NAME with
  | some adminGroup => (adminGroup, s, [])
  | none => createGroup ADMIN_GROUP_NAME s

/-- Source `fetchAdminsRecursively` of `getAllAdmins`: skip a group already in
the visited set, otherwise mark it visited, fetch its members and walk
them in order — persons are pushed onto the accumulated admin list,
nested groups are expanded recursively with the threaded visited set.
`fuel` bounds the nesting depth of group fetches;
`c10_admin_expansion_terminates` shows the fuel used by `getAllAdmins`
is always sufficient. -/
def fetchAdminsStep (recurse : String → List String → List Admin × List String)
    (acc : List Admin × List String) (m : DirMember) : List Admin × List String :=
  match m with
  | DirMember.person pid email => (acc.1 ++ [{ id := pid, email := email }], acc.2)
  | DirMember.group gid =>
    let r := recurse gid acc.2
    (acc.1 ++ r.1, r.2)

/-- The recursion of `fetchAdminsRecursively`, walking a group unless it
is already visited. -/
def fetchAdminsRec (d : Dir) : Nat → String → List String → List Admin × List String
  | 0, _, visited => ([], visited)
  | fuel + 1, group, visited =>
    if group ∈ visited then ([], visited)
    else ((assoc d.groups group).getD []).foldl
      (fetchAdminsStep (fetchAdminsRec d fuel)) ([], group :: visited)

/-- One `Map.set` of the JS `new Map(allAdmins.map(a => [a.id, a]))`:
first insertion of a key keeps its position, a later insertion of the
same key overwrites the value in place. -/
def jsMapInsert (m : List (Nat × Admin)) (k : Nat) (v : Admin) : List (Nat × Admin) :=
  if m.any (fun p => p.1 = k) then m.map (fun p => if p.1 = k then (k, v) else p)
  else m ++ [(k, v)]

/-- The id-based deduplication of `getAllAdmins`. -/
def uniqueAdmins (allAdmins : List Admin) : List Admin :=
  (allAdmins.foldl (fun m admin => jsMapInsert m admin.id admin) []).map (fun p => p.2)

/-- Source `getAllAdmins`: recursive expansion of the configured directory admin
group, deduplicated by person id.  The recursion receives
`d.groups.length + 1` fuel, which `c10_admin_expansion_terminates`
proves sufficient for every directory, cycles included. -/
def getAllAdmins (cfg : Config) (d : Dir) : List Admin :=
  uniqueAdmins (fetchAdminsRec d (d.groups.length + 1) cfg.dirAdminGroup []).1

/-- The admin-addition loop inside `syncUsers` (one directory admin): if
a workspace user with that email exists, add them to the admin group and
ensure they hold the admin role. -/
def adminAddStep (cfg : Config) (adminGroupId : Nat) (admin : Admin) (s : WState) :
    WState × List Ev :=
  match findUserByEmail cfg s admin.email with
  | none => (s, [])
  | some user =>
    let r1 := addUserToGroup user.id adminGroupId s
    let r2 := makeUserAdmin user.id r1.1
    (r2.1, r1.2 ++ r2.2)

/-- The obsolete-group deletion loop body of `syncUsers`: skip the admin
group, delete any group whose lowercased name is not in
`validGroupNames` — without consulting its members. -/
def deleteObsoleteStep (valid : List String) (group : Group) (s : WState) :
    WState × List Ev :=
  if group.name.lowerStr = ADMIN_GROUP_NAME.lowerStr then (s, [])
  else if valid.contains group.name.lowerStr then (s, [])
  else deleteGroup group.id s

/-- Admin-group branch of the membership cleanup loop: a member whose
email is not a directory admin email is removed from the group and
stripped of the admin role. -/
def cleanupAdminMember (admins : List Admin) (groupId : Nat) (member : User)
    (s : WState) : WState × List Ev :=
  if admins.any (fun admin => admin.email = member.email) then (s, [])
  else
    let r1 := removeUserFromGroup member.id groupId s
    let r2 := removeUserAdmin member.id r1.1
    (r2.1, r1.2 ++ r2.2)

/-- Non-admin branch of the membership cleanup loop: an active member
whose filtered unit set no longer contains this group's name is removed
from the group. -/
def cleanupUnitMember (activeUsers : List User) (uum : List (String × List OrgUnit))
    (groupId : Nat) (groupName : String) (member : User) (s : WState) :
    WState × List Ev :=
  match activeUsers.find? (fun u => u.id = member.id) with
  | none => (s, [])
  | some user =>
    if ((assoc uum user.email).getD []).any
        (fun unit => unit.name.lowerStr = groupName.lowerStr) then (s, [])
    else removeUserFromGroup member.id groupId s

/-- The membership cleanup loop body of `syncUsers` for one group of the
initial snapshot: fetch current members, then apply the admin or the
unit branch. -/
def cleanupGroup (admins : List Admin) (activeUsers : List User)
    (uum : List (String × List OrgUnit)) (group : Group) (s : WState) :
    WState × List Ev :=
  let groupMembers := getGroupMembers group.id s
  if group.name.lowerStr = ADMIN_GROUP_NAME.lowerStr then
    stepAll (cleanupAdminMember admins group.id) groupMembers s
  else
    stepAll (cleanupUnitMember activeUsers uum group.id group.name) groupMembers s

/-- The Unit/Group phase `syncUsers`: list active users, groups and the
allowlist; bail out when no active user exists; build `userUnitsMap`;
find-or-create a group per (user, unit) and add the user; ensure the
admin group and add directory admins to it with the admin role; delete
the groups of the initial snapshot whose name is not in
`validGroupNames`; finally prune memberships group by group.  Returns
the final state, the ordered mutation events, and the success flag. -/
def syncUsers (cfg : Config) (d : Dir) (s0 : WState) : WState × List Ev × Bool :=
  let activeUsers := getAllUsers cfg s0
  let existingGroups := getAllGroups s0
  if activeUsers.isEmpty then (s0, [], false)
  else
    let uum := userUnitsMap cfg d activeUsers
    let valid := validGroupNames uum
    let r1 := stepAll (processUser uum) activeUsers s0
    let r2 := ensureAdminGroup r1.1
    let admins := getAllAdmins cfg d
    let r3 := stepAll (adminAddStep cfg r2.1.id) admins r2.2.1
    let r4 := stepAll (deleteObsoleteStep valid) existingGroups r3.1
    let r5 := stepAll (cleanupGroup admins activeUsers uum) existingGroups r4.1
    (r5.1, r1.2 ++ r2.2.2 ++ r3.2 ++ r4.2 ++ r5.2, true)

/-- The promotion loop body of `syncAdmins` for one directory admin:
resolve the workspace user by email; if found, add to the admin group
and, unless the user was already listed as a workspace admin, grant the
admin role. -/
def syncAdminsAddStep (cfg : Config) (existingAdminUsers : List User)
    (adminGroupId : Nat) (admin : Admin) (s : WState) : WState × List Ev :=
  match findUserByEmail cfg s admin.email with
  | none => (s, [])
  | some user =>
    let isAdminAlready := existingAdminUsers.any (fun ea => ea.id = user.id)
    let r1 := addUserToGroup user.id adminGroupId s
    if isAdminAlready then r1
    else
      let r2 := makeUserAdmin user.id r1.1
      (r2.1, r1.2 ++ r2.2)

/-- The demotion loop body of `syncAdmins` for one current workspace
admin: when their email is absent from the directory admin list, drop
the admin role and remove them from the admin group. -/
def syncAdminsDemoteStep (epflAdmins : List Admin) (adminGroupId : Nat)
    (existingAdmin : User) (s : WState) : WState × List Ev :=
  if epflAdmins.any (fun admin => admin.email = existingAdmin.email) then (s, [])
  else
    let r1 := removeUserAdmin existingAdmin.id s
    let r2 := removeUserFromGroup existingAdmin.id adminGroupId r1.1
    (r2.1, r1.2 ++ r2.2)

/-- The Admin phase `syncAdmins`: expand the directory admin list, list
current workspace admins, ensure the admin group, promote directory
admins, then demote workspace admins absent from the directory list. -/
def syncAdmins (cfg : Config) (d : Dir) (s0 : WState) : WState × List Ev × Bool :=
  let epflAdmins := getAllAdmins cfg d
  let existingAdminUsers := getAllAdminUsers cfg s0
  let r1 := ensureAdminGroup s0
  let r2 := stepAll (syncAdminsAddStep cfg existingAdminUsers r1.1.id) epflAdmins r1.2.1
  let r3 := stepAll (syncAdminsDemoteStep epflAdmins r1.1.id) existingAdminUsers r2.1
  (r3.1, r1.2.2 ++ r2.2 ++ r3.2, true)

/-- The per-group body of the first `syncCollections` loop: skip the
admin group; find-or-create the same-named collection; link the group to
it read-write (the code issues `collections.add_group`
unconditionally). -/
def collectionGroupStep (group : Group) (s : WState) : WState × List Ev :=
  if group.name.lowerStr = ADMIN_GROUP_NAME.lowerStr then (s, [])
  else
    match findCollectionByName s group.name with
    | some collection => addGroupToCollection group.id collection.id "read_write" s
    | none =>
      let r := createCollection group.name false s
      let r2 := addGroupToCollection group.id r.1.id "read_write" r.2.1
      (r2.1, r.2.2 ++ r2.2)

/-- The per-collection body of the second `syncCollections` loop: skip
the admin collection; skip a collection whose lowercased name occurs
verbatim in `ALLOWED_COLLECTIONS`; delete a collection whose lowercased
name matches no current non-admin group name. -/
def collectionDeleteStep (cfg : Config) (groupNames : List String)
    (collection : Collection) (s : WState) : WState × List Ev :=
  let collectionName := collection.name.lowerStr
  if collectionName = ADMIN_GROUP_NAME.lowerStr then (s, [])
  else if cfg.allowedCollections.contains collectionName then (s, [])
  else if groupNames.contains collectionName then (s, [])
  else deleteCollection collection.id s

/-- The Collection phase `syncCollections`: snapshot groups and
collections, ensure the admin group, mirror every non-admin group into a
same-named linked collection, then delete the unmatched, non-allowlisted
collections of the snapshot. -/
def syncCollections (cfg : Config) (s0 : WState) : WState × List Ev × Bool :=
  let groups := getAllGroups s0
  let collections := getAllCollections s0
  let r1 := ensureAdminGroup s0
  let groupNames := (groups.filter
    (fun g => g.name.lowerStr ≠ ADMIN_GROUP_NAME.lowerStr)).map (fun g => g.name.lowerStr)
  let r2 := stepAll collectionGroupStep groups r1.2.1
  let r3 := stepAll (collectionDeleteStep cfg groupNames) collections r2.1
  (r3.1, r1.2.2 ++ r2.2 ++ r3.2, true)

/-- The user list the spec describes: every workspace user, the excluded
admin filtered out — what transparent pagination of `users.list` would
return. -/
def getAllUsersSpec (cfg : Config) (s : WState) : List User :=
  s.users.filter (fun u => u.email ≠ cfg.adminEmail)

/-- The group list the spec describes: every workspace group — what
transparent pagination of `groups.list` would return. -/
def getAllGroupsSpec (s : WState) : List Group :=
  s.groups

/-- The collection list the spec describes: every workspace collection —
what transparent pagination of `collections.list` would return. -/
def getAllCollectionsSpec (s : WState) : List Collection :=
  s.collections

/-- The member list the spec describes: every resolvable member of the
group — what transparent pagination of `groups.memberships` would
return. -/
def getGroupMembersSpec (groupId : Nat) (s : WState) : List User :=
  match s.groups.find? (fun g => g.id = groupId) with
  | none => []
  | some g => g.members.filterMap (fun uid => s.users.find? (fun u => u.id = uid))

theorem getAllUsers_full (cfg : Config) {s : WState} (h : s.users.length ≤ 100) :
    getAllUsers cfg s = s.users.filter (fun u => u.email ≠ cfg.adminEmail) := by
  unfold getAllUsers listPage
  rw [List.take_of_length_le h]

theorem getAllGroups_full {s : WState} (h : s.groups.length ≤ 100) :
    getAllGroups s = s.groups := by
  unfold getAllGroups listPage
  exact List.take_of_length_le h

theorem getAllCollections_full {s : WState} (h : s.collections.length ≤ 100) :
    getAllCollections s = s.collections := by
  unfold getAllCollections listPage
  exact List.take_of_length_le h

theorem getGroupMembers_full (gid : Nat) {s : WState}
    (h : ∀ g ∈ s.groups, g.members.length ≤ 100) :
    getGroupMembers gid s = getGroupMembersSpec gid s := by
  unfold getGroupMembers getGroupMembersSpec
  cases hf : s.groups.find? (fun g => g.id = gid) with
  | none => rfl
  | some g =>
    have hmem : g ∈ s.groups := List.mem_of_find?_eq_some hf
    have hlen : (g.members.filterMap
        (fun uid => s.users.find? (fun u => u.id = uid))).length ≤ 100 :=
      le_trans (List.length_filterMap_le _ _) (h g hmem)
    show listPage _ 100 = _
    unfold listPage
    exact List.take_of_length_le hlen

theorem getAllUsers_mem_users {cfg : Config} {s : WState} {u : User}
    (h : u ∈ getAllUsers cfg s) : u ∈ s.users ∧ u.email ≠ cfg.adminEmail := by
  unfold getAllUsers listPage at h
  have h1 := List.mem_filter.mp h
  exact ⟨(List.take_sublist _ _).subset h1.1, by simpa using h1.2⟩

theorem getAllGroups_mem {s : WState} {g : Group} (h : g ∈ getAllGroups s) :
    g ∈ s.groups := by
  unfold getAllGroups listPage at h
  exact (List.take_sublist _ _).subset h

/-! ## Generic facts about the threaded loop combinator -/

theorem stepAll_nil {α : Type} (f : α → WState → WState × List Ev) (s : WState) :
    stepAll f [] s = (s, []) := rfl

theorem stepAll_cons {α : Type} (f : α → WState → WState × List Ev) (x : α)
    (xs : List α) (s : WState) :
    stepAll f (x :: xs) s =
      ((stepAll f xs (f x s).1).1, (f x s).2 ++ (stepAll f xs (f x s).1).2) := rfl

theorem stepAll_noop {α : Type} {f : α → WState → WState × List Ev} :
    ∀ {l : List α} {s : WState}, (∀ x ∈ l, f x s = (s, [])) → stepAll f l s = (s, [])
  | [], _, _ => rfl
  | x :: xs, s, h => by
    have hx : f x s = (s, []) := h x (List.mem_cons_self x xs)
    have hxs : stepAll f xs s = (s, []) := stepAll_noop (fun y hy => h y (List.mem_cons_of_mem x hy))
    simp [stepAll_cons, hx, hxs]

theorem stepAll_events {α : Type} {f : α → WState → WState × List Ev} {P : Ev → Prop}
    (h : ∀ x (t : WState), ∀ e ∈ (f x t).2, P e) :
    ∀ (l : List α) (s : WState), ∀ e ∈ (stepAll f l s).2, P e
  | [], _, _, he => by simp [stepAll_nil] at he
  | x :: xs, s, e, he => by
    rw [stepAll_cons] at he
    rcases List.mem_append.mp he with h1 | h2
    · exact h x s e h1
    · exact stepAll_events h xs (f x s).1 e h2

theorem stepAll_pres {α : Type} {f : α → WState → WState × List Ev} {P : WState → Prop} :
    ∀ {l : List α} {s : WState}, (∀ x ∈ l, ∀ t, P t → P (f x t).1) → P s →
      P (stepAll f l s).1
  | [], _, _, hs => hs
  | x :: xs, s, h, hs => by
    rw [stepAll_cons]
    exact stepAll_pres (fun y hy => h y (List.mem_cons_of_mem x hy))
      (h x (List.mem_cons_self x xs) s hs)

/-! ## C9 — missing allowed-units file filters everything out -/

/-- C9: when the allowed-units file path is configured but the file does
not exist, `getAllowedUnits` returns the empty list rather than `null`;
`isUnitAllowed` rejects every unit against the empty list, so the unit
filter used by `syncUsers` drops every unit of every user — the opposite
of the unconfigured case, where `getAllowedUnits` returns `null` and
every unit is allowed. -/
theorem c9_missing_file_filters_all :
    getAllowedUnits (some AllowedUnitsFile.missing) = some [] ∧
    (∀ unit : OrgUnit, isUnitAllowed unit (some []) = false) ∧
    (∀ units : List OrgUnit,
      filterUnits (getAllowedUnits (some AllowedUnitsFile.missing)) units = []) ∧
    (∀ unit : OrgUnit, isUnitAllowed unit (getAllowedUnits none) = true) ∧
    (∀ units : List OrgUnit, filterUnits (getAllowedUnits none) units = units) := by
  refine ⟨rfl, fun unit => rfl, fun units => ?_, fun unit => rfl, fun units => rfl⟩
  simp [filterUnits, getAllowedUnits, isUnitAllowed]

/-! ## C5 — pagination is not concatenated to completion -/

/-- C5 counterexample: with 101 workspace users (none of them the
excluded admin), the engine's user list — one `users.list` call with
`limit: 100` — has only 100 entries and misses the user with id 100,
refuting "for any number of users ... the engine's list results contain
every element". -/
theorem c5_counterexample :
    ({ id := 100, email := "u@x", role := "viewer", suspended := false } : User) ∈
      getAllUsersSpec
        { adminEmail := "root@x", allowedCollections := [], allowedUnitsFile := none,
          dirAdminGroup := "wiki-admins" }
        (WState.mk ((List.range 101).map
          (fun i => { id := i, email := "u@x", role := "viewer", suspended := false }))
          [] [] 200) ∧
    ({ id := 100, email := "u@x", role := "viewer", suspended := false } : User) ∉
      getAllUsers
        { adminEmail := "root@x", allowedCollections := [], allowedUnitsFile := none,
          dirAdminGroup := "wiki-admins" }
        (WState.mk ((List.range 101).map
          (fun i => { id := i, email := "u@x", role := "viewer", suspended := false }))
          [] [] 200) ∧
    (getAllUsers
        { adminEmail := "root@x", allowedCollections := [], allowedUnitsFile := none,
          dirAdminGroup := "wiki-admins" }
        (WState.mk ((List.range 101).map
          (fun i => { id := i, email := "u@x", role := "viewer", suspended := false }))
          [] [] 200)).length = 100 := by decide

/-- C5 amended: each of the four cited list consumers — `users.list`,
`groups.list`, `collections.list`, `groups.memberships` — issues exactly
one page request and uses only that page, so its result is the complete
collection described by the spec precisely when the collection fits in
one page; elements beyond the first page never reach the engine. -/
theorem c5_single_page (cfg : Config) (s : WState) (gid : Nat)
    (hu : s.users.length ≤ 100) (hgr : s.groups.length ≤ 100)
    (hc : s.collections.length ≤ 100)
    (hg : ∀ g ∈ s.groups, g.members.length ≤ 100) :
    getAllUsers cfg s = getAllUsersSpec cfg s ∧
    getAllGroups s = getAllGroupsSpec s ∧
    getAllCollections s = getAllCollectionsSpec s ∧
    getGroupMembers gid s = getGroupMembersSpec gid s := by
  refine ⟨getAllUsers_full cfg hu, getAllGroups_full hgr,
    getAllCollections_full hc, getGroupMembers_full gid hg⟩

/-- C5 amended, witness. -/
theorem c5_single_page_witness :
    getAllUsers
      { adminEmail := "root@x", allowedCollections := [], allowedUnitsFile := none,
        dirAdminGroup := "wiki-admins" }
      (WState.mk [{ id := 1, email := "u@x", role := "viewer", suspended := false }]
        [{ id := 5, name := "g", members := [1] }] [] 10) =
    getAllUsersSpec
      { adminEmail := "root@x", allowedCollections := [], allowedUnitsFile := none,
        dirAdminGroup := "wiki-admins" }
      (WState.mk [{ id := 1, email := "u@x", role := "viewer", suspended := false }]
        [{ id := 5, name := "g", members := [1] }] [] 10) :=
  (c5_single_page
    { adminEmail := "root@x", allowedCollections := [], allowedUnitsFile := none,
      dirAdminGroup := "wiki-admins" }
    (WState.mk [{ id := 1, email := "u@x", role := "viewer", suspended := false }]
      [{ id := 5, name := "g", members := [1] }] [] 10) 5
    (by decide) (by decide) (by decide) (by decide)).1

/-! ## C2 — malformed allowed-units file is not fatal -/

/-- C2: the `Invalid format` error that `getAllowedUnits` throws for a
configured, existing, non-array allowed-units file is caught by the
function's own `try`, which returns `[]`; `syncUsers` then proceeds
under the malformed policy — with an empty allowlist every unit is
filtered out — and even performs mutations (here it deletes a populated
group) instead of aborting before any mutation as the claim requires. -/
theorem c2_malformed_allowlist_not_fatal :
    getAllowedUnits (some AllowedUnitsFile.notArr) = some [] ∧
    (syncUsers
      { adminEmail := "root@x", allowedCollections := [],
        allowedUnitsFile := some AllowedUnitsFile.notArr, dirAdminGroup := "wiki-admins" }
      { persons := [("u@x", some 7)], units := [(7, [{ name := "research-it" }])],
        groups := [] }
      { users := [{ id := 1, email := "u@x", role := "viewer", suspended := false }],
        groups := [{ id := 5, name := "research-it", members := [1] }],
        collections := [], nextId := 10 }).2 =
      ([Ev.groupCreated 10 "admin", Ev.groupDeleted 5], true) := by decide

/-! ## C1 — obsolete groups are deleted without a member check -/

/-- C1 counterexample: the workspace holds a group `obsolete` (id 5) with
one member, no user has a unit named `obsolete`, and `syncUsers` issues
the delete for it anyway — the claim that the engine "never issues a
delete for an obsolete group that still has at least one member" is
false, and no member fetch precedes the decision (the deletion loop body
never reads members). -/
theorem c1_counterexample :
    (WState.mk [{ id := 1, email := "u@x", role := "viewer", suspended := false }]
      [{ id := 5, name := "obsolete", members := [1] }] [] 10).groups =
      [{ id := 5, name := "obsolete", members := [1] }] ∧
    ({ id := 5, name := "obsolete", members := [1] } : Group).members.length = 1 ∧
    Ev.groupDeleted 5 ∈
      (syncUsers
        { adminEmail := "root@x", allowedCollections := [], allowedUnitsFile := none,
          dirAdminGroup := "wiki-admins" }
        { persons := [("u@x", some 7)], units := [(7, [])], groups := [] }
        (WState.mk [{ id := 1, email := "u@x", role := "viewer", suspended := false }]
          [{ id := 5, name := "obsolete", members := [1] }] [] 10)).2.1 := by decide

/-! ## C3 — a not-found person is not suspended -/

/-- C3 counterexample: the directory reports no person for the only
active user's email; `syncUsers` completes successfully and treats the
unit set as empty, but no workspace user is suspended — the code has no
suspension call, refuting "the engine suspends that workspace user". -/
theorem c3_counterexample :
    assoc (Dir.mk [] [] []).persons "u@x" = none ∧
    (syncUsers
        { adminEmail := "root@x", allowedCollections := [], allowedUnitsFile := none,
          dirAdminGroup := "wiki-admins" }
        (Dir.mk [] [] [])
        (WState.mk [{ id := 1, email := "u@x", role := "viewer", suspended := false }]
          [] [] 10)).2.2 = true ∧
    ((syncUsers
        { adminEmail := "root@x", allowedCollections := [], allowedUnitsFile := none,
          dirAdminGroup := "wiki-admins" }
        (Dir.mk [] [] [])
        (WState.mk [{ id := 1, email := "u@x", role := "viewer", suspended := false }]
          [] [] 10)).1.users.any (fun u => u.suspended)) = false := by decide

/-! ## C4 — the Unit/Group phase is not idempotent in general -/

/-- C4 counterexample: a unit named `ADMIN` case-insensitively collides
with the reserved admin group.  The find-or-create loop adds the user to
the admin group, the admin cleanup branch removes them again, and the
second run — with identical directory data and no external change —
repeats both mutations, refuting "zero additional state-changing
mutations on the second run". -/
theorem c4_counterexample :
    (syncUsers
        { adminEmail := "root@x", allowedCollections := [], allowedUnitsFile := none,
          dirAdminGroup := "wiki-admins" }
        (Dir.mk [("u@x", some 7)] [(7, [{ name := "ADMIN" }])] [])
        ((syncUsers
          { adminEmail := "root@x", allowedCollections := [], allowedUnitsFile := none,
            dirAdminGroup := "wiki-admins" }
          (Dir.mk [("u@x", some 7)] [(7, [{ name := "ADMIN" }])] [])
          (WState.mk [{ id := 1, email := "u@x", role := "viewer", suspended := false }]
            [{ id := 5, name := "admin", members := [] }] [] 10)).1)).2.1 =
      [Ev.memberAdded 5 1, Ev.memberRemoved 5 1] := by decide

/-! ## User-skeleton preservation: the sync phases never create, delete
or suspend users, and never change an email — only roles move. -/

/-- The per-user data that no sync phase may alter: id, email, suspended
flag. -/
def userSkel (u : User) : Nat × String × Bool :=
  (u.id, u.email, u.suspended)

theorem users_addUserToGroup (uid gid : Nat) (s : WState) :
    (addUserToGroup uid gid s).1.users = s.users := by
  unfold addUserToGroup
  cases s.groups.find? (fun g => g.id = gid) with
  | none => rfl
  | some g =>
    by_cases hm : uid ∈ g.members <;> simp [hm]

theorem users_removeUserFromGroup (uid gid : Nat) (s : WState) :
    (removeUserFromGroup uid gid s).1.users = s.users := rfl

theorem users_createGroup (name : String) (s : WState) :
    (createGroup name s).2.1.users = s.users := rfl

theorem users_deleteGroup (gid : Nat) (s : WState) :
    (deleteGroup gid s).1.users = s.users := rfl

theorem users_createCollection (name : String) (b : Bool) (s : WState) :
    (createCollection name b s).2.1.users = s.users := rfl

theorem users_deleteCollection (cid : Nat) (s : WState) :
    (deleteCollection cid s).1.users = s.users := rfl

theorem users_addGroupToCollection (gid cid : Nat) (p : String) (s : WState) :
    (addGroupToCollection gid cid p s).1.users = s.users := rfl

theorem users_ensureAdminGroup (s : WState) :
    (ensureAdminGroup s).2.1.users = s.users := by
  unfold ensureAdminGroup
  cases findGroupByName s ADMIN_GROUP_NAME <;> rfl

theorem skel_makeUserAdmin (uid : Nat) (s : WState) :
    (makeUserAdmin uid s).1.users.map userSkel = s.users.map userSkel := by
  unfold makeUserAdmin
  split
  · rfl
  · split
    · rfl
    · simp only [List.map_map]
      exact List.map_congr_left (fun a _ => by
        by_cases ha : a.id = uid <;> simp [ha, userSkel, Function.comp])

theorem skel_removeUserAdmin (uid : Nat) (s : WState) :
    (removeUserAdmin uid s).1.users.map userSkel = s.users.map userSkel := by
  unfold removeUserAdmin
  split
  · rfl
  · split
    · rfl
    · simp only [List.map_map]
      exact List.map_congr_left (fun a _ => by
        by_cases ha : a.id = uid <;> simp [ha, userSkel, Function.comp])

theorem skel_processUnit (user : User) (unit : OrgUnit) (s : WState) :
    (processUnit user unit s).1.users.map userSkel = s.users.map userSkel := by
  unfold processUnit
  split
  · rw [users_addUserToGroup]
  · simp only []
    rw [users_addUserToGroup, users_createGroup]

theorem skel_adminAddStep (cfg : Config) (agid : Nat) (admin : Admin) (s : WState) :
    (adminAddStep cfg agid admin s).1.users.map userSkel = s.users.map userSkel := by
  unfold adminAddStep
  split
  · rfl
  · simp only []
    rw [skel_makeUserAdmin, users_addUserToGroup]

theorem skel_deleteObsoleteStep (valid : List String) (g : Group) (s : WState) :
    (deleteObsoleteStep valid g s).1.users.map userSkel = s.users.map userSkel := by
  unfold deleteObsoleteStep
  split
  · rfl
  · split
    · rfl
    · rw [users_deleteGroup]

theorem skel_cleanupAdminMember (admins : List Admin) (gid : Nat) (m : User) (s : WState) :
    (cleanupAdminMember admins gid m s).1.users.map userSkel = s.users.map userSkel := by
  unfold cleanupAdminMember
  split
  · rfl
  · simp only []
    rw [skel_removeUserAdmin, users_removeUserFromGroup]

theorem skel_cleanupUnitMember (activeUsers : List User)
    (uum : List (String × List OrgUnit)) (gid : Nat) (gname : String) (m : User)
    (s : WState) :
    (cleanupUnitMember activeUsers uum gid gname m s).1.users.map userSkel =
      s.users.map userSkel := by
  unfold cleanupUnitMember
  split
  · rfl
  · split
    · rfl
    · rw [users_removeUserFromGroup]

theorem skel_stepAll {α : Type} {f : α → WState → WState × List Ev}
    (h : ∀ x (t : WState), (f x t).1.users.map userSkel = t.users.map userSkel)
    (l : List α) (s : WState) :
    (stepAll f l s).1.users.map userSkel = s.users.map userSkel := by
  induction l generalizing s with
  | nil => rfl
  | cons x xs ih =>
    rw [stepAll_cons]
    simp only []
    rw [ih, h]

theorem skel_processUser (uum : List (String × List OrgUnit)) (user : User)
    (s : WState) :
    (processUser uum user s).1.users.map userSkel = s.users.map userSkel :=
  skel_stepAll (fun unit t => skel_processUnit user unit t) _ s

theorem skel_cleanupGroup (admins : List Admin) (activeUsers : List User)
    (uum : List (String × List OrgUnit)) (g : Group) (s : WState) :
    (cleanupGroup admins activeUsers uum g s).1.users.map userSkel =
      s.users.map userSkel := by
  unfold cleanupGroup
  split
  · exact skel_stepAll (fun m t => skel_cleanupAdminMember admins g.id m t) _ s
  · exact skel_stepAll (fun m t => skel_cleanupUnitMember activeUsers uum g.id g.name m t) _ s

/-- Unfolding of `syncUsers` on the no-active-users early return. -/
theorem syncUsers_empty (cfg : Config) (d : Dir) (s0 : WState)
    (hie : (getAllUsers cfg s0).isEmpty = true) :
    syncUsers cfg d s0 = (s0, [], false) := by
  unfold syncUsers
  simp only [hie, if_true]

/-- Unfolding of `syncUsers` when at least one active user exists. -/
theorem syncUsers_eq_nonempty (cfg : Config) (d : Dir) (s0 : WState)
    (hie : (getAllUsers cfg s0).isEmpty = false) :
    syncUsers cfg d s0 =
      (let activeUsers := getAllUsers cfg s0
       let uum := userUnitsMap cfg d activeUsers
       let valid := validGroupNames uum
       let r1 := stepAll (processUser uum) activeUsers s0
       let r2 := ensureAdminGroup r1.1
       let admins := getAllAdmins cfg d
       let r3 := stepAll (adminAddStep cfg r2.1.id) admins r2.2.1
       let r4 := stepAll (deleteObsoleteStep valid) (getAllGroups s0) r3.1
       let r5 := stepAll (cleanupGroup admins activeUsers uum) (getAllGroups s0) r4.1
       (r5.1, r1.2 ++ r2.2.2 ++ r3.2 ++ r4.2 ++ r5.2, true)) := by
  unfold syncUsers
  simp only [hie, Bool.false_eq_true, if_false]

theorem skel_syncUsers (cfg : Config) (d : Dir) (s0 : WState) :
    (syncUsers cfg d s0).1.users.map userSkel = s0.users.map userSkel := by
  cases hie : (getAllUsers cfg s0).isEmpty with
  | true => rw [syncUsers_empty cfg d s0 hie]
  | false =>
    rw [syncUsers_eq_nonempty cfg d s0 hie]
    simp only []
    rw [skel_stepAll (fun g t => skel_cleanupGroup _ _ _ g t),
      skel_stepAll (fun g t => skel_deleteObsoleteStep _ g t),
      skel_stepAll (fun a t => skel_adminAddStep _ _ a t)]
    rw [congrArg (List.map userSkel) (users_ensureAdminGroup _)]
    exact skel_stepAll (fun u t => skel_processUser _ u t) _ s0

/-! ## C3 — amended statement -/

/-- C3 amended: when the directory person lookup fails (person no longer
exists), the engine treats that user's unit set as empty for the whole
run and the Unit/Group phase completes successfully rather than
aborting; but it does not suspend anybody — `syncUsers` never changes
any user's id, email or suspended flag. -/
theorem c3_not_found_units_empty_no_suspend (cfg : Config) (d : Dir) (s : WState)
    (email : String) (hnf : assoc d.persons email = none)
    (hne : getAllUsers cfg s ≠ []) :
    getUserUnits d email = [] ∧
    (∀ allowed, filterUnits allowed (getUserUnits d email) = []) ∧
    (syncUsers cfg d s).1.users.map userSkel = s.users.map userSkel ∧
    (syncUsers cfg d s).2.2 = true := by
  have hu : getUserUnits d email = [] := by
    unfold getUserUnits
    rw [hnf]
  have hie : (getAllUsers cfg s).isEmpty = false := by
    cases hl : getAllUsers cfg s with
    | nil => exact absurd hl hne
    | cons a as => rfl
  refine ⟨hu, fun allowed => ?_, skel_syncUsers cfg d s, ?_⟩
  · rw [hu]
    cases allowed <;> rfl
  · rw [syncUsers_eq_nonempty cfg d s hie]

/-- C3 amended, witness. -/
theorem c3_witness :
    getUserUnits (Dir.mk [] [] []) "w@x" = [] ∧
    (∀ allowed, filterUnits allowed (getUserUnits (Dir.mk [] [] []) "w@x") = []) ∧
    (syncUsers (Config.mk "root@x" [] none "wiki-admins") (Dir.mk [] [] [])
      (WState.mk [{ id := 2, email := "w@x", role := "viewer", suspended := false }]
        [] [] 10)).1.users.map userSkel =
      (WState.mk [{ id := 2, email := "w@x", role := "viewer", suspended := false }]
        [] [] 10).users.map userSkel ∧
    (syncUsers (Config.mk "root@x" [] none "wiki-admins") (Dir.mk [] [] [])
      (WState.mk [{ id := 2, email := "w@x", role := "viewer", suspended := false }]
        [] [] 10)).2.2 = true :=
  c3_not_found_units_empty_no_suspend (Config.mk "root@x" [] none "wiki-admins")
    (Dir.mk [] [] [])
    (WState.mk [{ id := 2, email := "w@x", role := "viewer", suspended := false }] [] [] 10)
    "w@x" (by decide) (by decide)

/-! ## Event shapes of the basic operations -/

theorem addUserToGroup_events (uid gid : Nat) (s : WState) :
    ∀ e ∈ (addUserToGroup uid gid s).2, e = Ev.memberAdded gid uid := by
  intro e he
  unfold addUserToGroup at he
  split at he
  · simp at he
  · split at he
    · simp at he
    · simpa using he

theorem makeUserAdmin_events (uid : Nat) (s : WState) :
    ∀ e ∈ (makeUserAdmin uid s).2, e = Ev.roleChanged uid "admin" := by
  intro e he
  unfold makeUserAdmin at he
  split at he
  · simp at he
  · split at he
    · simp at he
    · simpa using he

theorem removeUserAdmin_events (uid : Nat) (s : WState) :
    ∀ e ∈ (removeUserAdmin uid s).2, e = Ev.roleChanged uid "viewer" := by
  intro e he
  unfold removeUserAdmin at he
  split at he
  · simp at he
  · split at he
    · simp at he
    · simpa using he

theorem ensureAdminGroup_events (s : WState) :
    ∀ e ∈ (ensureAdminGroup s).2.2, ∃ gid, e = Ev.groupCreated gid ADMIN_GROUP_NAME := by
  intro e he
  unfold ensureAdminGroup at he
  split at he
  · simp at he
  · exact ⟨s.nextId, by simpa [createGroup] using he⟩

theorem processUnit_events (user : User) (unit : OrgUnit) (t : WState) :
    ∀ e ∈ (processUnit user unit t).2,
      (∃ gid, e = Ev.groupCreated gid unit.name) ∨
      (∃ gid, e = Ev.memberAdded gid user.id) := by
  intro e he
  unfold processUnit at he
  split at he
  · exact Or.inr ⟨_, addUserToGroup_events _ _ _ e he⟩
  · simp only [createGroup] at he
    rcases List.mem_append.mp he with h1 | h2
    · exact Or.inl ⟨t.nextId, List.mem_singleton.mp h1⟩
    · exact Or.inr ⟨_, addUserToGroup_events _ _ _ e h2⟩

theorem adminAddStep_events (cfg : Config) (agid : Nat) (admin : Admin) (t : WState) :
    ∀ e ∈ (adminAddStep cfg agid admin t).2,
      (∃ uid, e = Ev.memberAdded agid uid) ∨
      (∃ uid, e = Ev.roleChanged uid "admin") := by
  intro e he
  unfold adminAddStep at he
  split at he
  · simp at he
  · simp only [] at he
    rcases List.mem_append.mp he with h1 | h2
    · exact Or.inl ⟨_, addUserToGroup_events _ _ _ e h1⟩
    · exact Or.inr ⟨_, makeUserAdmin_events _ _ e h2⟩

theorem cleanupAdminMember_events (admins : List Admin) (gid : Nat) (m : User)
    (t : WState) :
    ∀ e ∈ (cleanupAdminMember admins gid m t).2,
      e = Ev.memberRemoved gid m.id ∨ e = Ev.roleChanged m.id "viewer" := by
  intro e he
  unfold cleanupAdminMember at he
  split at he
  · simp at he
  · simp only [removeUserFromGroup] at he
    rcases List.mem_append.mp he with h1 | h2
    · exact Or.inl (List.mem_singleton.mp h1)
    · exact Or.inr (removeUserAdmin_events _ _ e h2)

theorem cleanupUnitMember_events (activeUsers : List User)
    (uum : List (String × List OrgUnit)) (gid : Nat) (gname : String) (m : User)
    (t : WState) :
    ∀ e ∈ (cleanupUnitMember activeUsers uum gid gname m t).2,
      e = Ev.memberRemoved gid m.id := by
  intro e he
  unfold cleanupUnitMember at he
  split at he
  · simp at he
  · split at he
    · simp at he
    · simpa [removeUserFromGroup] using he

theorem cleanupGroup_events (admins : List Admin) (activeUsers : List User)
    (uum : List (String × List OrgUnit)) (g : Group) (t : WState) :
    ∀ e ∈ (cleanupGroup admins activeUsers uum g t).2,
      (∃ uid, e = Ev.memberRemoved g.id uid) ∨
      (∃ uid, e = Ev.roleChanged uid "viewer") := by
  intro e he
  unfold cleanupGroup at he
  split at he
  · refine stepAll_events
      (P := fun e => (∃ uid, e = Ev.memberRemoved g.id uid) ∨
        (∃ uid, e = Ev.roleChanged uid "viewer"))
      (fun m t2 e2 he2 => ?_) _ t e he
    rcases cleanupAdminMember_events admins g.id m t2 e2 he2 with h1 | h2
    · exact Or.inl ⟨m.id, h1⟩
    · exact Or.inr ⟨m.id, h2⟩
  · refine stepAll_events
      (P := fun e => (∃ uid, e = Ev.memberRemoved g.id uid) ∨
        (∃ uid, e = Ev.roleChanged uid "viewer"))
      (fun m t2 e2 he2 => ?_) _ t e he
    exact Or.inl ⟨m.id, cleanupUnitMember_events _ _ _ _ m t2 e2 he2⟩

/-! ## C1 — amended statement: deletions characterized -/

/-- The group id carried by a group-deletion event. -/
def evGroupDeletedId : Ev → Option Nat
  | Ev.groupDeleted gid => some gid
  | _ => none

theorem deleteObsolete_events (valid : List String) :
    ∀ (l : List Group) (s : WState),
      (stepAll (deleteObsoleteStep valid) l s).2 =
        (l.filter (fun g => g.name.lowerStr ≠ ADMIN_GROUP_NAME.lowerStr ∧
          ¬ valid.contains g.name.lowerStr)).map (fun g => Ev.groupDeleted g.id)
  | [], _ => rfl
  | g :: gs, s => by
    rw [stepAll_cons, List.filter_cons]
    by_cases h1 : g.name.lowerStr = ADMIN_GROUP_NAME.lowerStr
    · have hstep : deleteObsoleteStep valid g s = (s, []) := by
        unfold deleteObsoleteStep
        rw [if_pos h1]
      simp only [hstep]
      rw [deleteObsolete_events valid gs s, List.nil_append]
      split
      · next hcond => simp [h1] at hcond
      · rfl
    · by_cases h2 : (valid.contains g.name.lowerStr : Bool) = true
      · have hstep : deleteObsoleteStep valid g s = (s, []) := by
          unfold deleteObsoleteStep
          rw [if_neg h1, if_pos h2]
        simp only [hstep]
        rw [deleteObsolete_events valid gs s, List.nil_append]
        split
        · next hcond =>
          have hmem : g.name.lowerStr ∈ valid := by simpa using h2
          simp [hmem] at hcond
        · rfl
      · have hnm : g.name.lowerStr ∉ valid := by simpa using h2
        have hstep : deleteObsoleteStep valid g s = deleteGroup g.id s := by
          unfold deleteObsoleteStep
          rw [if_neg h1, if_neg (by simpa using h2)]
        simp only [hstep]
        rw [deleteObsolete_events valid gs (deleteGroup g.id s).1]
        split
        · next hcond => simp [deleteGroup]
        · next hcond => simp [h1, hnm] at hcond

theorem filterMap_groupDeleted (l : List Group) :
    (l.map (fun g => Ev.groupDeleted g.id)).filterMap evGroupDeletedId =
      l.map (fun g => g.id) := by
  induction l with
  | nil => rfl
  | cons g gs ih => simp [List.filterMap_cons, evGroupDeletedId, ih]

/-- C1 amended: the Unit/Group phase issues exactly one delete for every
group of the fetched initial page (`getAllGroups`, one `groups.list`
request) whose lowercased name is neither the admin name nor in
`validGroupNames`, and no other delete — the decision never reads the
group's members, so a non-empty obsolete group is deleted just like an
empty one. -/
theorem c1_deletes_obsolete_unconditionally (cfg : Config) (d : Dir) (s : WState)
    (hne : getAllUsers cfg s ≠ []) :
    (syncUsers cfg d s).2.1.filterMap evGroupDeletedId =
      ((getAllGroups s).filter
        (fun g => g.name.lowerStr ≠ ADMIN_GROUP_NAME.lowerStr ∧
          ¬ (validGroupNames (userUnitsMap cfg d (getAllUsers cfg s))).contains
            g.name.lowerStr)).map (fun g => g.id) := by
  have hie : (getAllUsers cfg s).isEmpty = false := by
    cases hl : getAllUsers cfg s with
    | nil => exact absurd hl hne
    | cons a as => rfl
  rw [syncUsers_eq_nonempty cfg d s hie]
  simp only []
  rw [List.filterMap_append, List.filterMap_append, List.filterMap_append,
    List.filterMap_append]
  have h1 : (stepAll (processUser (userUnitsMap cfg d (getAllUsers cfg s)))
      (getAllUsers cfg s) s).2.filterMap evGroupDeletedId = [] := by
    refine List.filterMap_eq_nil_iff.mpr (fun e he => ?_)
    have := stepAll_events (f := processUser (userUnitsMap cfg d (getAllUsers cfg s)))
      (P := fun e => evGroupDeletedId e = none) ?_ _ s e he
    · exact this
    · intro user t e2 he2
      have := stepAll_events (f := processUnit user)
        (P := fun e => evGroupDeletedId e = none) ?_ _ t e2 he2
      · exact this
      · intro unit t2 e3 he3
        rcases processUnit_events user unit t2 e3 he3 with ⟨gid, rfl⟩ | ⟨gid, rfl⟩ <;> rfl
  have h2 : (ensureAdminGroup (stepAll (processUser (userUnitsMap cfg d (getAllUsers cfg s)))
      (getAllUsers cfg s) s).1).2.2.filterMap evGroupDeletedId = [] := by
    refine List.filterMap_eq_nil_iff.mpr (fun e he => ?_)
    rcases ensureAdminGroup_events _ e he with ⟨gid, rfl⟩
    rfl
  have h3 : ∀ (t : WState), (stepAll (adminAddStep cfg
      (ensureAdminGroup (stepAll (processUser (userUnitsMap cfg d (getAllUsers cfg s)))
        (getAllUsers cfg s) s).1).1.id) (getAllAdmins cfg d) t).2.filterMap
        evGroupDeletedId = [] := by
    intro t
    refine List.filterMap_eq_nil_iff.mpr (fun e he => ?_)
    have := stepAll_events (P := fun e => evGroupDeletedId e = none) ?_ _ t e he
    · exact this
    · intro a t2 e2 he2
      rcases adminAddStep_events cfg _ a t2 e2 he2 with ⟨uid, rfl⟩ | ⟨uid, rfl⟩ <;> rfl
  have h5 : ∀ (t : WState), (stepAll (cleanupGroup (getAllAdmins cfg d) (getAllUsers cfg s)
      (userUnitsMap cfg d (getAllUsers cfg s))) (getAllGroups s) t).2.filterMap
        evGroupDeletedId = [] := by
    intro t
    refine List.filterMap_eq_nil_iff.mpr (fun e he => ?_)
    have := stepAll_events (P := fun e => evGroupDeletedId e = none) ?_ _ t e he
    · exact this
    · intro g t2 e2 he2
      rcases cleanupGroup_events _ _ _ g t2 e2 he2 with ⟨uid, rfl⟩ | ⟨uid, rfl⟩ <;> rfl
  rw [h1, h2, h3, h5, deleteObsolete_events, filterMap_groupDeleted]
  simp

/-- C1 amended, witness. -/
theorem c1_witness :
    (syncUsers (Config.mk "e@x" [] none "wiki-admins") (Dir.mk [] [] [])
        (WState.mk [{ id := 3, email := "m@x", role := "viewer", suspended := false }]
          [{ id := 7, name := "stale", members := [3, 4] }] [] 20)).2.1.filterMap
        evGroupDeletedId =
      ((getAllGroups (WState.mk
          [{ id := 3, email := "m@x", role := "viewer", suspended := false }]
          [{ id := 7, name := "stale", members := [3, 4] }] [] 20)).filter
        (fun g => g.name.lowerStr ≠ ADMIN_GROUP_NAME.lowerStr ∧
          ¬ (validGroupNames (userUnitsMap (Config.mk "e@x" [] none "wiki-admins")
            (Dir.mk [] [] [])
            (getAllUsers (Config.mk "e@x" [] none "wiki-admins")
              (WState.mk [{ id := 3, email := "m@x", role := "viewer", suspended := false }]
                [{ id := 7, name := "stale", members := [3, 4] }] [] 20)))).contains
            g.name.lowerStr)).map (fun g => g.id) :=
  c1_deletes_obsolete_unconditionally (Config.mk "e@x" [] none "wiki-admins")
    (Dir.mk [] [] [])
    (WState.mk [{ id := 3, email := "m@x", role := "viewer", suspended := false }]
      [{ id := 7, name := "stale", members := [3, 4] }] [] 20)
    (by decide)

/-! ## C7 — collection deletions characterized -/

/-- The collection id carried by a collection-deletion event. -/
def evCollectionDeletedId : Ev → Option Nat
  | Ev.collectionDeleted cid => some cid
  | _ => none

theorem collectionDelete_events (cfg : Config) (groupNames : List String) :
    ∀ (l : List Collection) (s : WState),
      (stepAll (collectionDeleteStep cfg groupNames) l s).2 =
        (l.filter (fun c => c.name.lowerStr ≠ ADMIN_GROUP_NAME.lowerStr ∧
          ¬ cfg.allowedCollections.contains c.name.lowerStr ∧
          ¬ groupNames.contains c.name.lowerStr)).map
          (fun c => Ev.collectionDeleted c.id)
  | [], _ => rfl
  | c :: cs, s => by
    rw [stepAll_cons, List.filter_cons]
    by_cases h1 : c.name.lowerStr = ADMIN_GROUP_NAME.lowerStr
    · have hstep : collectionDeleteStep cfg groupNames c s = (s, []) := by
        unfold collectionDeleteStep
        simp only []
        rw [if_pos h1]
      simp only [hstep]
      rw [collectionDelete_events cfg groupNames cs s, List.nil_append]
      split
      · next hcond => simp [h1] at hcond
      · rfl
    · by_cases h2 : (cfg.allowedCollections.contains c.name.lowerStr : Bool) = true
      · have hstep : collectionDeleteStep cfg groupNames c s = (s, []) := by
          unfold collectionDeleteStep
          simp only []
          rw [if_neg h1, if_pos h2]
        simp only [hstep]
        rw [collectionDelete_events cfg groupNames cs s, List.nil_append]
        split
        · next hcond =>
          have hmem : c.name.lowerStr ∈ cfg.allowedCollections := by simpa using h2
          simp [hmem] at hcond
        · rfl
      · by_cases h3 : (groupNames.contains c.name.lowerStr : Bool) = true
        · have hstep : collectionDeleteStep cfg groupNames c s = (s, []) := by
            unfold collectionDeleteStep
            simp only []
            rw [if_neg h1, if_neg (by simpa using h2), if_pos h3]
          simp only [hstep]
          rw [collectionDelete_events cfg groupNames cs s, List.nil_append]
          split
          · next hcond =>
            have hmem : c.name.lowerStr ∈ groupNames := by simpa using h3
            simp [hmem] at hcond
          · rfl
        · have hstep : collectionDeleteStep cfg groupNames c s = deleteCollection c.id s := by
            unfold collectionDeleteStep
            simp only []
            rw [if_neg h1, if_neg (by simpa using h2), if_neg (by simpa using h3)]
          simp only [hstep]
          rw [collectionDelete_events cfg groupNames cs (deleteCollection c.id s).1]
          split
          · next hcond => simp [deleteCollection]
          · next hcond =>
            have hn2 : c.name.lowerStr ∉ cfg.allowedCollections := by simpa using h2
            have hn3 : c.name.lowerStr ∉ groupNames := by simpa using h3
            simp [h1, hn2, hn3] at hcond

theorem collectionGroupStep_events (g : Group) (t : WState) :
    ∀ e ∈ (collectionGroupStep g t).2, evCollectionDeletedId e = none := by
  intro e he
  unfold collectionGroupStep at he
  split at he
  · simp at he
  · split at he
    · have := List.mem_singleton.mp (by simpa [addGroupToCollection] using he)
      rw [this]
      rfl
    · simp only [createCollection, addGroupToCollection] at he
      rcases List.mem_append.mp he with h1 | h2
      · rw [List.mem_singleton.mp h1]
        rfl
      · rw [List.mem_singleton.mp h2]
        rfl

theorem filterMap_collectionDeleted (l : List Collection) :
    (l.map (fun c => Ev.collectionDeleted c.id)).filterMap evCollectionDeletedId =
      l.map (fun c => c.id) := by
  induction l with
  | nil => rfl
  | cons c cs ih => simp [List.filterMap_cons, evCollectionDeletedId, ih]

/-- C7 amended: the Collection phase deletes exactly the collections of
the fetched initial page (`getAllCollections`, one `collections.list`
request) whose lowercased name differs from the admin name, does not
occur verbatim among the configured `ALLOWED_COLLECTIONS` entries, and
matches no group name of the fetched group page (compared lowercased).
The allowlist test is the verbatim membership of the lowercased
collection name, so an allowlist entry containing an uppercase letter
never protects anything. -/
theorem c7_collection_deletions_characterized (cfg : Config) (s : WState) :
    (syncCollections cfg s).2.1.filterMap evCollectionDeletedId =
      ((getAllCollections s).filter
        (fun c => c.name.lowerStr ≠ ADMIN_GROUP_NAME.lowerStr ∧
          ¬ cfg.allowedCollections.contains c.name.lowerStr ∧
          ¬ (((getAllGroups s).filter
              (fun g => g.name.lowerStr ≠ ADMIN_GROUP_NAME.lowerStr)).map
              (fun g => g.name.lowerStr)).contains c.name.lowerStr)).map
        (fun c => c.id) := by
  unfold syncCollections
  simp only []
  rw [List.filterMap_append, List.filterMap_append]
  have h1 : (ensureAdminGroup s).2.2.filterMap evCollectionDeletedId = [] := by
    refine List.filterMap_eq_nil_iff.mpr (fun e he => ?_)
    rcases ensureAdminGroup_events s e he with ⟨gid, rfl⟩
    rfl
  have h2 : (stepAll collectionGroupStep (getAllGroups s)
      (ensureAdminGroup s).2.1).2.filterMap evCollectionDeletedId = [] := by
    refine List.filterMap_eq_nil_iff.mpr (fun e he => ?_)
    exact stepAll_events (P := fun e => evCollectionDeletedId e = none)
      (fun g t2 e2 he2 => collectionGroupStep_events g t2 e2 he2) _ _ e he
  rw [h1, h2, collectionDelete_events, filterMap_collectionDeleted]
  simp

/-! ## C7 — the collection allowlist does not protect uppercase entries -/

/-- C7 counterexample: the static allowlist contains `Welcome` and the
workspace holds a collection literally named `Welcome`; because the code
compares the lowercased collection name against the verbatim allowlist
entries, the allowlist does not match and `syncCollections` deletes the
collection, refuting "a collection whose name is in the static allowlist
is never auto-deleted". -/
theorem c7_counterexample :
    ("Welcome" ∈
      (Config.mk "root@x" ["Welcome"] none "wiki-admins").allowedCollections) ∧
    Ev.collectionDeleted 5 ∈
      (syncCollections (Config.mk "root@x" ["Welcome"] none "wiki-admins")
        (WState.mk [] []
          [{ id := 5, name := "Welcome", permission := "read", isPrivate := false,
             groupLinks := [] }] 10)).2.1 := by decide

/-! ## C10 — the admin expansion terminates and deduplicates -/

/-- Fold a step over a list while preserving a predicate on the
accumulator. -/
theorem foldl_pres {σ α : Type} (P : σ → Prop) (F : σ → α → σ)
    (h : ∀ acc m, P acc → P (F acc m)) :
    ∀ (ms : List α) (acc : σ), P acc → P (ms.foldl F acc)
  | [], _, hp => hp
  | m :: ms, acc, hp => foldl_pres P F h ms (F acc m) (h acc m hp)

theorem fetchAdminsRec_visited_extends (d : Dir) :
    ∀ (fuel : Nat) (g : String) (v : List String), ∀ x ∈ v,
      x ∈ (fetchAdminsRec d fuel g v).2
  | 0, _, _, _, hx => hx
  | fuel + 1, g, v, x, hx => by
    unfold fetchAdminsRec
    split
    · exact hx
    · refine foldl_pres (fun (acc : List Admin × List String) => x ∈ acc.2) _ ?_ _
        ([], g :: v) (List.mem_cons_of_mem g hx)
      intro acc m hacc
      cases m with
      | person pid email => exact hacc
      | group gid => exact fetchAdminsRec_visited_extends d fuel gid acc.2 x hacc

theorem fetchAdminsRec_visited_nodup (d : Dir) :
    ∀ (fuel : Nat) (g : String) (v : List String), v.Nodup →
      (fetchAdminsRec d fuel g v).2.Nodup
  | 0, _, _, hv => hv
  | fuel + 1, g, v, hv => by
    unfold fetchAdminsRec
    split
    · exact hv
    · next hgv =>
      refine foldl_pres (fun (acc : List Admin × List String) => acc.2.Nodup) _ ?_ _
        ([], g :: v) (List.nodup_cons.mpr ⟨hgv, hv⟩)
      intro acc m hacc
      cases m with
      | person pid email => exact hacc
      | group gid => exact fetchAdminsRec_visited_nodup d fuel gid acc.2 hacc

/-- The number of directory group entries whose key has not yet been
visited: the strictly decreasing measure of the traversal. -/
def pendingCount (d : Dir) (v : List String) : Nat :=
  ((d.groups.map (fun p => p.1)).filter (fun k => k ∉ v)).length

theorem filter_length_mono {α : Type} (p q : α → Bool)
    (h : ∀ a, p a = true → q a = true) :
    ∀ l : List α, (l.filter p).length ≤ (l.filter q).length
  | [] => Nat.le_refl 0
  | a :: l => by
    rw [List.filter_cons, List.filter_cons]
    cases hp : p a
    · cases hq : q a
      · simpa using filter_length_mono p q h l
      · simp only [if_pos rfl, List.length_cons]
        calc (l.filter p).length ≤ (l.filter q).length := filter_length_mono p q h l
          _ ≤ (l.filter q).length + 1 := Nat.le_succ _
    · rw [h a hp]
      simpa using filter_length_mono p q h l

theorem pendingCount_mono (d : Dir) {v w : List String} (h : ∀ x ∈ v, x ∈ w) :
    pendingCount d w ≤ pendingCount d v := by
  refine filter_length_mono _ _ (fun a ha => ?_) _
  simp only [decide_eq_true_eq] at ha ⊢
  exact fun hav => ha (h a hav)

theorem filter_notmem_cons_length_lt {g : String} :
    ∀ {l : List String}, g ∈ l → ∀ {v : List String}, g ∉ v →
      (l.filter (fun k => k ∉ (g :: v))).length < (l.filter (fun k => k ∉ v)).length := by
  intro l hl
  induction l with
  | nil => cases hl
  | cons a l ih =>
    intro v hgv
    rw [List.filter_cons, List.filter_cons]
    by_cases hag : a = g
    · subst hag
      rw [if_neg (by simp), if_pos (by simpa using hgv)]
      refine Nat.lt_succ_of_le (filter_length_mono _ _ (fun k hk => ?_) l)
      simp only [decide_eq_true_eq, List.mem_cons] at hk ⊢
      exact fun hkv => hk (Or.inr hkv)
    · have hgl : g ∈ l := by
        rcases List.mem_cons.mp hl with h | h
        · exact absurd h.symm hag
        · exact h
      by_cases hav : a ∈ v
      · rw [if_neg (by simp [hav]), if_neg (by simp [hav])]
        exact ih hgl hgv
      · rw [if_pos (by simp [hav, hag]), if_pos (by simpa using hav)]
        exact Nat.succ_lt_succ (ih hgl hgv)

theorem pendingCount_insert_lt (d : Dir) {g : String}
    (hg : g ∈ d.groups.map (fun p => p.1)) {v : List String} (hnv : g ∉ v) :
    pendingCount d (g :: v) < pendingCount d v :=
  filter_notmem_cons_length_lt hg hnv

theorem assoc_some_mem_keys {β : Type} {l : List (String × β)} {k : String} {b : β}
    (h : assoc l k = some b) : k ∈ l.map (fun p => p.1) := by
  unfold assoc at h
  cases hf : l.find? (fun p => p.1 = k) with
  | none => rw [hf] at h; simp at h
  | some pr =>
    have hmem := List.mem_of_find?_eq_some hf
    have hkey : pr.1 = k := by simpa using List.find?_some hf
    exact hkey ▸ List.mem_map_of_mem _ hmem

/-- With more fuel than there are unvisited directory group entries, the
traversal's result no longer depends on the fuel: the visited set makes
it reach a fixpoint on every finite group graph, cycles included. -/
theorem fetchAdminsRec_fuel_irrelevant (d : Dir) :
    ∀ (f1 f2 : Nat) (g : String) (v : List String),
      pendingCount d v < f1 → pendingCount d v < f2 →
      fetchAdminsRec d f1 g v = fetchAdminsRec d f2 g v := by
  intro f1
  induction f1 with
  | zero => exact fun f2 g v h1 _ => absurd h1 (Nat.not_lt_zero _)
  | succ f ih =>
    intro f2 g v h1 h2
    match f2, h2 with
    | 0, h2 => exact absurd h2 (Nat.not_lt_zero _)
    | f2 + 1, h2 => ?_
    unfold fetchAdminsRec
    by_cases hgv : g ∈ v
    · rw [if_pos hgv, if_pos hgv]
    · rw [if_neg hgv, if_neg hgv]
      cases hassoc : assoc d.groups g with
      | none => rfl
      | some ms0 =>
        have hkeys := assoc_some_mem_keys hassoc
        have hlt : pendingCount d (g :: v) < pendingCount d v :=
          pendingCount_insert_lt d hkeys hgv
        have hfold : ∀ (ms : List DirMember) (acc : List Admin × List String),
            pendingCount d acc.2 < f → pendingCount d acc.2 < f2 →
            ms.foldl (fetchAdminsStep (fetchAdminsRec d f)) acc =
              ms.foldl (fetchAdminsStep (fetchAdminsRec d f2)) acc := by
          intro ms
          induction ms with
          | nil => intro acc _ _; rfl
          | cons m ms ihm =>
            intro acc ha1 ha2
            cases m with
            | person pid email => exact ihm _ ha1 ha2
            | group gid =>
              simp only [List.foldl_cons, fetchAdminsStep]
              rw [ih f2 gid acc.2 ha1 ha2]
              refine ihm _ ?_ ?_
              · exact lt_of_le_of_lt
                  (pendingCount_mono d (fetchAdminsRec_visited_extends d f2 gid acc.2)) ha1
              · exact lt_of_le_of_lt
                  (pendingCount_mono d (fetchAdminsRec_visited_extends d f2 gid acc.2)) ha2
        exact hfold ms0 ([], g :: v)
          (lt_of_lt_of_le hlt (Nat.lt_succ_iff.mp h1))
          (lt_of_lt_of_le hlt (Nat.lt_succ_iff.mp h2))

theorem pendingCount_le (d : Dir) (v : List String) :
    pendingCount d v ≤ d.groups.length := by
  calc pendingCount d v ≤ (d.groups.map (fun p => p.1)).length :=
        List.length_filter_le _ _
    _ = d.groups.length := List.length_map _ _

/-- The key-value pairs of the JS map keep distinct keys and store each
admin under its own id. -/
theorem jsMap_invariant :
    ∀ (l : List Admin) (m : List (Nat × Admin)),
      (m.map (fun p => p.1)).Nodup → (∀ p ∈ m, p.2.id = p.1) →
      ((l.foldl (fun m admin => jsMapInsert m admin.id admin) m).map
        (fun p => p.1)).Nodup ∧
      (∀ p ∈ l.foldl (fun m admin => jsMapInsert m admin.id admin) m, p.2.id = p.1)
  | [], m, hnd, hids => ⟨hnd, hids⟩
  | a :: l, m, hnd, hids => by
    rw [List.foldl_cons]
    refine jsMap_invariant l _ ?_ ?_
    · unfold jsMapInsert
      split
      · have : ((m.map (fun p => if p.1 = a.id then (a.id, a) else p)).map
            (fun p => p.1)) = m.map (fun p => p.1) := by
          rw [List.map_map]
          refine List.map_congr_left (fun p _ => ?_)
          by_cases hp : p.1 = a.id <;> simp [hp, Function.comp]
        rw [this]
        exact hnd
      · next hnotany =>
        rw [List.map_append]
        refine List.nodup_append.mpr ⟨hnd, by simp, ?_⟩
        intro x hx hxmem
        rcases List.mem_map.mp hx with ⟨p, hp, hpa⟩
        have hxa : x = a.id := by simpa using hxmem
        apply hnotany
        refine List.any_eq_true.mpr ⟨p, hp, ?_⟩
        simp [hpa, hxa]
    · intro p hp
      unfold jsMapInsert at hp
      revert hp
      split
      · intro hp
        rcases List.mem_map.mp hp with ⟨q, hq, hqp⟩
        by_cases hqa : q.1 = a.id
        · rw [if_pos hqa] at hqp
          rw [← hqp]
        · rw [if_neg hqa] at hqp
          exact hqp ▸ hids q hq
      · intro hp
        rcases List.mem_append.mp hp with h | h
        · exact hids p h
        · rw [List.mem_singleton.mp h]

/-- The deduplicated admin list has pairwise distinct person ids. -/
theorem uniqueAdmins_ids_nodup (l : List Admin) :
    ((uniqueAdmins l).map (fun a => a.id)).Nodup := by
  unfold uniqueAdmins
  obtain ⟨hnd, hids⟩ := jsMap_invariant l [] (by simp) (by simp)
  rw [List.map_map]
  have : ((l.foldl (fun m admin => jsMapInsert m admin.id admin) []).map
      ((fun a => a.id) ∘ (fun p => p.2))) =
      (l.foldl (fun m admin => jsMapInsert m admin.id admin) []).map (fun p => p.1) :=
    List.map_congr_left (fun p hp => hids p hp)
  rw [this]
  exact hnd

/-- C10: the recursive directory admin expansion reaches its fixpoint
within the fuel `getAllAdmins` provides, for every finite directory
group graph including graphs with membership cycles — giving it any
additional fuel changes nothing; the visited set stays duplicate-free,
so every group identifier is fetched at most once; and the returned list
holds each admin person id exactly once. -/
theorem c10_admin_expansion_terminates (cfg : Config) (d : Dir) :
    (∀ extra : Nat,
      fetchAdminsRec d (d.groups.length + 1 + extra) cfg.dirAdminGroup [] =
        fetchAdminsRec d (d.groups.length + 1) cfg.dirAdminGroup []) ∧
    (∀ fuel : Nat, (fetchAdminsRec d fuel cfg.dirAdminGroup []).2.Nodup) ∧
    ((getAllAdmins cfg d).map (fun a => a.id)).Nodup := by
  refine ⟨fun extra => ?_, fun fuel => ?_, uniqueAdmins_ids_nodup _⟩
  · refine fetchAdminsRec_fuel_irrelevant d _ _ cfg.dirAdminGroup [] ?_ ?_
    · have := pendingCount_le d []
      omega
    · have := pendingCount_le d []
      omega
  · exact fetchAdminsRec_visited_nodup d fuel cfg.dirAdminGroup [] List.nodup_nil

/-! ## C8 — case-insensitive find-or-create never duplicates a group -/

/-- Pairwise case-insensitive distinctness of group names. -/
def ciDistinct (groups : List Group) : Prop :=
  groups.Pairwise (fun g1 g2 => g1.name.lowerStr ≠ g2.name.lowerStr)

theorem groups_makeUserAdmin (uid : Nat) (s : WState) :
    (makeUserAdmin uid s).1.groups = s.groups := by
  unfold makeUserAdmin
  split
  · rfl
  · split
    · rfl
    · rfl

theorem groups_removeUserAdmin (uid : Nat) (s : WState) :
    (removeUserAdmin uid s).1.groups = s.groups := by
  unfold removeUserAdmin
  split
  · rfl
  · split
    · rfl
    · rfl

theorem ciDistinct_map {l : List Group} (f : Group → Group)
    (hf : ∀ g, (f g).name = g.name) (h : ciDistinct l) : ciDistinct (l.map f) := by
  unfold ciDistinct at h ⊢
  refine List.pairwise_map.mpr (h.imp ?_)
  intro a b hab
  rw [hf, hf]
  exact hab

theorem ciDistinct_append_fresh {l : List Group} {g : Group} (h : ciDistinct l)
    (hf : ∀ g2 ∈ l, g2.name.lowerStr ≠ g.name.lowerStr) : ciDistinct (l ++ [g]) := by
  unfold ciDistinct at h ⊢
  refine List.pairwise_append.mpr ⟨h, List.pairwise_singleton _ _, ?_⟩
  intro a ha b hb
  rw [List.mem_singleton.mp hb]
  exact hf a ha

/-- A paged `findGroupByName` hit is a genuine workspace group whose
name matches case-insensitively (a page is a sublist of the table). -/
theorem findGroupByName_some_mem {s : WState} {n : String} {g : Group}
    (h : findGroupByName s n = some g) :
    g ∈ s.groups ∧ g.name.lowerStr = n.lowerStr := by
  unfold findGroupByName at h
  split at h
  · next g2 heq =>
    have hg : g2 = g := Option.some_inj.mp h
    subst hg
    refine ⟨getAllGroups_mem (List.mem_of_find?_eq_some heq), ?_⟩
    have hn : g2.name = n := by simpa using List.find?_some heq
    rw [hn]
  · refine ⟨getAllGroups_mem (List.mem_of_find?_eq_some h), ?_⟩
    simpa using List.find?_some h

theorem findGroupByName_eq_none {s : WState} {n : String}
    (hb : s.groups.length ≤ 100) (h : findGroupByName s n = none) :
    ∀ g ∈ s.groups, g.name.lowerStr ≠ n.lowerStr := by
  unfold findGroupByName at h
  rw [getAllGroups_full hb] at h
  split at h
  · exact absurd h (by simp)
  · intro g hg
    simpa using List.find?_eq_none.mp h g hg

theorem findGroupByName_resolves_ci {s : WState} {n : String} {g : Group}
    (hb : s.groups.length ≤ 100)
    (hg : g ∈ s.groups) (hname : g.name.lowerStr = n.lowerStr) :
    ∃ g2, findGroupByName s n = some g2 ∧ g2.name.lowerStr = n.lowerStr := by
  unfold findGroupByName
  rw [getAllGroups_full hb]
  split
  · next g2 heq =>
    refine ⟨g2, rfl, ?_⟩
    have := List.find?_some heq
    simp only [decide_eq_true_eq] at this
    rw [this]
  · next heq =>
    cases hci : s.groups.find? (fun g2 => g2.name.lowerStr = n.lowerStr) with
    | none => exact absurd hname (by simpa using List.find?_eq_none.mp hci g hg)
    | some g2 =>
      refine ⟨g2, rfl, ?_⟩
      simpa using List.find?_some hci

theorem ciDistinct_addUserToGroup (uid gid : Nat) (s : WState)
    (h : ciDistinct s.groups) : ciDistinct (addUserToGroup uid gid s).1.groups := by
  unfold addUserToGroup
  split
  · exact h
  · split
    · exact h
    · exact ciDistinct_map _ (fun g => by split <;> rfl) h

theorem ciDistinct_removeUserFromGroup (uid gid : Nat) (s : WState)
    (h : ciDistinct s.groups) : ciDistinct (removeUserFromGroup uid gid s).1.groups :=
  ciDistinct_map _ (fun g => by split <;> rfl) h

theorem ciDistinct_deleteGroup (gid : Nat) (s : WState) (h : ciDistinct s.groups) :
    ciDistinct (deleteGroup gid s).1.groups :=
  List.Pairwise.sublist (List.filter_sublist _) h

theorem ciDistinct_processUnit (user : User) (unit : OrgUnit) (t : WState)
    (hb : t.groups.length ≤ 100)
    (h : ciDistinct t.groups) : ciDistinct (processUnit user unit t).1.groups := by
  unfold processUnit
  split
  · exact ciDistinct_addUserToGroup _ _ _ h
  · next heq =>
    have hfresh := findGroupByName_eq_none hb heq
    refine ciDistinct_addUserToGroup _ _ _ ?_
    show ciDistinct (t.groups ++ [{ id := t.nextId, name := unit.name, members := [] }])
    exact ciDistinct_append_fresh h hfresh

theorem ciDistinct_ensureAdminGroup (t : WState) (hb : t.groups.length ≤ 100)
    (h : ciDistinct t.groups) :
    ciDistinct (ensureAdminGroup t).2.1.groups := by
  unfold ensureAdminGroup
  split
  · exact h
  · next heq =>
    have hfresh := findGroupByName_eq_none hb heq
    show ciDistinct (t.groups ++ [{ id := t.nextId, name := ADMIN_GROUP_NAME, members := [] }])
    exact ciDistinct_append_fresh h hfresh

theorem ciDistinct_adminAddStep (cfg : Config) (agid : Nat) (a : Admin) (t : WState)
    (h : ciDistinct t.groups) : ciDistinct (adminAddStep cfg agid a t).1.groups := by
  unfold adminAddStep
  split
  · exact h
  · simp only []
    rw [groups_makeUserAdmin]
    exact ciDistinct_addUserToGroup _ _ _ h

theorem ciDistinct_deleteObsoleteStep (valid : List String) (g : Group) (t : WState)
    (h : ciDistinct t.groups) : ciDistinct (deleteObsoleteStep valid g t).1.groups := by
  unfold deleteObsoleteStep
  split
  · exact h
  · split
    · exact h
    · exact ciDistinct_deleteGroup _ _ h

theorem ciDistinct_cleanupGroup (admins : List Admin) (activeUsers : List User)
    (uum : List (String × List OrgUnit)) (g : Group) (t : WState)
    (h : ciDistinct t.groups) :
    ciDistinct (cleanupGroup admins activeUsers uum g t).1.groups := by
  unfold cleanupGroup
  split
  · refine stepAll_pres (P := fun t2 => ciDistinct t2.groups) (fun m _ t2 h2 => ?_) h
    unfold cleanupAdminMember
    split
    · exact h2
    · simp only []
      rw [groups_removeUserAdmin]
      exact ciDistinct_removeUserFromGroup _ _ _ h2
  · refine stepAll_pres (P := fun t2 => ciDistinct t2.groups) (fun m _ t2 h2 => ?_) h
    unfold cleanupUnitMember
    split
    · exact h2
    · split
      · exact h2
      · exact ciDistinct_removeUserFromGroup _ _ _ h2

/-! ## Page budgets: keeping every consulted table within one page -/

/-- Lengths of skeleton-equal user tables agree. -/
theorem length_of_skel {l1 l2 : List User}
    (h : l1.map userSkel = l2.map userSkel) : l1.length = l2.length := by
  have h2 := congrArg List.length h
  simpa using h2

/-- Total number of (user, unit) pairs the find-or-create loop processes
for the given users: each pair may create one group and add one
membership. -/
def unitBudget (uum : List (String × List OrgUnit)) (users : List User) : Nat :=
  (users.map (fun u => ((assoc uum u.email).getD []).length)).sum

/-- The (user, unit) pair total of a whole `syncUsers` run from `s`. -/
def runBudget (cfg : Config) (d : Dir) (s : WState) : Nat :=
  unitBudget (userUnitsMap cfg d (getAllUsers cfg s)) (getAllUsers cfg s)

theorem unitBudget_nil (uum : List (String × List OrgUnit)) :
    unitBudget uum [] = 0 := rfl

theorem unitBudget_cons (uum : List (String × List OrgUnit)) (u : User)
    (us : List User) :
    unitBudget uum (u :: us) =
      ((assoc uum u.email).getD []).length + unitBudget uum us := by
  unfold unitBudget
  rw [List.map_cons, List.sum_cons]

/-- Iterate a step while threading a predicate indexed by the remaining
work list (the index pays per-item page budgets). -/
theorem stepAll_ind {α : Type} {f : α → WState → WState × List Ev}
    {P : List α → WState → Prop}
    (hstep : ∀ x xs t, P (x :: xs) t → P xs (f x t).1) :
    ∀ (l : List α) (t : WState), P l t → P [] (stepAll f l t).1
  | [], _, h => h
  | x :: xs, t, h => by
    rw [stepAll_cons]
    exact stepAll_ind hstep xs (f x t).1 (hstep x xs t h)

/-- Establish a per-item property under a budget-indexed invariant: each
item's property holds right after its own step and is preserved by the
later ones. -/
theorem stepAll_ind_est {α : Type} {f : α → WState → WState × List Ev}
    {P : List α → WState → Prop} {Q : α → WState → Prop}
    (hstep : ∀ x xs t, P (x :: xs) t → P xs (f x t).1)
    (hest : ∀ x xs t, P (x :: xs) t → Q x (f x t).1)
    (hpres : ∀ x xs y t, P (x :: xs) t → Q y t → Q y (f x t).1) :
    ∀ (l : List α) (t : WState), P l t → ∀ x ∈ l, Q x (stepAll f l t).1
  | [], _, _, x, hx => absurd hx (List.not_mem_nil x)
  | x :: xs, t, h, y, hy => by
    rw [stepAll_cons]
    rcases List.mem_cons.mp hy with rfl | hy2
    · have h2 := stepAll_ind (P := fun m t2 => P m t2 ∧ Q y t2)
        (fun z zs t2 hz => ⟨hstep z zs t2 hz.1, hpres z zs y t2 hz.1 hz.2⟩)
        xs (f y t).1 ⟨hstep y xs t h, hest y xs t h⟩
      exact h2.2
    · exact stepAll_ind_est hstep hest hpres xs (f x t).1 (hstep x xs t h) y hy2

/-- Group-count budget: with `bg` group creations still to come, the
group table will never outgrow the single fetched page. -/
def SBg (bg : Nat) (t : WState) : Prop :=
  t.groups.length + bg ≤ 100

theorem SBg_le {bg : Nat} {t : WState} (h : SBg bg t) : t.groups.length ≤ 100 := by
  unfold SBg at h
  omega

theorem SBg_mono {bg bg2 : Nat} {t : WState} (hg : bg2 ≤ bg) (h : SBg bg t) :
    SBg bg2 t := by
  unfold SBg at h ⊢
  omega

theorem SBg_addUserToGroup (uid gid : Nat) {bg : Nat} {t : WState} (h : SBg bg t) :
    SBg bg (addUserToGroup uid gid t).1 := by
  unfold addUserToGroup
  split
  · exact h
  · split
    · exact h
    · unfold SBg at h ⊢
      simpa using h

theorem SBg_createGroup (n : String) {bg : Nat} {t : WState} (h : SBg (bg + 1) t) :
    SBg bg (createGroup n t).2.1 := by
  unfold SBg at h ⊢
  show (t.groups ++ [({ id := t.nextId, name := n, members := [] } : Group)]).length + bg ≤ 100
  rw [List.length_append]
  simp only [List.length_cons, List.length_nil]
  omega

theorem SBg_processUnit (user : User) (unit : OrgUnit) {bg : Nat} {t : WState}
    (h : SBg (bg + 1) t) : SBg bg (processUnit user unit t).1 := by
  unfold processUnit
  cases hf : findGroupByName t unit.name with
  | some g => exact SBg_addUserToGroup _ _ (SBg_mono (by omega) h)
  | none => exact SBg_addUserToGroup _ _ (SBg_createGroup _ h)

/-- Joint threading of the group budget and case-insensitive
distinctness through the unit loop of one user. -/
theorem ciDistinct_unitLoop (user : User) :
    ∀ (units : List OrgUnit) (bg : Nat) (t : WState),
      SBg (units.length + bg) t → ciDistinct t.groups →
      SBg bg (stepAll (processUnit user) units t).1 ∧
        ciDistinct (stepAll (processUnit user) units t).1.groups
  | [], bg, t, hS, hci => ⟨SBg_mono (by omega) hS, hci⟩
  | unit :: us, bg, t, hS, hci => by
    rw [stepAll_cons]
    have hb : t.groups.length ≤ 100 := SBg_le hS
    exact ciDistinct_unitLoop user us bg _
      (SBg_processUnit user unit
        (SBg_mono (by simp only [List.length_cons]; omega) hS))
      (ciDistinct_processUnit user unit t hb hci)

/-- Joint threading of the group budget and case-insensitive
distinctness through the whole find-or-create phase. -/
theorem ciDistinct_phase1 (uum : List (String × List OrgUnit)) :
    ∀ (users : List User) (bg : Nat) (t : WState),
      SBg (unitBudget uum users + bg) t → ciDistinct t.groups →
      SBg bg (stepAll (processUser uum) users t).1 ∧
        ciDistinct (stepAll (processUser uum) users t).1.groups
  | [], bg, t, hS, hci => by
    rw [unitBudget_nil] at hS
    exact ⟨SBg_mono (by omega) hS, hci⟩
  | u :: us, bg, t, hS, hci => by
    rw [stepAll_cons]
    rw [unitBudget_cons] at hS
    have hstep := ciDistinct_unitLoop u ((assoc uum u.email).getD [])
      (unitBudget uum us + bg) t (SBg_mono (by omega) hS) hci
    exact ciDistinct_phase1 uum us bg _ hstep.1 hstep.2

/-- Full page budget: the user table fits in its page, `bg` group
creations and `bm` membership additions are still to come, and every
group's member list will stay within one page. -/
def SB (bg bm : Nat) (t : WState) : Prop :=
  t.users.length ≤ 100 ∧ t.groups.length + bg ≤ 100 ∧
    (∀ g ∈ t.groups, g.members.length + bm ≤ 100) ∧ bm ≤ 100

theorem SB_mono {bg bm bg2 bm2 : Nat} {t : WState} (hg : bg2 ≤ bg) (hm : bm2 ≤ bm)
    (h : SB bg bm t) : SB bg2 bm2 t := by
  unfold SB at h ⊢
  obtain ⟨h1, h2, h3, h4⟩ := h
  refine ⟨h1, by omega, ?_, by omega⟩
  intro g hgm
  have := h3 g hgm
  omega

theorem SB_users_le {bg bm : Nat} {t : WState} (h : SB bg bm t) :
    t.users.length ≤ 100 := h.1

theorem SB_groups_le {bg bm : Nat} {t : WState} (h : SB bg bm t) :
    t.groups.length ≤ 100 := by
  have := h.2.1
  omega

theorem SB_members_le {bg bm : Nat} {t : WState} (h : SB bg bm t) :
    ∀ g ∈ t.groups, g.members.length ≤ 100 := by
  intro g hgm
  have := h.2.2.1 g hgm
  omega

theorem SB_addUserToGroup (uid gid : Nat) {bg bm : Nat} {t : WState}
    (h : SB bg (bm + 1) t) : SB bg bm (addUserToGroup uid gid t).1 := by
  unfold addUserToGroup
  split
  · exact SB_mono (by omega) (by omega) h
  · split
    · exact SB_mono (by omega) (by omega) h
    · unfold SB at h ⊢
      obtain ⟨h1, h2, h3, h4⟩ := h
      refine ⟨h1, by simpa using h2, ?_, by omega⟩
      intro g hgm
      rcases List.mem_map.mp hgm with ⟨g0, hg0, rfl⟩
      have hb := h3 g0 hg0
      by_cases hq : g0.id = gid
      · rw [if_pos hq]
        show (g0.members ++ [uid]).length + bm ≤ 100
        rw [List.length_append]
        simp only [List.length_cons, List.length_nil]
        omega
      · rw [if_neg hq]
        omega

theorem SB_removeUserFromGroup (uid gid : Nat) {bg bm : Nat} {t : WState}
    (h : SB bg bm t) : SB bg bm (removeUserFromGroup uid gid t).1 := by
  unfold removeUserFromGroup
  unfold SB at h ⊢
  obtain ⟨h1, h2, h3, h4⟩ := h
  refine ⟨h1, by simpa using h2, ?_, h4⟩
  intro g hgm
  rcases List.mem_map.mp hgm with ⟨g0, hg0, rfl⟩
  have hb := h3 g0 hg0
  by_cases hq : g0.id = gid
  · rw [if_pos hq]
    show (g0.members.filter (fun m => m ≠ uid)).length + bm ≤ 100
    exact le_trans (Nat.add_le_add_right (List.length_filter_le _ _) bm) hb
  · rw [if_neg hq]
    exact hb

theorem SB_createGroup (n : String) {bg bm : Nat} {t : WState}
    (h : SB (bg + 1) bm t) : SB bg bm (createGroup n t).2.1 := by
  unfold SB at h ⊢
  obtain ⟨h1, h2, h3, h4⟩ := h
  refine ⟨h1, ?_, ?_, h4⟩
  · show (t.groups ++ [({ id := t.nextId, name := n, members := [] } : Group)]).length + bg ≤ 100
    rw [List.length_append]
    simp only [List.length_cons, List.length_nil]
    omega
  · intro g hgm
    rcases List.mem_append.mp hgm with hg1 | hg1
    · exact h3 g hg1
    · have hge : g = { id := t.nextId, name := n, members := [] } := by simpa using hg1
      rw [hge]
      show ([] : List Nat).length + bm ≤ 100
      simp only [List.length_nil]
      omega

theorem SB_deleteGroup (gid : Nat) {bg bm : Nat} {t : WState} (h : SB bg bm t) :
    SB bg bm (deleteGroup gid t).1 := by
  unfold deleteGroup
  unfold SB at h ⊢
  obtain ⟨h1, h2, h3, h4⟩ := h
  refine ⟨h1, ?_, ?_, h4⟩
  · show (t.groups.filter (fun g => g.id ≠ gid)).length + bg ≤ 100
    exact le_trans (Nat.add_le_add_right (List.length_filter_le _ _) bg) h2
  · intro g hgm
    exact h3 g (List.mem_of_mem_filter hgm)

theorem SB_makeUserAdmin (uid : Nat) {bg bm : Nat} {t : WState} (h : SB bg bm t) :
    SB bg bm (makeUserAdmin uid t).1 := by
  unfold makeUserAdmin
  split
  · exact h
  · split
    · exact h
    · unfold SB at h ⊢
      obtain ⟨h1, h2, h3, h4⟩ := h
      exact ⟨by simpa using h1, h2, h3, h4⟩

theorem SB_removeUserAdmin (uid : Nat) {bg bm : Nat} {t : WState} (h : SB bg bm t) :
    SB bg bm (removeUserAdmin uid t).1 := by
  unfold removeUserAdmin
  split
  · exact h
  · split
    · exact h
    · unfold SB at h ⊢
      obtain ⟨h1, h2, h3, h4⟩ := h
      exact ⟨by simpa using h1, h2, h3, h4⟩

theorem SB_processUnit (user : User) (unit : OrgUnit) {bg bm : Nat} {t : WState}
    (h : SB (bg + 1) (bm + 1) t) : SB bg bm (processUnit user unit t).1 := by
  unfold processUnit
  cases hf : findGroupByName t unit.name with
  | some g => exact SB_addUserToGroup _ _ (SB_mono (by omega) (by omega) h)
  | none => exact SB_addUserToGroup _ _ (SB_createGroup _ h)

theorem SB_ensureAdminGroup {bg bm : Nat} {t : WState} (h : SB (bg + 1) bm t) :
    SB bg bm (ensureAdminGroup t).2.1 := by
  unfold ensureAdminGroup
  cases hf : findGroupByName t ADMIN_GROUP_NAME with
  | some g => exact SB_mono (by omega) (by omega) h
  | none => exact SB_createGroup _ h

theorem SB_adminAddStep (cfg : Config) (agid : Nat) (admin : Admin)
    {bg bm : Nat} {t : WState} (h : SB bg (bm + 1) t) :
    SB bg bm (adminAddStep cfg agid admin t).1 := by
  unfold adminAddStep
  cases hf : findUserByEmail cfg t admin.email with
  | none => exact SB_mono (by omega) (by omega) h
  | some user => exact SB_makeUserAdmin _ (SB_addUserToGroup _ _ h)

theorem SB_deleteObsoleteStep (valid : List String) (g0 : Group) {bg bm : Nat}
    {t : WState} (h : SB bg bm t) : SB bg bm (deleteObsoleteStep valid g0 t).1 := by
  unfold deleteObsoleteStep
  split
  · exact h
  · split
    · exact h
    · exact SB_deleteGroup _ h

theorem SB_cleanupAdminMember (admins : List Admin) (gid : Nat) (m : User)
    {bg bm : Nat} {t : WState} (h : SB bg bm t) :
    SB bg bm (cleanupAdminMember admins gid m t).1 := by
  unfold cleanupAdminMember
  split
  · exact h
  · exact SB_removeUserAdmin _ (SB_removeUserFromGroup _ _ h)

theorem SB_cleanupUnitMember (activeUsers : List User)
    (uum : List (String × List OrgUnit)) (gid : Nat) (gname : String) (m : User)
    {bg bm : Nat} {t : WState} (h : SB bg bm t) :
    SB bg bm (cleanupUnitMember activeUsers uum gid gname m t).1 := by
  unfold cleanupUnitMember
  split
  · exact h
  · split
    · exact h
    · exact SB_removeUserFromGroup _ _ h

theorem SB_cleanupGroup (admins : List Admin) (activeUsers : List User)
    (uum : List (String × List OrgUnit)) (g0 : Group) {bg bm : Nat} {t : WState}
    (h : SB bg bm t) : SB bg bm (cleanupGroup admins activeUsers uum g0 t).1 := by
  unfold cleanupGroup
  split
  · exact stepAll_pres (fun m _ t2 ht2 => SB_cleanupAdminMember admins _ m ht2) h
  · exact stepAll_pres
      (fun m _ t2 ht2 => SB_cleanupUnitMember activeUsers uum _ _ m ht2) h

/-- Budget thread through one user's unit loop. -/
theorem SB_unitLoop (user : User) :
    ∀ (units : List OrgUnit) (bg bm : Nat) (t : WState),
      SB (units.length + bg) (units.length + bm) t →
      SB bg bm (stepAll (processUnit user) units t).1
  | [], _, _, _, h => SB_mono (by omega) (by omega) h
  | unit :: us, bg, bm, t, h => by
    rw [stepAll_cons]
    exact SB_unitLoop user us bg bm _
      (SB_processUnit user unit
        (SB_mono (by simp only [List.length_cons]; omega)
          (by simp only [List.length_cons]; omega) h))

/-- Budget thread through `processUser`. -/
theorem SB_processUser (uum : List (String × List OrgUnit)) (user : User)
    {bg bm : Nat} {t : WState}
    (h : SB (((assoc uum user.email).getD []).length + bg)
      (((assoc uum user.email).getD []).length + bm) t) :
    SB bg bm (processUser uum user t).1 := by
  unfold processUser
  exact SB_unitLoop user _ bg bm t h

/-- Budget thread through the whole find-or-create phase. -/
theorem SB_phase1 (uum : List (String × List OrgUnit)) :
    ∀ (users : List User) (bg bm : Nat) (t : WState),
      SB (unitBudget uum users + bg) (unitBudget uum users + bm) t →
      SB bg bm (stepAll (processUser uum) users t).1
  | [], bg, bm, t, h => by
    rw [unitBudget_nil] at h
    exact SB_mono (by omega) (by omega) h
  | u :: us, bg, bm, t, h => by
    rw [stepAll_cons]
    rw [unitBudget_cons] at h
    exact SB_phase1 uum us bg bm _
      (SB_processUser uum u (SB_mono (by omega) (by omega) h))

/-- Budget thread through the admin-addition loop. -/
theorem SB_phase3 (cfg : Config) (agid : Nat) :
    ∀ (admins : List Admin) (bg bm : Nat) (t : WState),
      SB bg (admins.length + bm) t →
      SB bg bm (stepAll (adminAddStep cfg agid) admins t).1
  | [], _, _, _, h => SB_mono (by omega) (by omega) h
  | a :: l, bg, bm, t, h => by
    rw [stepAll_cons]
    exact SB_phase3 cfg agid l bg bm _
      (SB_adminAddStep cfg agid a
        (SB_mono (by omega)
          (by simp only [List.length_cons]; omega) h))

/-- C8 counterexample data: one hundred groups fill the fetched page and
a case-variant `UNIT101` sits just beyond it. -/
def c8s0 : WState :=
  { users := [{ id := 500, email := "u@x", role := "viewer", suspended := false }],
    groups := (List.range 100).map
        (fun i => { id := i, name := "g" ++ toString i, members := [] })
      ++ [{ id := 100, name := "UNIT101", members := [] }],
    collections := [], nextId := 200 }

/-- C8 counterexample directory: the only user belongs to one unit named
`unit101`. -/
def c8dir : Dir :=
  { persons := [("u@x", some 7)], units := [(7, [{ name := "unit101" }])],
    groups := [] }

/-- C8 counterexample configuration. -/
def c8cfg : Config :=
  { adminEmail := "root@x", allowedCollections := [], allowedUnitsFile := none,
    dirAdminGroup := "wiki-admins" }

set_option maxRecDepth 10000 in
/-- C8 counterexample: with 101 groups the find-or-create lookup scans
only the one fetched page of 100, misses the case-insensitive match
`UNIT101` sitting beyond it, and creates a duplicate group `unit101` —
so a workspace without case-insensitive duplicates acquires one,
refuting the claim that the engine never creates a group whose name
case-insensitively equals an existing group's name. -/
theorem c8_counterexample :
    ciDistinct c8s0.groups ∧
    ¬ ciDistinct (syncUsers c8cfg c8dir c8s0).1.groups := by
  constructor
  · unfold ciDistinct
    decide
  · unfold ciDistinct
    decide

/-- C8 amended: unit and group names are matched case-insensitively
throughout the Unit/Group phase, but only within the single fetched
page of 100 groups.  First conjunct: when the group table fits in that
page, `findGroupByName` resolves every case-insensitive match (so
find-or-create never takes the create branch).  Second conjunct: when
the table is small enough that it stays within one page for the whole
run — at most 100 groups counting one per processed (user, unit) pair
plus the admin group — a group list without case-insensitive duplicates
still has none after `syncUsers`.  (`c8_counterexample` shows the bound
is necessary: beyond one page the engine creates a duplicate.) -/
theorem c8_no_case_insensitive_duplicates (cfg : Config) (d : Dir) (s : WState)
    (hci : ciDistinct s.groups)
    (hbudget : s.groups.length + runBudget cfg d s + 1 ≤ 100) :
    (∀ (n : String) (g : Group), g ∈ s.groups → g.name.lowerStr = n.lowerStr →
      ∃ g2, findGroupByName s n = some g2 ∧ g2.name.lowerStr = n.lowerStr) ∧
    ciDistinct (syncUsers cfg d s).1.groups := by
  have hb0 : s.groups.length ≤ 100 := by omega
  refine ⟨fun n g hg hname => findGroupByName_resolves_ci hb0 hg hname, ?_⟩
  cases hie : (getAllUsers cfg s).isEmpty with
  | true => rw [syncUsers_empty cfg d s hie]; exact hci
  | false =>
    rw [syncUsers_eq_nonempty cfg d s hie]
    simp only []
    refine stepAll_pres (P := fun t => ciDistinct t.groups)
      (fun g _ t h => ciDistinct_cleanupGroup _ _ _ g t h) ?_
    refine stepAll_pres (P := fun t => ciDistinct t.groups)
      (fun g _ t h => ciDistinct_deleteObsoleteStep _ g t h) ?_
    refine stepAll_pres (P := fun t => ciDistinct t.groups)
      (fun a _ t h => ciDistinct_adminAddStep _ _ a t h) ?_
    have hrun := ciDistinct_phase1 (userUnitsMap cfg d (getAllUsers cfg s))
      (getAllUsers cfg s) 1 s
      (by
        unfold runBudget at hbudget
        unfold SBg
        omega) hci
    exact ciDistinct_ensureAdminGroup _ (SBg_le hrun.1) hrun.2

/-- C8 amended, witness. -/
theorem c8_witness :
    (∀ (n : String) (g : Group),
      g ∈ (WState.mk [{ id := 1, email := "u@x", role := "viewer", suspended := false }]
        [{ id := 5, name := "Research-IT", members := [] }] [] 10).groups →
      g.name.lowerStr = n.lowerStr →
      ∃ g2, findGroupByName (WState.mk
          [{ id := 1, email := "u@x", role := "viewer", suspended := false }]
          [{ id := 5, name := "Research-IT", members := [] }] [] 10) n = some g2 ∧
        g2.name.lowerStr = n.lowerStr) ∧
    ciDistinct (syncUsers (Config.mk "root@x" [] none "wiki-admins")
      (Dir.mk [("u@x", some 7)] [(7, [{ name := "research-it" }])] [])
      (WState.mk [{ id := 1, email := "u@x", role := "viewer", suspended := false }]
        [{ id := 5, name := "Research-IT", members := [] }] [] 10)).1.groups :=
  c8_no_case_insensitive_duplicates (Config.mk "root@x" [] none "wiki-admins")
    (Dir.mk [("u@x", some 7)] [(7, [{ name := "research-it" }])] [])
    (WState.mk [{ id := 1, email := "u@x", role := "viewer", suspended := false }]
      [{ id := 5, name := "Research-IT", members := [] }] [] 10)
    (by unfold ciDistinct; decide)
    (by unfold runBudget unitBudget; decide)

/-! ## Infrastructure for role tracking (C6, C4) -/

/-- Role of the user with a given id, when present. -/
def roleOf (t : WState) (uid : Nat) : Option String :=
  (t.users.find? (fun u => u.id = uid)).map (fun u => u.role)

theorem userSkel_fields {u v : User} (h : userSkel u = userSkel v) :
    u.id = v.id ∧ u.email = v.email ∧ u.suspended = v.suspended := by
  unfold userSkel at h
  exact ⟨congrArg Prod.fst h, congrArg (fun p => p.2.1) h, congrArg (fun p => p.2.2) h⟩

theorem map_id_of_map_skel {l1 l2 : List User}
    (h : l1.map userSkel = l2.map userSkel) : l1.map (fun u => u.id) = l2.map (fun u => u.id) := by
  have h1 : (l1.map userSkel).map (fun p => p.1) = (l2.map userSkel).map (fun p => p.1) :=
    congrArg _ h
  simpa [List.map_map, Function.comp, userSkel] using h1

theorem map_email_of_map_skel {l1 l2 : List User}
    (h : l1.map userSkel = l2.map userSkel) :
    l1.map (fun u => u.email) = l2.map (fun u => u.email) := by
  have h1 : (l1.map userSkel).map (fun p => p.2.1) = (l2.map userSkel).map (fun p => p.2.1) :=
    congrArg _ h
  simpa [List.map_map, Function.comp, userSkel] using h1

/-- Filtering on a property of the email commutes with skeleton-equal
user lists. -/
theorem map_skel_filter_email (p : String → Bool) :
    ∀ {l1 l2 : List User}, l1.map userSkel = l2.map userSkel →
      (l1.filter (fun u => p u.email)).map userSkel =
        (l2.filter (fun u => p u.email)).map userSkel
  | [], l2, h => by
    have h2 : l2.map userSkel = [] := h.symm
    have h3 : l2 = [] := List.map_eq_nil_iff.mp h2
    subst h3
    rfl
  | u :: l1, l2, h => by
    cases l2 with
    | nil => simp at h
    | cons v l2 =>
      rw [List.map_cons, List.map_cons] at h
      injection h with hsk htail
      have hemail := (userSkel_fields hsk).2.1
      cases hp : p v.email
      · rw [List.filter_cons_of_neg (by simp [hemail, hp]),
          List.filter_cons_of_neg (by simp [hp])]
        exact map_skel_filter_email p htail
      · rw [List.filter_cons_of_pos (by simp [hemail, hp]),
          List.filter_cons_of_pos (by simp [hp])]
        rw [List.map_cons, List.map_cons, hsk, map_skel_filter_email p htail]

/-- Searching on a property of the email commutes with skeleton-equal
user lists, up to the skeleton of the result. -/
theorem map_skel_find_email (p : String → Bool) :
    ∀ {l1 l2 : List User}, l1.map userSkel = l2.map userSkel →
      ((l1.find? (fun u => p u.email)).map userSkel) =
        ((l2.find? (fun u => p u.email)).map userSkel)
  | [], l2, h => by
    have h2 : l2.map userSkel = [] := h.symm
    have h3 : l2 = [] := List.map_eq_nil_iff.mp h2
    subst h3
    rfl
  | u :: l1, l2, h => by
    cases l2 with
    | nil => simp at h
    | cons v l2 =>
      rw [List.map_cons, List.map_cons] at h
      injection h with hsk htail
      have hemail := (userSkel_fields hsk).2.1
      cases hp : p v.email
      · rw [List.find?_cons_of_neg _ (by simp [hemail, hp]),
          List.find?_cons_of_neg _ (by simp [hp])]
        exact map_skel_find_email p htail
      · rw [List.find?_cons_of_pos _ (by simp [hemail, hp]),
          List.find?_cons_of_pos _ (by simp [hp])]
        simpa using hsk

/-- In a list of users with pairwise distinct ids, searching for a
member's id returns that member. -/
theorem find?_id_of_mem_nodup {l : List User} {u : User}
    (hnd : (l.map (fun u => u.id)).Nodup) (hu : u ∈ l) :
    l.find? (fun v => v.id = u.id) = some u := by
  induction l with
  | nil => cases hu
  | cons v l ih =>
    rw [List.find?_cons]
    rcases List.mem_cons.mp hu with h | h
    · subst h
      simp
    · have hvne : v.id ≠ u.id := by
        intro hid
        have : u.id ∈ l.map (fun u => u.id) := List.mem_map_of_mem _ h
        rw [← hid] at this
        exact (List.nodup_cons.mp (by simpa using hnd)).1 this
      have hd : (decide (v.id = u.id)) = false := by simp [hvne]
      rw [hd]
      exact ih (List.nodup_cons.mp (by simpa using hnd)).2 h

theorem roleOf_eq_of_users_eq {t1 t2 : WState} (h : t1.users = t2.users) (uid : Nat) :
    roleOf t1 uid = roleOf t2 uid := by
  unfold roleOf
  rw [h]

theorem find?_id_roleUpdate (l : List User) (uid target : Nat) (r : String) :
    (l.map (fun u2 => if u2.id = uid then { u2 with role := r } else u2)).find?
      (fun u => u.id = target) =
    (l.find? (fun u => u.id = target)).map
      (fun u2 => if u2.id = uid then { u2 with role := r } else u2) := by
  rw [List.find?_map]
  have hpred : ((fun u : User => decide (u.id = target)) ∘
      (fun u2 : User => if u2.id = uid then { u2 with role := r } else u2)) =
      (fun u : User => decide (u.id = target)) := by
    funext u
    by_cases hu : u.id = uid <;> simp [hu, Function.comp]
  rw [hpred]

theorem roleOf_makeUserAdmin_other {uid uid2 : Nat} (t : WState) (h : uid2 ≠ uid) :
    roleOf (makeUserAdmin uid t).1 uid2 = roleOf t uid2 := by
  unfold makeUserAdmin
  split
  · rfl
  · split
    · rfl
    · unfold roleOf
      simp only [find?_id_roleUpdate]
      cases hf : t.users.find? (fun u => u.id = uid2) with
      | none => rfl
      | some u =>
        have hid : u.id = uid2 := by simpa using List.find?_some hf
        simp [hid, h]

theorem roleOf_makeUserAdmin_self {uid : Nat} {t : WState} {u : User}
    (hfind : t.users.find? (fun v => v.id = uid) = some u) :
    roleOf (makeUserAdmin uid t).1 uid = some "admin" := by
  have hid : u.id = uid := by simpa using List.find?_some hfind
  unfold makeUserAdmin
  simp only [hfind]
  by_cases hrole : u.role = "admin"
  · rw [if_pos hrole]
    unfold roleOf
    rw [hfind]
    simp [hrole]
  · rw [if_neg hrole]
    unfold roleOf
    simp only [find?_id_roleUpdate]
    rw [hfind]
    simp [hid]

theorem roleOf_makeUserAdmin_sticky (uid uid2 : Nat) (t : WState)
    (h : roleOf t uid2 = some "admin") :
    roleOf (makeUserAdmin uid t).1 uid2 = some "admin" := by
  by_cases huid : uid2 = uid
  · subst huid
    unfold makeUserAdmin
    split
    · exact h
    · next u heq =>
      split
      · exact h
      · next hrole =>
        unfold roleOf at h
        rw [heq] at h
        simp only [Option.map, Option.some_inj] at h
        exact absurd h hrole
  · rw [roleOf_makeUserAdmin_other t huid]
    exact h

theorem roleOf_removeUserAdmin_other {uid uid2 : Nat} (t : WState) (h : uid2 ≠ uid) :
    roleOf (removeUserAdmin uid t).1 uid2 = roleOf t uid2 := by
  unfold removeUserAdmin
  split
  · rfl
  · split
    · rfl
    · unfold roleOf
      simp only [find?_id_roleUpdate]
      cases hf : t.users.find? (fun u => u.id = uid2) with
      | none => rfl
      | some u =>
        have hid : u.id = uid2 := by simpa using List.find?_some hf
        simp [hid, h]

theorem roleOf_removeUserAdmin_self_admin {uid : Nat} {t : WState}
    (h : roleOf t uid = some "admin") :
    roleOf (removeUserAdmin uid t).1 uid = some "viewer" := by
  unfold roleOf at h
  cases hfind : t.users.find? (fun v => v.id = uid) with
  | none => rw [hfind] at h; simp at h
  | some u =>
    rw [hfind] at h
    simp only [Option.map, Option.some_inj] at h
    have hid : u.id = uid := by simpa using List.find?_some hfind
    unfold removeUserAdmin
    simp only [hfind]
    rw [if_neg (by simp [h])]
    unfold roleOf
    simp only [find?_id_roleUpdate]
    rw [hfind]
    simp [hid]

/-- Absence of a user from every group carrying a given id. -/
def notMemberIn (t : WState) (gid uid : Nat) : Prop :=
  ∀ g ∈ t.groups, g.id = gid → uid ∉ g.members

theorem notMemberIn_removeUserFromGroup_self (uid gid : Nat) (t : WState) :
    notMemberIn (removeUserFromGroup uid gid t).1 gid uid := by
  intro g hg hid
  rcases List.mem_map.mp hg with ⟨g0, hg0, rfl⟩
  by_cases h : g0.id = gid
  · simp only [if_pos h]
    intro hmem
    have hcontr := (List.mem_filter.mp hmem).2
    simp at hcontr
  · rw [if_neg h] at hid ⊢
    exact absurd hid h

theorem notMemberIn_pres_removeUserFromGroup (uid2 gid2 uid gid : Nat) (t : WState)
    (h : notMemberIn t gid uid) :
    notMemberIn (removeUserFromGroup uid2 gid2 t).1 gid uid := by
  intro g hg hid
  rcases List.mem_map.mp hg with ⟨g0, hg0, rfl⟩
  by_cases hq : g0.id = gid2
  · simp only [if_pos hq] at hid ⊢
    intro hmem
    exact h g0 hg0 hid (List.mem_of_mem_filter hmem)
  · rw [if_neg hq] at hid ⊢
    exact h g0 hg0 hid

theorem notMemberIn_pres_addUserToGroup (uid2 gid2 uid gid : Nat) (t : WState)
    (huid : uid2 ≠ uid) (h : notMemberIn t gid uid) :
    notMemberIn (addUserToGroup uid2 gid2 t).1 gid uid := by
  unfold addUserToGroup
  split
  · exact h
  · split
    · exact h
    · intro g hg hid
      rcases List.mem_map.mp hg with ⟨g0, hg0, rfl⟩
      by_cases hq : g0.id = gid2
      · simp only [if_pos hq] at hid ⊢
        intro hmem
        rcases List.mem_append.mp hmem with hm | hm
        · exact h g0 hg0 hid hm
        · exact huid (List.mem_singleton.mp hm).symm
      · rw [if_neg hq] at hid ⊢
        exact h g0 hg0 hid

theorem notMemberIn_pres_groups_eq {t1 t2 : WState} (h : t1.groups = t2.groups)
    {gid uid : Nat} (hm : notMemberIn t2 gid uid) : notMemberIn t1 gid uid := by
  intro g hg hid
  exact hm g (h ▸ hg) hid


/-! ## C6 — step and loop lemmas for the Admin phase -/

theorem find?_email_of_mem_nodup {l : List User} {u : User}
    (hnd : (l.map (fun u => u.email)).Nodup) (hu : u ∈ l) :
    l.find? (fun v => v.email = u.email) = some u := by
  induction l with
  | nil => cases hu
  | cons v l ih =>
    rcases List.mem_cons.mp hu with h | h
    · subst h
      rw [List.find?_cons_of_pos _ (by simp)]
    · have hvne : v.email ≠ u.email := by
        intro hemail
        have : u.email ∈ l.map (fun u => u.email) := List.mem_map_of_mem _ h
        rw [← hemail] at this
        exact (List.nodup_cons.mp (by simpa using hnd)).1 this
      rw [List.find?_cons_of_neg _ (by simpa using hvne)]
      exact ih (List.nodup_cons.mp (by simpa using hnd)).2 h

theorem skel_syncAdminsAddStep (cfg : Config) (existing : List User) (agid : Nat)
    (a : Admin) (t : WState) :
    (syncAdminsAddStep cfg existing agid a t).1.users.map userSkel =
      t.users.map userSkel := by
  unfold syncAdminsAddStep
  split
  · rfl
  · simp only []
    split
    · rw [users_addUserToGroup]
    · simp only []
      rw [skel_makeUserAdmin, users_addUserToGroup]

theorem skel_syncAdminsDemoteStep (A : List Admin) (agid : Nat) (ea : User)
    (t : WState) :
    (syncAdminsDemoteStep A agid ea t).1.users.map userSkel =
      t.users.map userSkel := by
  unfold syncAdminsDemoteStep
  split
  · rfl
  · simp only []
    rw [users_removeUserFromGroup]
    exact skel_removeUserAdmin _ _

theorem syncAdminsAddStep_sticky (cfg : Config) (existing : List User) (agid : Nat)
    (a : Admin) (t : WState) (uid : Nat) (h : roleOf t uid = some "admin") :
    roleOf (syncAdminsAddStep cfg existing agid a t).1 uid = some "admin" := by
  unfold syncAdminsAddStep
  split
  · exact h
  · next user hfind =>
    simp only []
    have h1 : roleOf (addUserToGroup user.id agid t).1 uid = some "admin" := by
      rw [roleOf_eq_of_users_eq (users_addUserToGroup _ _ _) uid]
      exact h
    split
    · exact h1
    · exact roleOf_makeUserAdmin_sticky _ _ _ h1

theorem syncAdminsAddStep_roleOf_other (cfg : Config) (existing : List User)
    (agid : Nat) (a : Admin) (t : WState) (uid : Nat)
    (h : ∀ user, findUserByEmail cfg t a.email = some user → user.id ≠ uid) :
    roleOf (syncAdminsAddStep cfg existing agid a t).1 uid = roleOf t uid := by
  unfold syncAdminsAddStep
  split
  · rfl
  · next user hfind =>
    simp only []
    have hne := h user hfind
    have h1 : roleOf (addUserToGroup user.id agid t).1 uid = roleOf t uid :=
      roleOf_eq_of_users_eq (users_addUserToGroup _ _ _) uid
    split
    · exact h1
    · rw [roleOf_makeUserAdmin_other _ (fun hx => hne hx.symm)]
      exact h1

theorem syncAdminsAddStep_promotes (cfg : Config) (existing : List User)
    (agid : Nat) (a : Admin) (t : WState) {user : User}
    (hfind : findUserByEmail cfg t a.email = some user)
    (hids : (t.users.map (fun u => u.id)).Nodup)
    (hadm : existing.any (fun ea => ea.id = user.id) = true →
      roleOf t user.id = some "admin") :
    roleOf (syncAdminsAddStep cfg existing agid a t).1 user.id = some "admin" := by
  have husermem : user ∈ t.users :=
    (getAllUsers_mem_users (List.mem_of_find?_eq_some hfind)).1
  unfold syncAdminsAddStep
  rw [hfind]
  simp only []
  by_cases hia : existing.any (fun ea => ea.id = user.id) = true
  · rw [if_pos hia]
    rw [roleOf_eq_of_users_eq (users_addUserToGroup _ _ _) user.id]
    exact hadm hia
  · rw [if_neg hia]
    simp only []
    have hfindid : (addUserToGroup user.id agid t).1.users.find?
        (fun v => v.id = user.id) = some user := by
      rw [users_addUserToGroup]
      exact find?_id_of_mem_nodup hids husermem
    exact roleOf_makeUserAdmin_self hfindid

theorem promoteLoop_skel (cfg : Config) (existing : List User) (agid : Nat)
    (A : List Admin) (t : WState) :
    (stepAll (syncAdminsAddStep cfg existing agid) A t).1.users.map userSkel =
      t.users.map userSkel :=
  skel_stepAll (fun a t2 => skel_syncAdminsAddStep cfg existing agid a t2) A t

theorem promoteLoop_sticky (cfg : Config) (existing : List User) (agid : Nat) :
    ∀ (A : List Admin) (t : WState) (uid : Nat), roleOf t uid = some "admin" →
      roleOf (stepAll (syncAdminsAddStep cfg existing agid) A t).1 uid = some "admin"
  | [], _, _, h => h
  | a :: A, t, uid, h => by
    rw [stepAll_cons]
    exact promoteLoop_sticky cfg existing agid A _ uid
      (syncAdminsAddStep_sticky cfg existing agid a t uid h)

theorem promoteLoop_roleOf_other (cfg : Config) (existing : List User) (agid : Nat) :
    ∀ (A : List Admin) (t : WState) (uid : Nat),
      (∀ a ∈ A, ¬ ∃ p ∈ t.users.map userSkel, p.2.1 = a.email ∧ p.1 = uid) →
      roleOf (stepAll (syncAdminsAddStep cfg existing agid) A t).1 uid = roleOf t uid
  | [], _, _, _ => rfl
  | a :: A, t, uid, h => by
    rw [stepAll_cons]
    have hstep : roleOf (syncAdminsAddStep cfg existing agid a t).1 uid = roleOf t uid := by
      refine syncAdminsAddStep_roleOf_other cfg existing agid a t uid ?_
      intro user hfind hid
      have husermem : user ∈ t.users :=
        (getAllUsers_mem_users (List.mem_of_find?_eq_some hfind)).1
      have hemail : user.email = a.email := by simpa using List.find?_some hfind
      exact h a (List.mem_cons_self a A)
        ⟨userSkel user, List.mem_map_of_mem _ husermem, hemail, hid⟩
    rw [promoteLoop_roleOf_other cfg existing agid A _ uid ?_, hstep]
    intro a2 ha2
    rw [skel_syncAdminsAddStep]
    exact h a2 (List.mem_cons_of_mem a ha2)

theorem mem_skel_transfer {l1 l2 : List User}
    (h : l1.map userSkel = l2.map userSkel) {u : User} (hu : u ∈ l1) :
    ∃ v ∈ l2, v.id = u.id ∧ v.email = u.email := by
  have hm : userSkel u ∈ l2.map userSkel := h ▸ List.mem_map_of_mem _ hu
  rcases List.mem_map.mp hm with ⟨v, hv, hsk⟩
  obtain ⟨hid, hem, _⟩ := userSkel_fields hsk
  exact ⟨v, hv, hid, hem⟩

theorem promoteLoop_promotes (cfg : Config) (existing : List User) (agid : Nat) :
    ∀ (A : List Admin) (t : WState),
      t.users.length ≤ 100 →
      (t.users.map (fun u => u.id)).Nodup →
      (t.users.map (fun u => u.email)).Nodup →
      (∀ ea ∈ existing, roleOf t ea.id = some "admin") →
      ∀ a ∈ A, ∀ u ∈ t.users, u.email = a.email → u.email ≠ cfg.adminEmail →
        roleOf (stepAll (syncAdminsAddStep cfg existing agid) A t).1 u.id = some "admin"
  | [], _, _, _, _, _, _, ha, _, _, _, _ => absurd ha (List.not_mem_nil _)
  | a0 :: A, t, hu100, hids, hemails, hadm, a, ha, u, hu, huem, hune => by
    rw [stepAll_cons]
    have hskelstep := skel_syncAdminsAddStep cfg existing agid a0 t
    have hadm2 : ∀ ea ∈ existing,
        roleOf (syncAdminsAddStep cfg existing agid a0 t).1 ea.id = some "admin" :=
      fun ea hea => syncAdminsAddStep_sticky cfg existing agid a0 t ea.id (hadm ea hea)
    rcases List.mem_cons.mp ha with rfl | haA
    · have humem2 : u ∈ t.users.filter (fun v => v.email ≠ cfg.adminEmail) :=
        List.mem_filter.mpr ⟨hu, by simpa using hune⟩
      have hfemnd : ((t.users.filter (fun v => v.email ≠ cfg.adminEmail)).map
          (fun u => u.email)).Nodup :=
        List.Nodup.sublist (List.Sublist.map _ (List.filter_sublist _)) hemails
      have hfind : findUserByEmail cfg t a.email = some u := by
        unfold findUserByEmail
        rw [getAllUsers_full cfg hu100, ← huem]
        exact find?_email_of_mem_nodup hfemnd humem2
      have hstep : roleOf (syncAdminsAddStep cfg existing agid a t).1 u.id = some "admin" := by
        refine syncAdminsAddStep_promotes cfg existing agid a t hfind hids ?_
        intro hany
        rcases List.any_eq_true.mp hany with ⟨ea, hea, hid⟩
        have : ea.id = u.id := by simpa using hid
        rw [← this]
        exact hadm ea hea
      exact promoteLoop_sticky cfg existing agid A _ u.id hstep
    · rcases mem_skel_transfer hskelstep.symm hu with ⟨v, hv, hvid, hvem⟩
      rw [← hvid]
      refine promoteLoop_promotes cfg existing agid A _ ?_ ?_ ?_ hadm2 a haA v hv ?_ ?_
      · rw [length_of_skel hskelstep]
        exact hu100
      · rw [map_id_of_map_skel hskelstep]
        exact hids
      · rw [map_email_of_map_skel hskelstep]
        exact hemails
      · rw [hvem, huem]
      · rw [hvem]
        exact hune

theorem syncAdminsDemoteStep_roleOf_pres (A : List Admin) (agid : Nat) (ea : User)
    (t : WState) (uid : Nat)
    (h : ea.id ≠ uid ∨ A.any (fun a => a.email = ea.email) = true) :
    roleOf (syncAdminsDemoteStep A agid ea t).1 uid = roleOf t uid := by
  unfold syncAdminsDemoteStep
  split
  · rfl
  · next hcond =>
    simp only []
    rw [roleOf_eq_of_users_eq (users_removeUserFromGroup _ _ _) uid]
    rcases h with hne | htrue
    · exact roleOf_removeUserAdmin_other _ (fun hx => hne hx.symm)
    · exact absurd htrue hcond

theorem demoteLoop_roleOf_pres (A : List Admin) (agid : Nat) :
    ∀ (R : List User) (t : WState) (uid : Nat),
      (∀ ea ∈ R, ea.id ≠ uid ∨ A.any (fun a => a.email = ea.email) = true) →
      roleOf (stepAll (syncAdminsDemoteStep A agid) R t).1 uid = roleOf t uid
  | [], _, _, _ => rfl
  | ea0 :: R, t, uid, h => by
    rw [stepAll_cons]
    rw [demoteLoop_roleOf_pres A agid R _ uid
      (fun ea hea => h ea (List.mem_cons_of_mem ea0 hea))]
    exact syncAdminsDemoteStep_roleOf_pres A agid ea0 t uid (h ea0 (List.mem_cons_self ea0 R))

theorem syncAdminsDemoteStep_notMember_pres (A : List Admin) (agid : Nat) (ea : User)
    (t : WState) (gid uid : Nat) (h : notMemberIn t gid uid) :
    notMemberIn (syncAdminsDemoteStep A agid ea t).1 gid uid := by
  unfold syncAdminsDemoteStep
  split
  · exact h
  · simp only []
    refine notMemberIn_pres_removeUserFromGroup _ _ _ _ _ ?_
    exact notMemberIn_pres_groups_eq (groups_removeUserAdmin _ _) h

theorem demoteLoop_notMember_pres (A : List Admin) (agid : Nat) :
    ∀ (R : List User) (t : WState) (gid uid : Nat), notMemberIn t gid uid →
      notMemberIn (stepAll (syncAdminsDemoteStep A agid) R t).1 gid uid
  | [], _, _, _, h => h
  | ea0 :: R, t, gid, uid, h => by
    rw [stepAll_cons]
    exact demoteLoop_notMember_pres A agid R _ gid uid
      (syncAdminsDemoteStep_notMember_pres A agid ea0 t gid uid h)

theorem demoteLoop_demotes (A : List Admin) (agid : Nat) :
    ∀ (R : List User) (t : WState),
      (R.map (fun u => u.id)).Nodup →
      (∀ ea ∈ R, roleOf t ea.id = some "admin") →
      ∀ ea ∈ R, A.any (fun a => a.email = ea.email) = false →
        roleOf (stepAll (syncAdminsDemoteStep A agid) R t).1 ea.id = some "viewer" ∧
        notMemberIn (stepAll (syncAdminsDemoteStep A agid) R t).1 agid ea.id
  | [], _, _, _, ea, hmem, _ => absurd hmem (List.not_mem_nil _)
  | ea0 :: R, t, hnd, hrole, ea, hmem, hcond => by
    rw [stepAll_cons]
    have hnd2 : (R.map (fun u => u.id)).Nodup := (List.nodup_cons.mp (by simpa using hnd)).2
    have hid0notin : ea0.id ∉ R.map (fun u => u.id) :=
      (List.nodup_cons.mp (by simpa using hnd)).1
    have hdiffid : ∀ ea2 ∈ R, ea2.id ≠ ea0.id := by
      intro ea2 hea2 hctr
      exact hid0notin (hctr ▸ List.mem_map_of_mem _ hea2)
    have hrole2 : ∀ ea2 ∈ R,
        roleOf (syncAdminsDemoteStep A agid ea0 t).1 ea2.id = some "admin" := by
      intro ea2 hea2
      rw [syncAdminsDemoteStep_roleOf_pres A agid ea0 t ea2.id
        (Or.inl (fun hx => hdiffid ea2 hea2 hx.symm))]
      exact hrole ea2 (List.mem_cons_of_mem ea0 hea2)
    rcases List.mem_cons.mp hmem with rfl | heaR
    · have ht1 : syncAdminsDemoteStep A agid ea t =
          ((removeUserFromGroup ea.id agid (removeUserAdmin ea.id t).1).1,
            (removeUserAdmin ea.id t).2 ++
              (removeUserFromGroup ea.id agid (removeUserAdmin ea.id t).1).2) := by
        unfold syncAdminsDemoteStep
        rw [if_neg (by simp [hcond])]
      have hviewer : roleOf (syncAdminsDemoteStep A agid ea t).1 ea.id = some "viewer" := by
        rw [ht1]
        simp only []
        rw [roleOf_eq_of_users_eq (users_removeUserFromGroup _ _ _) ea.id]
        exact roleOf_removeUserAdmin_self_admin (hrole ea (List.mem_cons_self ea R))
      have hnm : notMemberIn (syncAdminsDemoteStep A agid ea t).1 agid ea.id := by
        rw [ht1]
        exact notMemberIn_removeUserFromGroup_self _ _ _
      refine ⟨?_, demoteLoop_notMember_pres A agid R _ agid ea.id hnm⟩
      rw [demoteLoop_roleOf_pres A agid R _ ea.id
        (fun ea2 hea2 => Or.inl (fun hx => hdiffid ea2 hea2 hx))]
      exact hviewer
    · exact demoteLoop_demotes A agid R _ hnd2 hrole2 ea heaR hcond

theorem mem_id_unique {l : List User} (hnd : (l.map (fun u => u.id)).Nodup)
    {u v : User} (hu : u ∈ l) (hv : v ∈ l) (h : u.id = v.id) : u = v := by
  have h1 := find?_id_of_mem_nodup hnd hu
  have h2 := find?_id_of_mem_nodup hnd hv
  rw [h] at h1
  rw [h1] at h2
  exact Option.some_inj.mp h2

theorem mem_getAllAdminUsers {cfg : Config} {s0 : WState} {ea : User}
    (h : ea ∈ getAllAdminUsers cfg s0) :
    ea ∈ s0.users ∧ ea.role = "admin" ∧ ea.email ≠ cfg.adminEmail := by
  unfold getAllAdminUsers listPage at h
  have h1 := List.mem_filter.mp h
  have h1b : ea ∈ s0.users.filter (fun u => u.role = "admin") :=
    (List.take_sublist _ _).subset h1.1
  have h2 := List.mem_filter.mp h1b
  exact ⟨h2.1, by simpa using h2.2, by simpa using h1.2⟩

theorem getAllAdminUsers_mem {cfg : Config} {s0 : WState} {ea : User}
    (h25 : (s0.users.filter (fun u => u.role = "admin")).length ≤ DEFAULT_PAGE_LIMIT)
    (hmem : ea ∈ s0.users) (hrole : ea.role = "admin") (hne : ea.email ≠ cfg.adminEmail) :
    ea ∈ getAllAdminUsers cfg s0 := by
  unfold getAllAdminUsers listPage
  rw [List.take_of_length_le h25]
  exact List.mem_filter.mpr ⟨List.mem_filter.mpr ⟨hmem, by simpa using hrole⟩,
    by simpa using hne⟩

/-- C6 amended: after the Admin phase, a workspace user other than the
excluded admin email holds the admin role exactly when their email
occurs in the recursively expanded directory admin list; and every
workspace admin whose email is absent from that list ends the phase with
role `viewer` and outside the admin group — provided the single pages
the phase fetches are complete: at most 100 workspace users, and at most
`DEFAULT_PAGE_LIMIT` current role-admin users (the `users.list
{role:'admin'}` request carries no limit and reads one default-size
page).  `c6_counterexample` shows a 26th admin beyond that page is never
demoted. -/
theorem c6_admin_role_iff (cfg : Config) (d : Dir) (s0 : WState)
    (hids : (s0.users.map (fun u => u.id)).Nodup)
    (hemails : (s0.users.map (fun u => u.email)).Nodup)
    (hu100 : s0.users.length ≤ 100)
    (hadm25 : (s0.users.filter (fun u => u.role = "admin")).length ≤
      DEFAULT_PAGE_LIMIT) :
    (∀ u ∈ (syncAdmins cfg d s0).1.users, u.email ≠ cfg.adminEmail →
      (u.role = "admin" ↔
        (getAllAdmins cfg d).any (fun a => a.email = u.email) = true)) ∧
    (∀ u0 ∈ s0.users, u0.role = "admin" → u0.email ≠ cfg.adminEmail →
      (getAllAdmins cfg d).any (fun a => a.email = u0.email) = false →
      roleOf (syncAdmins cfg d s0).1 u0.id = some "viewer" ∧
      notMemberIn (syncAdmins cfg d s0).1 (ensureAdminGroup s0).1.id u0.id) := by
  have hF : (syncAdmins cfg d s0).1 =
      (stepAll (syncAdminsDemoteStep (getAllAdmins cfg d) (ensureAdminGroup s0).1.id)
        (getAllAdminUsers cfg s0)
        (stepAll (syncAdminsAddStep cfg (getAllAdminUsers cfg s0)
          (ensureAdminGroup s0).1.id) (getAllAdmins cfg d)
          (ensureAdminGroup s0).2.1).1).1 := rfl
  set A := getAllAdmins cfg d with hA
  set existing := getAllAdminUsers cfg s0 with hExisting
  set agid := (ensureAdminGroup s0).1.id with hAgid
  set s1 := (ensureAdminGroup s0).2.1 with hS1
  set r2 := (stepAll (syncAdminsAddStep cfg existing agid) A s1).1 with hR2
  set F := (stepAll (syncAdminsDemoteStep A agid) existing r2).1 with hFdef
  have husers1 : s1.users = s0.users := users_ensureAdminGroup s0
  have hskel2 : r2.users.map userSkel = s0.users.map userSkel := by
    rw [hR2, promoteLoop_skel, husers1]
  have hskelF : F.users.map userSkel = s0.users.map userSkel := by
    rw [hFdef, skel_stepAll (fun ea t2 => skel_syncAdminsDemoteStep A agid ea t2)]
    exact hskel2
  have hidsF : (F.users.map (fun u => u.id)).Nodup := by
    rw [map_id_of_map_skel hskelF]
    exact hids
  have hexistnd : (existing.map (fun u => u.id)).Nodup := by
    refine List.Nodup.sublist (List.Sublist.map _ ?_) hids
    exact (List.filter_sublist _).trans
      ((List.take_sublist _ _).trans (List.filter_sublist _))
  have hroleS1 : ∀ ea ∈ existing, roleOf s1 ea.id = some "admin" := by
    intro ea hea
    obtain ⟨hmem, hrole, _⟩ := mem_getAllAdminUsers hea
    unfold roleOf
    rw [husers1, find?_id_of_mem_nodup hids hmem]
    simp [hrole]
  have hroleR2 : ∀ ea ∈ existing, roleOf r2 ea.id = some "admin" := by
    intro ea hea
    rw [hR2]
    exact promoteLoop_sticky cfg existing agid A s1 ea.id (hroleS1 ea hea)
  have hdemoted : ∀ ea ∈ existing, A.any (fun a => a.email = ea.email) = false →
      roleOf F ea.id = some "viewer" ∧ notMemberIn F agid ea.id := by
    intro ea hea hcond
    rw [hFdef]
    exact demoteLoop_demotes A agid existing r2 hexistnd hroleR2 ea hea hcond
  constructor
  · intro u huF hune
    rw [hF] at huF
    have huF2 : u ∈ F.users := huF
    have hUF : roleOf F u.id = some u.role := by
      unfold roleOf
      rw [find?_id_of_mem_nodup hidsF huF2]
      rfl
    rcases mem_skel_transfer hskelF huF2 with ⟨u0, hu0mem, hu0id, hu0em⟩
    constructor
    · intro hadm
      cases hany : A.any (fun a => a.email = u.email) with
      | true => rfl
      | false =>
        exfalso
        by_cases hrole0 : u0.role = "admin"
        · have hu0ex : u0 ∈ existing :=
            getAllAdminUsers_mem hadm25 hu0mem hrole0 (hu0em ▸ hune)
          have hcond : A.any (fun a => a.email = u0.email) = false := by
            rw [hu0em]
            exact hany
          have hv := (hdemoted u0 hu0ex hcond).1
          rw [hu0id] at hv
          rw [hUF] at hv
          rw [hadm] at hv
          exact absurd (Option.some_inj.mp hv) (by decide)
        · have hother2 : roleOf r2 u.id = roleOf s1 u.id := by
            rw [hR2]
            refine promoteLoop_roleOf_other cfg existing agid A s1 u.id ?_
            intro a haA ⟨p, hp, hpe, hpid⟩
            rcases List.mem_map.mp hp with ⟨u1, hu1, hsk1⟩
            have hu1mem : u1 ∈ s0.users := husers1 ▸ hu1
            have hu1id : u1.id = u.id := by rw [← hpid, ← hsk1]; rfl
            have hu1eq : u1 = u0 := mem_id_unique hids hu1mem hu0mem (hu1id.trans hu0id.symm)
            have hae : a.email = u.email := by
              rw [← hpe, ← hsk1]
              show u1.email = u.email
              rw [hu1eq, hu0em]
            have : A.any (fun a2 => a2.email = u.email) = true :=
              List.any_eq_true.mpr ⟨a, haA, by simp [hae]⟩
            rw [hany] at this
            cases this
          have hpres3 : roleOf F u.id = roleOf r2 u.id := by
            rw [hFdef]
            refine demoteLoop_roleOf_pres A agid existing r2 u.id ?_
            intro ea hea
            left
            intro hctr
            obtain ⟨heamem, hearole, _⟩ := mem_getAllAdminUsers hea
            have : ea = u0 := mem_id_unique hids heamem hu0mem (hctr.trans hu0id.symm)
            exact hrole0 (this ▸ hearole)
          have hS0role : roleOf s1 u.id = some u0.role := by
            unfold roleOf
            rw [husers1, ← hu0id, find?_id_of_mem_nodup hids hu0mem]
            rfl
          have : some u.role = some u0.role := by
            rw [← hUF, hpres3, hother2, hS0role]
          exact hrole0 (by rw [← Option.some_inj.mp this, ← hadm])
    · intro hany
      rcases List.any_eq_true.mp hany with ⟨a, haA, hae⟩
      have hae2 : a.email = u.email := by simpa using hae
      have hprom : roleOf r2 u0.id = some "admin" := by
        rw [hR2]
        refine promoteLoop_promotes cfg existing agid A s1 ?_ ?_ ?_ hroleS1 a haA u0
          (husers1 ▸ hu0mem) (by rw [hu0em, ← hae2]) (by rw [hu0em]; exact hune)
        · rw [husers1]
          exact hu100
        · rw [husers1]
          exact hids
        · rw [husers1]
          exact hemails
      have hpres3 : roleOf F u.id = roleOf r2 u.id := by
        rw [hFdef]
        refine demoteLoop_roleOf_pres A agid existing r2 u.id ?_
        intro ea hea
        by_cases hctr : ea.id = u.id
        · right
          obtain ⟨heamem, _, _⟩ := mem_getAllAdminUsers hea
          have : ea = u0 := mem_id_unique hids heamem hu0mem (hctr.trans hu0id.symm)
          refine List.any_eq_true.mpr ⟨a, haA, ?_⟩
          simp [this, hu0em, hae2]
        · exact Or.inl hctr
      have : roleOf F u.id = some "admin" := by
        rw [hpres3, ← hu0id]
        exact hprom
      rw [hUF] at this
      exact Option.some_inj.mp this
  · intro u0 hmem hrole0 hune hfalse
    have hu0ex : u0 ∈ existing := getAllAdminUsers_mem hadm25 hmem hrole0 hune
    have := hdemoted u0 hu0ex hfalse
    rw [hF]
    exact this

/-- C6, witness. -/
theorem c6_witness :
    (∀ u ∈ (syncAdmins (Config.mk "root@x" [] none "wiki-admins")
        (Dir.mk [] [] [("wiki-admins", [DirMember.person 9 "p@x"])])
        (WState.mk [{ id := 1, email := "p@x", role := "viewer", suspended := false },
          { id := 2, email := "q@x", role := "admin", suspended := false }]
          [{ id := 5, name := "admin", members := [2] }] [] 10)).1.users,
      u.email ≠ (Config.mk "root@x" [] none "wiki-admins").adminEmail →
      (u.role = "admin" ↔
        (getAllAdmins (Config.mk "root@x" [] none "wiki-admins")
          (Dir.mk [] [] [("wiki-admins", [DirMember.person 9 "p@x"])])).any
          (fun a => a.email = u.email) = true)) ∧
    (∀ u0 ∈ (WState.mk [{ id := 1, email := "p@x", role := "viewer", suspended := false },
        { id := 2, email := "q@x", role := "admin", suspended := false }]
        [{ id := 5, name := "admin", members := [2] }] [] 10).users,
      u0.role = "admin" → u0.email ≠ (Config.mk "root@x" [] none "wiki-admins").adminEmail →
      (getAllAdmins (Config.mk "root@x" [] none "wiki-admins")
        (Dir.mk [] [] [("wiki-admins", [DirMember.person 9 "p@x"])])).any
        (fun a => a.email = u0.email) = false →
      roleOf (syncAdmins (Config.mk "root@x" [] none "wiki-admins")
        (Dir.mk [] [] [("wiki-admins", [DirMember.person 9 "p@x"])])
        (WState.mk [{ id := 1, email := "p@x", role := "viewer", suspended := false },
          { id := 2, email := "q@x", role := "admin", suspended := false }]
          [{ id := 5, name := "admin", members := [2] }] [] 10)).1 u0.id = some "viewer" ∧
      notMemberIn (syncAdmins (Config.mk "root@x" [] none "wiki-admins")
        (Dir.mk [] [] [("wiki-admins", [DirMember.person 9 "p@x"])])
        (WState.mk [{ id := 1, email := "p@x", role := "viewer", suspended := false },
          { id := 2, email := "q@x", role := "admin", suspended := false }]
          [{ id := 5, name := "admin", members := [2] }] [] 10)).1
        (ensureAdminGroup (WState.mk
          [{ id := 1, email := "p@x", role := "viewer", suspended := false },
            { id := 2, email := "q@x", role := "admin", suspended := false }]
          [{ id := 5, name := "admin", members := [2] }] [] 10)).1.id u0.id) :=
  c6_admin_role_iff (Config.mk "root@x" [] none "wiki-admins")
    (Dir.mk [] [] [("wiki-admins", [DirMember.person 9 "p@x"])])
    (WState.mk [{ id := 1, email := "p@x", role := "viewer", suspended := false },
      { id := 2, email := "q@x", role := "admin", suspended := false }]
      [{ id := 5, name := "admin", members := [2] }] [] 10)
    (by decide) (by decide) (by decide) (by decide)

/-- C6 counterexample workspace: 26 role-admin users, one more than the
default page returned by the unlimited `users.list {role:'admin'}`
request. -/
def c6s0 : WState :=
  { users := (List.range 26).map
      (fun i => { id := i, email := "u" ++ toString i, role := "admin",
                  suspended := false }),
    groups := [], collections := [], nextId := 100 }

/-- C6 counterexample directory: its admin group is empty, so no
workspace user should keep the admin role. -/
def c6dir : Dir :=
  { persons := [], units := [], groups := [("wiki-admins", [])] }

/-- C6 counterexample configuration. -/
def c6cfg : Config :=
  { adminEmail := "root@x", allowedCollections := [], allowedUnitsFile := none,
    dirAdminGroup := "wiki-admins" }

/-- C6 counterexample: the directory admin list is empty, yet after
`syncAdmins` the 26th workspace admin still holds the admin role — the
demotion loop runs over the single default-size page of 25 returned by
the unlimited `users.list {role:'admin'}` request and never sees the
26th admin.  This refutes the unconditional claim that every workspace
admin absent from the directory list is set to viewer. -/
theorem c6_counterexample :
    ((c6s0.users.map (fun u => u.id)).Nodup ∧
      (c6s0.users.map (fun u => u.email)).Nodup) ∧
    ∃ u ∈ (syncAdmins c6cfg c6dir c6s0).1.users,
      u.email ≠ c6cfg.adminEmail ∧ u.role = "admin" ∧
      (getAllAdmins c6cfg c6dir).any (fun a => a.email = u.email) = false := by
  refine ⟨⟨by decide, by decide⟩, ?_⟩
  decide

/-! ## C4 — toolkit: stability of group resolution under state evolution -/

/-- List-level body of `findGroupByName`. -/
def findGroupIn (groups : List Group) (name : String) : Option Group :=
  match groups.find? (fun g => g.name = name) with
  | some g => some g
  | none => groups.find? (fun g => g.name.lowerStr = name.lowerStr)

theorem findGroupByName_eq_list (s : WState) (n : String)
    (hb : s.groups.length ≤ 100) :
    findGroupByName s n = findGroupIn s.groups n := by
  unfold findGroupByName findGroupIn
  rw [getAllGroups_full hb]

theorem find?_filter_keepMatches {α : Type} (p keep : α → Bool) :
    ∀ (l : List α), (∀ a ∈ l, p a = true → keep a = true) →
      (l.filter keep).find? p = l.find? p
  | [], _ => rfl
  | a :: l, h => by
    by_cases hk : keep a = true
    · rw [List.filter_cons_of_pos hk]
      by_cases hp : p a = true
      · rw [List.find?_cons_of_pos _ hp, List.find?_cons_of_pos _ hp]
      · rw [List.find?_cons_of_neg _ (by simpa using hp),
          List.find?_cons_of_neg _ (by simpa using hp)]
        exact find?_filter_keepMatches p keep l
          (fun b hb => h b (List.mem_cons_of_mem a hb))
    · rw [List.filter_cons_of_neg (by simpa using hk)]
      have hp : p a = false := by
        cases hpa : p a
        · rfl
        · exact absurd (h a (List.mem_cons_self a l) hpa) hk
      rw [List.find?_cons_of_neg _ (by simp [hp])]
      exact find?_filter_keepMatches p keep l
        (fun b hb => h b (List.mem_cons_of_mem a hb))

theorem find?_append_single_no {α : Type} (p : α → Bool) (x : α) (hx : p x = false) :
    ∀ l : List α, (l ++ [x]).find? p = l.find? p
  | [] => by
    rw [List.nil_append]
    rw [List.find?_cons_of_neg _ (by simp [hx])]
  | a :: l => by
    by_cases hp : p a = true
    · rw [List.cons_append, List.find?_cons_of_pos _ hp, List.find?_cons_of_pos _ hp]
    · rw [List.cons_append, List.find?_cons_of_neg _ (by simpa using hp),
        List.find?_cons_of_neg _ (by simpa using hp)]
      exact find?_append_single_no p x hx l

theorem groups_find?_map_name {f : Group → Group} (hf : ∀ g, (f g).name = g.name)
    (p : String → Bool) (l : List Group) :
    (l.map f).find? (fun g => p g.name) = (l.find? (fun g => p g.name)).map f := by
  rw [List.find?_map]
  have hpred : ((fun g : Group => p g.name) ∘ f) = (fun g : Group => p g.name) := by
    funext g
    simp [Function.comp, hf]
  rw [hpred]

theorem findGroupIn_map {f : Group → Group} (hf : ∀ g, (f g).name = g.name)
    (l : List Group) (n : String) :
    findGroupIn (l.map f) n = (findGroupIn l n).map f := by
  unfold findGroupIn
  rw [show (fun g : Group => decide (g.name = n)) = (fun g : Group => decide (g.name = n))
    from rfl]
  have h1 : (l.map f).find? (fun g => g.name = n) = (l.find? (fun g => g.name = n)).map f :=
    groups_find?_map_name hf (fun nm => decide (nm = n)) l
  have h2 : (l.map f).find? (fun g => g.name.lowerStr = n.lowerStr) =
      (l.find? (fun g => g.name.lowerStr = n.lowerStr)).map f :=
    groups_find?_map_name hf (fun nm => decide (nm.lowerStr = n.lowerStr)) l
  rw [h1, h2]
  cases l.find? (fun g => g.name = n) with
  | none => rfl
  | some g => rfl

theorem findGroupIn_filter_keep {l : List Group} {keep : Group → Bool} {n : String}
    (h : ∀ g ∈ l, g.name.lowerStr = n.lowerStr → keep g = true) :
    findGroupIn (l.filter keep) n = findGroupIn l n := by
  unfold findGroupIn
  have h1 : (l.filter keep).find? (fun g => g.name = n) = l.find? (fun g => g.name = n) := by
    refine find?_filter_keepMatches _ _ l (fun g hg hp => ?_)
    have : g.name = n := by simpa using hp
    exact h g hg (by rw [this])
  have h2 : (l.filter keep).find? (fun g => g.name.lowerStr = n.lowerStr) =
      l.find? (fun g => g.name.lowerStr = n.lowerStr) := by
    refine find?_filter_keepMatches _ _ l (fun g hg hp => ?_)
    exact h g hg (by simpa using hp)
  rw [h1, h2]

theorem findGroupIn_append_fresh {l : List Group} {g : Group} {n : String}
    (h : g.name.lowerStr ≠ n.lowerStr) :
    findGroupIn (l ++ [g]) n = findGroupIn l n := by
  have hexact : g.name ≠ n := fun hctr => h (by rw [hctr])
  unfold findGroupIn
  rw [find?_append_single_no _ g (by simpa using hexact),
    find?_append_single_no _ g (by simpa using h)]

theorem findGroupIn_mem {l : List Group} {n : String} {g : Group}
    (h : findGroupIn l n = some g) : g ∈ l ∧ g.name.lowerStr = n.lowerStr := by
  unfold findGroupIn at h
  split at h
  · next g2 heq =>
    have hg : g = g2 := (Option.some_inj.mp h).symm
    subst hg
    refine ⟨List.mem_of_find?_eq_some heq, ?_⟩
    have hn : (g : Group).name = n := by simpa using List.find?_some heq
    rw [hn]
  · refine ⟨List.mem_of_find?_eq_some h, ?_⟩
    simpa using List.find?_some h

theorem findGroupIn_none {l : List Group} {n : String} (h : findGroupIn l n = none) :
    ∀ g ∈ l, g.name.lowerStr ≠ n.lowerStr := by
  unfold findGroupIn at h
  split at h
  · exact absurd h (by simp)
  · intro g hg
    simpa using List.find?_eq_none.mp h g hg

/-- The member-append update performed by `addUserToGroup`. -/
def addMem (userId groupId : Nat) (g : Group) : Group :=
  if g.id = groupId then { g with members := g.members ++ [userId] } else g

/-- The member-removal update performed by `removeUserFromGroup`. -/
def remMem (userId groupId : Nat) (g : Group) : Group :=
  if g.id = groupId then { g with members := g.members.filter (fun m => m ≠ userId) } else g

theorem addMem_name (userId groupId : Nat) (g : Group) :
    (addMem userId groupId g).name = g.name := by
  unfold addMem
  split <;> rfl

theorem addMem_id (userId groupId : Nat) (g : Group) :
    (addMem userId groupId g).id = g.id := by
  unfold addMem
  split <;> rfl

theorem addMem_mono (userId groupId : Nat) (g : Group) {u : Nat} (h : u ∈ g.members) :
    u ∈ (addMem userId groupId g).members := by
  unfold addMem
  split
  · exact List.mem_append_left _ h
  · exact h

theorem remMem_name (userId groupId : Nat) (g : Group) :
    (remMem userId groupId g).name = g.name := by
  unfold remMem
  split <;> rfl

theorem remMem_id (userId groupId : Nat) (g : Group) :
    (remMem userId groupId g).id = g.id := by
  unfold remMem
  split <;> rfl

theorem remMem_sub (userId groupId : Nat) (g : Group) {u : Nat}
    (h : u ∈ (remMem userId groupId g).members) : u ∈ g.members := by
  unfold remMem at h
  split at h
  · exact List.mem_of_mem_filter h
  · exact h

theorem addUserToGroup_eq (uid gid : Nat) (s : WState) :
    addUserToGroup uid gid s = (s, []) ∨
    addUserToGroup uid gid s =
      ({ s with groups := s.groups.map (addMem uid gid) }, [Ev.memberAdded gid uid]) := by
  unfold addUserToGroup
  split
  · exact Or.inl rfl
  · split
    · exact Or.inl rfl
    · exact Or.inr rfl

theorem removeUserFromGroup_eq (uid gid : Nat) (s : WState) :
    removeUserFromGroup uid gid s =
      ({ s with groups := s.groups.map (remMem uid gid) }, [Ev.memberRemoved gid uid]) := rfl

theorem createGroup_eq (name : String) (s : WState) :
    createGroup name s =
      ({ id := s.nextId, name := name, members := [] },
        { s with
            groups := s.groups ++ [{ id := s.nextId, name := name, members := [] }],
            nextId := s.nextId + 1 },
        [Ev.groupCreated s.nextId name]) := rfl

theorem deleteGroup_eq (gid : Nat) (s : WState) :
    deleteGroup gid s =
      ({ s with groups := s.groups.filter (fun g => g.id ≠ gid) }, [Ev.groupDeleted gid]) := rfl

/-! ## C4 — invariants of a sync run -/

/-- The email recorded for a user id, when the id resolves. -/
def emailOf (t : WState) (uid : Nat) : Option String :=
  (t.users.find? (fun u => u.id = uid)).map (fun u => u.email)

/-- A group carrying the id and name of a group of the initial snapshot. -/
def SCopy (s0 : WState) (g : Group) : Prop :=
  ∃ g0 ∈ s0.groups, g.id = g0.id ∧ g.name = g0.name

/-- Well-formed group table relative to the initial snapshot: distinct ids,
all ids below the id counter, and a counter at least the initial one. -/
def GWF (s0 t : WState) : Prop :=
  (t.groups.map (fun g => g.id)).Nodup ∧ (∀ g ∈ t.groups, g.id < t.nextId) ∧
    s0.nextId ≤ t.nextId

/-- Provenance of every group: a snapshot copy, a fresh group named after an
allowed unit, or the fresh admin group. -/
def Ped (s0 : WState) (valid : List String) (agid : Nat) (t : WState) : Prop :=
  ∀ g ∈ t.groups, SCopy s0 g ∨
    (s0.nextId ≤ g.id ∧ g.name.lowerStr ≠ ADMIN_GROUP_NAME.lowerStr ∧
      valid.contains g.name.lowerStr = true) ∨
    (g.id = agid ∧ g.name.lowerStr = ADMIN_GROUP_NAME.lowerStr ∧ s0.nextId ≤ g.id)

/-- The group named `n` resolves and already contains `uid`. -/
def settledPair (uid : Nat) (n : String) (t : WState) : Prop :=
  ∃ g, findGroupIn t.groups n = some g ∧ uid ∈ g.members

/-- Every group carrying the admin group id contains `uid`. -/
def memAllId (agid uid : Nat) (t : WState) : Prop :=
  ∀ g ∈ t.groups, g.id = agid → uid ∈ g.members

/-- The reserved admin name resolves to a group with the recorded id. -/
def adminResolved (agid : Nat) (t : WState) : Prop :=
  ∃ ag, findGroupIn t.groups ADMIN_GROUP_NAME = some ag ∧ ag.id = agid

/-- One directory admin is fully applied: any user carrying their email is in
the admin group and holds the admin role. -/
def P2pred (cfg : Config) (agid : Nat) (admin : Admin) (t : WState) : Prop :=
  ∀ uid, emailOf t uid = some admin.email → admin.email ≠ cfg.adminEmail →
    memAllId agid uid t ∧ roleOf t uid = some "admin"

/-- Members of fresh unit groups are justified by a matching allowed unit. -/
def justUnit (s0 : WState) (activeUsers : List User)
    (uum : List (String × List OrgUnit)) (t : WState) : Prop :=
  ∀ g ∈ t.groups, s0.nextId ≤ g.id → g.name.lowerStr ≠ ADMIN_GROUP_NAME.lowerStr →
    ∀ uid ∈ g.members, ∃ user ∈ activeUsers, user.id = uid ∧
      ((assoc uum user.email).getD []).any
        (fun unit => unit.name.lowerStr = g.name.lowerStr) = true

/-- Members of a fresh admin group carry a directory-admin email. -/
def justAdmin (admins : List Admin) (s0 : WState) (agid : Nat) (t : WState) : Prop :=
  ∀ g ∈ t.groups, g.id = agid → s0.nextId ≤ g.id → ∀ uid ∈ g.members,
    ∃ e, emailOf t uid = some e ∧ admins.any (fun a => a.email = e) = true

/-- Every surviving group name is reserved or among the valid names. -/
def namesValid (valid : List String) (t : WState) : Prop :=
  ∀ g ∈ t.groups, g.name.lowerStr = ADMIN_GROUP_NAME.lowerStr ∨
    valid.contains g.name.lowerStr = true

/-- After cleanup of an admin group: every resolvable member is a directory
admin. -/
def prunedAdmin (admins : List Admin) (gid : Nat) (t : WState) : Prop :=
  ∀ g ∈ t.groups, g.id = gid → ∀ uid ∈ g.members, ∀ u,
    t.users.find? (fun v => v.id = uid) = some u →
    admins.any (fun a => a.email = u.email) = true

/-- After cleanup of a unit group: every member that is an active user has a
unit matching the group name. -/
def prunedUnit (activeUsers : List User) (uum : List (String × List OrgUnit))
    (gid : Nat) (gname : String) (t : WState) : Prop :=
  ∀ g ∈ t.groups, g.id = gid → ∀ uid ∈ g.members, ∀ user,
    activeUsers.find? (fun v => v.id = uid) = some user →
    ((assoc uum user.email).getD []).any
      (fun unit => unit.name.lowerStr = gname.lowerStr) = true

/-- Some group with the given id contains `uid`. -/
def memIn (t : WState) (gid uid : Nat) : Prop :=
  ∃ g ∈ t.groups, g.id = gid ∧ uid ∈ g.members

theorem find?_append_none_left {α : Type} {p : α → Bool} :
    ∀ {l : List α}, l.find? p = none → ∀ l2, (l ++ l2).find? p = l2.find? p
  | [], _, _ => rfl
  | a :: l, h, l2 => by
    have hpa : p a = false := by
      cases hp : p a
      · rfl
      · rw [List.find?_cons_of_pos _ hp] at h
        exact absurd h (by simp)
    rw [List.find?_cons_of_neg _ (by simp [hpa])] at h
    rw [List.cons_append, List.find?_cons_of_neg _ (by simp [hpa])]
    exact find?_append_none_left h l2

theorem stepAll_establishes {α : Type} {f : α → WState → WState × List Ev}
    {Q : α → WState → Prop} {I : WState → Prop} :
    ∀ {l : List α},
      (∀ x ∈ l, ∀ t, I t → I (f x t).1) →
      (∀ x ∈ l, ∀ t, I t → Q x (f x t).1) →
      (∀ x ∈ l, ∀ y ∈ l, ∀ t, Q y t → Q y (f x t).1) →
      ∀ {s : WState}, I s → ∀ x ∈ l, Q x (stepAll f l s).1
  | [], _, _, _, _, _, _, hx => by cases hx
  | x :: xs, hI, hest, hpres, s, hs, y, hy => by
    rw [stepAll_cons]
    rcases List.mem_cons.mp hy with rfl | hy2
    · have h1 : Q y (f y s).1 := hest y (List.mem_cons_self y xs) s hs
      exact stepAll_pres
        (fun z hz t ht => hpres z (List.mem_cons_of_mem y hz) y (List.mem_cons_self y xs) t ht)
        h1
    · exact stepAll_establishes
        (fun z hz => hI z (List.mem_cons_of_mem x hz))
        (fun z hz => hest z (List.mem_cons_of_mem x hz))
        (fun z hz w hw => hpres z (List.mem_cons_of_mem x hz) w (List.mem_cons_of_mem x hw))
        (hI x (List.mem_cons_self x xs) s hs) y hy2

theorem stepAll_back {α : Type} {f : α → WState → WState × List Ev}
    {Q : WState → Prop} :
    ∀ {l : List α}, (∀ x ∈ l, ∀ t, Q (f x t).1 → Q t) →
      ∀ {s : WState}, Q (stepAll f l s).1 → Q s
  | [], _, _, h => h
  | x :: xs, hb, s, h => by
    rw [stepAll_cons] at h
    exact hb x (List.mem_cons_self x xs) s
      (stepAll_back (fun y hy => hb y (List.mem_cons_of_mem x hy)) h)

theorem find?_gid_of_mem_nodup {l : List Group} {g : Group}
    (hnd : (l.map (fun g => g.id)).Nodup) (hg : g ∈ l) :
    l.find? (fun g2 => g2.id = g.id) = some g := by
  induction l with
  | nil => cases hg
  | cons v l ih =>
    rw [List.find?_cons]
    rcases List.mem_cons.mp hg with h | h
    · subst h
      simp
    · have hvne : v.id ≠ g.id := by
        intro hid
        have : g.id ∈ l.map (fun g => g.id) := List.mem_map_of_mem _ h
        rw [← hid] at this
        exact (List.nodup_cons.mp (by simpa using hnd)).1 this
      have hd : (decide (v.id = g.id)) = false := by simp [hvne]
      rw [hd]
      exact ih (List.nodup_cons.mp (by simpa using hnd)).2 h

theorem gmem_id_unique {l : List Group} (hnd : (l.map (fun g => g.id)).Nodup)
    {g h : Group} (hg : g ∈ l) (hh : h ∈ l) (hid : g.id = h.id) : g = h := by
  have h1 := find?_gid_of_mem_nodup hnd hg
  have h2 := find?_gid_of_mem_nodup hnd hh
  rw [hid] at h1
  rw [h1] at h2
  exact Option.some_inj.mp h2

theorem mem_email_unique {l : List User} (hnd : (l.map (fun u => u.email)).Nodup)
    {u v : User} (hu : u ∈ l) (hv : v ∈ l) (h : u.email = v.email) : u = v := by
  induction l with
  | nil => cases hu
  | cons w l ih =>
    rw [List.map_cons] at hnd
    have hnd2 := List.nodup_cons.mp hnd
    rcases List.mem_cons.mp hu with h1 | h1 <;> rcases List.mem_cons.mp hv with h2 | h2
    · rw [h1, h2]
    · subst h1
      have hmv : v.email ∈ l.map (fun u => u.email) := List.mem_map_of_mem _ h2
      rw [← h] at hmv
      exact absurd hmv hnd2.1
    · subst h2
      have hmu : u.email ∈ l.map (fun u => u.email) := List.mem_map_of_mem _ h1
      rw [h] at hmu
      exact absurd hmu hnd2.1
    · exact ih hnd2.2 h1 h2

theorem find?_id_skel_transfer :
    ∀ {l1 l2 : List User}, l1.map userSkel = l2.map userSkel → ∀ uid,
      (l1.find? (fun u => u.id = uid)).map userSkel =
        (l2.find? (fun u => u.id = uid)).map userSkel
  | [], l2, h, uid => by
    have h3 : l2 = [] := List.map_eq_nil_iff.mp h.symm
    subst h3
    rfl
  | u :: l1, l2, h, uid => by
    cases l2 with
    | nil => simp at h
    | cons v l2 =>
      rw [List.map_cons, List.map_cons] at h
      injection h with hsk htail
      have hid := (userSkel_fields hsk).1
      rw [List.find?_cons, List.find?_cons, hid]
      cases hd : decide (v.id = uid)
      · simpa using find?_id_skel_transfer htail uid
      · simp [hsk]

theorem ids_map_skel (l : List User) :
    l.map (fun u => u.id) = (l.map userSkel).map (fun x => x.1) := by
  rw [List.map_map]
  rfl

theorem emails_map_skel (l : List User) :
    l.map (fun u => u.email) = (l.map userSkel).map (fun x => x.2.1) := by
  rw [List.map_map]
  rfl

theorem assoc_some_mem {β : Type} {l : List (String × β)} {k : String} {v : β}
    (h : assoc l k = some v) : ∃ p ∈ l, p.1 = k ∧ p.2 = v := by
  unfold assoc at h
  cases hf : l.find? (fun p => p.1 = k) with
  | none => rw [hf] at h; simp at h
  | some p =>
    rw [hf] at h
    have hpv : p.2 = v := by simpa using h
    exact ⟨p, List.mem_of_find?_eq_some hf, by simpa using List.find?_some hf, hpv⟩

theorem nextId_makeUserAdmin (uid : Nat) (s : WState) :
    (makeUserAdmin uid s).1.nextId = s.nextId := by
  unfold makeUserAdmin
  split
  · rfl
  · split <;> rfl

theorem nextId_removeUserAdmin (uid : Nat) (s : WState) :
    (removeUserAdmin uid s).1.nextId = s.nextId := by
  unfold removeUserAdmin
  split
  · rfl
  · split <;> rfl

theorem GWF_groups_eq {s0 t t2 : WState} (hg : t2.groups = t.groups)
    (hn : t2.nextId = t.nextId) (h : GWF s0 t) : GWF s0 t2 := by
  unfold GWF at h ⊢
  rw [hg, hn]
  exact h

theorem GWF_map {s0 t : WState} {f : Group → Group} (hid : ∀ g, (f g).id = g.id)
    (h : GWF s0 t) : GWF s0 { t with groups := t.groups.map f } := by
  obtain ⟨h1, h2, h3⟩ := h
  refine ⟨?_, ?_, h3⟩
  · show ((t.groups.map f).map (fun g => g.id)).Nodup
    rw [List.map_map]
    have he : ((fun g : Group => g.id) ∘ f) = (fun g : Group => g.id) :=
      funext (fun g => hid g)
    rw [he]
    exact h1
  · intro g hg
    rcases List.mem_map.mp hg with ⟨g0, hg0, rfl⟩
    show (f g0).id < t.nextId
    rw [hid]
    exact h2 g0 hg0

theorem GWF_addUserToGroup (s0 : WState) (uid gid : Nat) {t : WState}
    (h : GWF s0 t) : GWF s0 (addUserToGroup uid gid t).1 := by
  rcases addUserToGroup_eq uid gid t with he | he <;> rw [he]
  · exact h
  · exact GWF_map (addMem_id uid gid) h

theorem GWF_removeUserFromGroup (s0 : WState) (uid gid : Nat) {t : WState}
    (h : GWF s0 t) : GWF s0 (removeUserFromGroup uid gid t).1 := by
  rw [removeUserFromGroup_eq]
  exact GWF_map (remMem_id uid gid) h

theorem GWF_createGroup (s0 : WState) (n : String) {t : WState} (h : GWF s0 t) :
    GWF s0 (createGroup n t).2.1 := by
  obtain ⟨h1, h2, h3⟩ := h
  rw [createGroup_eq]
  refine ⟨?_, ?_, Nat.le_succ_of_le h3⟩
  · show ((t.groups ++ [({ id := t.nextId, name := n, members := [] } : Group)]).map
      (fun g => g.id)).Nodup
    rw [List.map_append, List.nodup_append]
    refine ⟨h1, List.nodup_singleton _, ?_⟩
    intro x hx hx2
    rcases List.mem_map.mp hx with ⟨g, hg, rfl⟩
    have hlt := h2 g hg
    have hxe : g.id = t.nextId := by simpa using hx2
    omega
  · intro g hg
    rcases List.mem_append.mp hg with hg1 | hg1
    · exact Nat.lt_succ_of_lt (h2 g hg1)
    · have hge : g = { id := t.nextId, name := n, members := [] } := by simpa using hg1
      rw [hge]
      exact Nat.lt_succ_self _

theorem GWF_deleteGroup (s0 : WState) (gid : Nat) {t : WState} (h : GWF s0 t) :
    GWF s0 (deleteGroup gid t).1 := by
  obtain ⟨h1, h2, h3⟩ := h
  rw [deleteGroup_eq]
  refine ⟨?_, ?_, h3⟩
  · have hs : (t.groups.filter (fun g => g.id ≠ gid)).Sublist t.groups :=
      List.filter_sublist _
    exact List.Nodup.sublist (hs.map (fun g => g.id)) h1
  · intro g hg
    exact h2 g (List.mem_of_mem_filter hg)

theorem GWF_makeUserAdmin (s0 : WState) (uid : Nat) {t : WState} (h : GWF s0 t) :
    GWF s0 (makeUserAdmin uid t).1 :=
  GWF_groups_eq (groups_makeUserAdmin uid t) (nextId_makeUserAdmin uid t) h

theorem GWF_removeUserAdmin (s0 : WState) (uid : Nat) {t : WState} (h : GWF s0 t) :
    GWF s0 (removeUserAdmin uid t).1 :=
  GWF_groups_eq (groups_removeUserAdmin uid t) (nextId_removeUserAdmin uid t) h

theorem Ped_groups_eq {s0 : WState} {valid : List String} {agid : Nat} {t t2 : WState}
    (hg : t2.groups = t.groups) (h : Ped s0 valid agid t) : Ped s0 valid agid t2 := by
  intro g hgm
  exact h g (hg ▸ hgm)

theorem Ped_map {s0 : WState} {valid : List String} {agid : Nat} {t : WState}
    {f : Group → Group} (hid : ∀ g, (f g).id = g.id) (hname : ∀ g, (f g).name = g.name)
    (h : Ped s0 valid agid t) : Ped s0 valid agid { t with groups := t.groups.map f } := by
  intro g hg
  rcases List.mem_map.mp hg with ⟨g0, hg0, rfl⟩
  rcases h g0 hg0 with h1 | h2 | h3
  · rcases h1 with ⟨gs, hgs, hidq, hnm⟩
    exact Or.inl ⟨gs, hgs, by rw [hid g0]; exact hidq, by rw [hname g0]; exact hnm⟩
  · exact Or.inr (Or.inl (by rw [hid g0, hname g0]; exact h2))
  · exact Or.inr (Or.inr (by rw [hid g0, hname g0]; exact h3))

theorem Ped_filter {s0 : WState} {valid : List String} {agid : Nat} {t : WState}
    (keep : Group → Bool) (h : Ped s0 valid agid t) :
    Ped s0 valid agid { t with groups := t.groups.filter keep } := by
  intro g hg
  exact h g (List.mem_of_mem_filter hg)

theorem Ped_addUserToGroup (uid gid : Nat) {s0 : WState} {valid : List String}
    {agid : Nat} {t : WState} (h : Ped s0 valid agid t) :
    Ped s0 valid agid (addUserToGroup uid gid t).1 := by
  rcases addUserToGroup_eq uid gid t with he | he <;> rw [he]
  · exact h
  · exact Ped_map (addMem_id uid gid) (addMem_name uid gid) h

theorem Ped_removeUserFromGroup (uid gid : Nat) {s0 : WState} {valid : List String}
    {agid : Nat} {t : WState} (h : Ped s0 valid agid t) :
    Ped s0 valid agid (removeUserFromGroup uid gid t).1 := by
  rw [removeUserFromGroup_eq]
  exact Ped_map (remMem_id uid gid) (remMem_name uid gid) h

theorem Ped_deleteGroup (gid : Nat) {s0 : WState} {valid : List String}
    {agid : Nat} {t : WState} (h : Ped s0 valid agid t) :
    Ped s0 valid agid (deleteGroup gid t).1 := by
  rw [deleteGroup_eq]
  exact Ped_filter _ h

theorem Ped_makeUserAdmin (uid : Nat) {s0 : WState} {valid : List String}
    {agid : Nat} {t : WState} (h : Ped s0 valid agid t) :
    Ped s0 valid agid (makeUserAdmin uid t).1 :=
  Ped_groups_eq (groups_makeUserAdmin uid t) h

theorem Ped_removeUserAdmin (uid : Nat) {s0 : WState} {valid : List String}
    {agid : Nat} {t : WState} (h : Ped s0 valid agid t) :
    Ped s0 valid agid (removeUserAdmin uid t).1 :=
  Ped_groups_eq (groups_removeUserAdmin uid t) h

theorem Ped_createUnit {s0 : WState} {valid : List String} {agid : Nat} {t : WState}
    {n : String} (hn1 : n.lowerStr ≠ ADMIN_GROUP_NAME.lowerStr)
    (hn2 : valid.contains n.lowerStr = true) (hle : s0.nextId ≤ t.nextId)
    (h : Ped s0 valid agid t) : Ped s0 valid agid (createGroup n t).2.1 := by
  rw [createGroup_eq]
  intro g hg
  rcases List.mem_append.mp hg with hg1 | hg1
  · exact h g hg1
  · have hge : g = { id := t.nextId, name := n, members := [] } := by simpa using hg1
    rw [hge]
    exact Or.inr (Or.inl ⟨hle, hn1, hn2⟩)

theorem Ped_createAdmin {s0 : WState} {valid : List String} {t : WState}
    (hle : s0.nextId ≤ t.nextId) (h : Ped s0 valid t.nextId t) :
    Ped s0 valid t.nextId (createGroup ADMIN_GROUP_NAME t).2.1 := by
  rw [createGroup_eq]
  intro g hg
  rcases List.mem_append.mp hg with hg1 | hg1
  · exact h g hg1
  · have hge : g = { id := t.nextId, name := ADMIN_GROUP_NAME, members := [] } := by
      simpa using hg1
    rw [hge]
    exact Or.inr (Or.inr ⟨rfl, rfl, hle⟩)

theorem emailOf_users_eq {t t2 : WState} (h : t2.users = t.users) (uid : Nat) :
    emailOf t2 uid = emailOf t uid := by
  unfold emailOf
  rw [h]

theorem emailOf_makeUserAdmin (uid2 : Nat) (t : WState) (uid : Nat) :
    emailOf (makeUserAdmin uid2 t).1 uid = emailOf t uid := by
  unfold makeUserAdmin
  split
  · rfl
  · split
    · rfl
    · unfold emailOf
      simp only [find?_id_roleUpdate]
      cases hf : t.users.find? (fun u => u.id = uid) with
      | none => rfl
      | some u => by_cases hu : u.id = uid2 <;> simp [hu]

theorem emailOf_removeUserAdmin (uid2 : Nat) (t : WState) (uid : Nat) :
    emailOf (removeUserAdmin uid2 t).1 uid = emailOf t uid := by
  unfold removeUserAdmin
  split
  · rfl
  · split
    · rfl
    · unfold emailOf
      simp only [find?_id_roleUpdate]
      cases hf : t.users.find? (fun u => u.id = uid) with
      | none => rfl
      | some u => by_cases hu : u.id = uid2 <;> simp [hu]

theorem sp_groups_eq {t t2 : WState} (hg : t2.groups = t.groups) {uid : Nat}
    {n : String} (h : settledPair uid n t) : settledPair uid n t2 := by
  unfold settledPair at h ⊢
  rw [hg]
  exact h

theorem sp_map {t : WState} {f : Group → Group} (hname : ∀ g, (f g).name = g.name)
    (hmono : ∀ g, ∀ u ∈ g.members, u ∈ (f g).members) {uid : Nat} {n : String}
    (h : settledPair uid n t) : settledPair uid n { t with groups := t.groups.map f } := by
  obtain ⟨g, hg, hm⟩ := h
  refine ⟨f g, ?_, hmono g uid hm⟩
  show findGroupIn (t.groups.map f) n = some (f g)
  rw [findGroupIn_map hname, hg]
  rfl

theorem sp_addUserToGroup (uid2 gid : Nat) {t : WState} {uid : Nat} {n : String}
    (h : settledPair uid n t) : settledPair uid n (addUserToGroup uid2 gid t).1 := by
  rcases addUserToGroup_eq uid2 gid t with he | he <;> rw [he]
  · exact h
  · exact sp_map (addMem_name uid2 gid) (fun g u hu => addMem_mono uid2 gid g hu) h

theorem sp_append_fresh {t : WState} {uid : Nat} {n : String} {g2 : Group}
    (hf : g2.name.lowerStr ≠ n.lowerStr) (h : settledPair uid n t) :
    settledPair uid n { t with groups := t.groups ++ [g2] } := by
  obtain ⟨g, hg, hm⟩ := h
  refine ⟨g, ?_, hm⟩
  show findGroupIn (t.groups ++ [g2]) n = some g
  rw [findGroupIn_append_fresh hf]
  exact hg

theorem sp_filter_keep {t : WState} {uid : Nat} {n : String} {keep : Group → Bool}
    (hkeep : ∀ g ∈ t.groups, g.name.lowerStr = n.lowerStr → keep g = true)
    (h : settledPair uid n t) :
    settledPair uid n { t with groups := t.groups.filter keep } := by
  obtain ⟨g, hg, hm⟩ := h
  refine ⟨g, ?_, hm⟩
  show findGroupIn (t.groups.filter keep) n = some g
  rw [findGroupIn_filter_keep hkeep]
  exact hg

theorem memAllId_groups_eq {t t2 : WState} (hg : t2.groups = t.groups)
    {agid uid : Nat} (h : memAllId agid uid t) : memAllId agid uid t2 := by
  intro g hgm hid
  exact h g (hg ▸ hgm) hid

theorem memAllId_addUserToGroup (uid2 gid : Nat) {t : WState} {agid uid : Nat}
    (h : memAllId agid uid t) : memAllId agid uid (addUserToGroup uid2 gid t).1 := by
  rcases addUserToGroup_eq uid2 gid t with he | he <;> rw [he]
  · exact h
  · intro g hg hid
    rcases List.mem_map.mp hg with ⟨g0, hg0, rfl⟩
    rw [addMem_id] at hid
    exact addMem_mono uid2 gid g0 (h g0 hg0 hid)

theorem memAllId_removeUserFromGroup (uid2 gid : Nat) {t : WState} {agid uid : Nat}
    (hcond : gid ≠ agid ∨ uid2 ≠ uid) (h : memAllId agid uid t) :
    memAllId agid uid (removeUserFromGroup uid2 gid t).1 := by
  rw [removeUserFromGroup_eq]
  intro g hg hid
  rcases List.mem_map.mp hg with ⟨g0, hg0, rfl⟩
  rw [remMem_id] at hid
  have hmem := h g0 hg0 hid
  unfold remMem
  by_cases hq : g0.id = gid
  · rw [if_pos hq]
    rcases hcond with hc | hc
    · omega
    · exact List.mem_filter.mpr ⟨hmem, by simp [Ne.symm hc]⟩
  · rw [if_neg hq]
    exact hmem

theorem memAllId_deleteGroup (gid : Nat) {t : WState} {agid uid : Nat}
    (h : memAllId agid uid t) : memAllId agid uid (deleteGroup gid t).1 := by
  rw [deleteGroup_eq]
  intro g hg hid
  exact h g (List.mem_of_mem_filter hg) hid

theorem memAllId_makeUserAdmin (uid2 : Nat) {t : WState} {agid uid : Nat}
    (h : memAllId agid uid t) : memAllId agid uid (makeUserAdmin uid2 t).1 :=
  memAllId_groups_eq (groups_makeUserAdmin uid2 t) h

theorem memAllId_removeUserAdmin (uid2 : Nat) {t : WState} {agid uid : Nat}
    (h : memAllId agid uid t) : memAllId agid uid (removeUserAdmin uid2 t).1 :=
  memAllId_groups_eq (groups_removeUserAdmin uid2 t) h

theorem memAllId_addSelf {t : WState} {ag : Group}
    (hnd : (t.groups.map (fun g => g.id)).Nodup) (hag : ag ∈ t.groups) (uid : Nat) :
    memAllId ag.id uid (addUserToGroup uid ag.id t).1 := by
  unfold addUserToGroup
  rw [find?_gid_of_mem_nodup hnd hag]
  by_cases hm : uid ∈ ag.members
  · simp only [if_pos hm]
    intro g hg hid
    have hge := gmem_id_unique hnd hg hag hid
    rw [hge]
    exact hm
  · simp only [if_neg hm]
    intro g hg hid
    rcases List.mem_map.mp hg with ⟨g0, hg0, rfl⟩
    by_cases hq : g0.id = ag.id
    · simp only [if_pos hq]
      exact List.mem_append_right _ (List.mem_singleton_self uid)
    · simp only [if_neg hq] at hid ⊢
      exact absurd hid hq

theorem adminResolved_groups_eq {t t2 : WState} (hg : t2.groups = t.groups)
    {agid : Nat} (h : adminResolved agid t) : adminResolved agid t2 := by
  unfold adminResolved at h ⊢
  rw [hg]
  exact h

theorem adminResolved_map {t : WState} {f : Group → Group}
    (hid : ∀ g, (f g).id = g.id) (hname : ∀ g, (f g).name = g.name) {agid : Nat}
    (h : adminResolved agid t) : adminResolved agid { t with groups := t.groups.map f } := by
  obtain ⟨ag, hag, hagid⟩ := h
  refine ⟨f ag, ?_, by rw [hid]; exact hagid⟩
  show findGroupIn (t.groups.map f) ADMIN_GROUP_NAME = some (f ag)
  rw [findGroupIn_map hname, hag]
  rfl

theorem adminResolved_addUserToGroup (uid gid : Nat) {t : WState} {agid : Nat}
    (h : adminResolved agid t) : adminResolved agid (addUserToGroup uid gid t).1 := by
  rcases addUserToGroup_eq uid gid t with he | he <;> rw [he]
  · exact h
  · exact adminResolved_map (addMem_id uid gid) (addMem_name uid gid) h

theorem adminResolved_removeUserFromGroup (uid gid : Nat) {t : WState} {agid : Nat}
    (h : adminResolved agid t) : adminResolved agid (removeUserFromGroup uid gid t).1 := by
  rw [removeUserFromGroup_eq]
  exact adminResolved_map (remMem_id uid gid) (remMem_name uid gid) h

theorem adminResolved_filter_keep {t : WState} {keep : Group → Bool}
    (hkeep : ∀ g ∈ t.groups, g.name.lowerStr = ADMIN_GROUP_NAME.lowerStr → keep g = true)
    {agid : Nat} (h : adminResolved agid t) :
    adminResolved agid { t with groups := t.groups.filter keep } := by
  obtain ⟨ag, hag, hagid⟩ := h
  refine ⟨ag, ?_, hagid⟩
  show findGroupIn (t.groups.filter keep) ADMIN_GROUP_NAME = some ag
  rw [findGroupIn_filter_keep hkeep]
  exact hag

theorem adminResolved_makeUserAdmin (uid : Nat) {t : WState} {agid : Nat}
    (h : adminResolved agid t) : adminResolved agid (makeUserAdmin uid t).1 :=
  adminResolved_groups_eq (groups_makeUserAdmin uid t) h

theorem adminResolved_removeUserAdmin (uid : Nat) {t : WState} {agid : Nat}
    (h : adminResolved agid t) : adminResolved agid (removeUserAdmin uid t).1 :=
  adminResolved_groups_eq (groups_removeUserAdmin uid t) h

theorem justUnit_groups_eq {s0 : WState} {activeUsers : List User}
    {uum : List (String × List OrgUnit)} {t t2 : WState} (hg : t2.groups = t.groups)
    (h : justUnit s0 activeUsers uum t) : justUnit s0 activeUsers uum t2 := by
  intro g hgm
  exact h g (hg ▸ hgm)

theorem justUnit_shrink_map {s0 : WState} {activeUsers : List User}
    {uum : List (String × List OrgUnit)} {t : WState} {f : Group → Group}
    (hid : ∀ g, (f g).id = g.id) (hname : ∀ g, (f g).name = g.name)
    (hsub : ∀ g u, u ∈ (f g).members → u ∈ g.members)
    (h : justUnit s0 activeUsers uum t) :
    justUnit s0 activeUsers uum { t with groups := t.groups.map f } := by
  intro g hg h1 h2 uid hu
  rcases List.mem_map.mp hg with ⟨g0, hg0, rfl⟩
  rw [hid g0] at h1
  rw [hname g0] at h2
  have hu0 := hsub g0 uid hu
  have hres := h g0 hg0 h1 h2 uid hu0
  simpa only [hname g0] using hres

theorem justUnit_filter {s0 : WState} {activeUsers : List User}
    {uum : List (String × List OrgUnit)} {t : WState} (keep : Group → Bool)
    (h : justUnit s0 activeUsers uum t) :
    justUnit s0 activeUsers uum { t with groups := t.groups.filter keep } := by
  intro g hg
  exact h g (List.mem_of_mem_filter hg)

theorem justUnit_createGroup {s0 : WState} {activeUsers : List User}
    {uum : List (String × List OrgUnit)} {t : WState} (n : String)
    (h : justUnit s0 activeUsers uum t) :
    justUnit s0 activeUsers uum (createGroup n t).2.1 := by
  rw [createGroup_eq]
  intro g hg
  rcases List.mem_append.mp hg with hg1 | hg1
  · exact h g hg1
  · have hge : g = { id := t.nextId, name := n, members := [] } := by simpa using hg1
    rw [hge]
    intro _ _ uid hu
    simp at hu

theorem justUnit_addUserToGroup {s0 : WState} {activeUsers : List User}
    {uum : List (String × List OrgUnit)} {t : WState} (uid2 gid : Nat)
    (hj : ∀ g ∈ t.groups, g.id = gid → s0.nextId ≤ g.id →
      g.name.lowerStr ≠ ADMIN_GROUP_NAME.lowerStr →
      ∃ user ∈ activeUsers, user.id = uid2 ∧
        ((assoc uum user.email).getD []).any
          (fun unit => unit.name.lowerStr = g.name.lowerStr) = true)
    (h : justUnit s0 activeUsers uum t) :
    justUnit s0 activeUsers uum (addUserToGroup uid2 gid t).1 := by
  rcases addUserToGroup_eq uid2 gid t with he | he <;> rw [he]
  · exact h
  · intro g hg h1 h2 uid hu
    rcases List.mem_map.mp hg with ⟨g0, hg0, rfl⟩
    rw [addMem_id] at h1
    rw [addMem_name] at h2
    simp only [addMem_name]
    unfold addMem at hu
    by_cases hq : g0.id = gid
    · rw [if_pos hq] at hu
      rcases List.mem_append.mp hu with hu1 | hu1
      · exact h g0 hg0 h1 h2 uid hu1
      · have huid : uid = uid2 := by simpa using hu1
        subst huid
        exact hj g0 hg0 hq h1 h2
    · rw [if_neg hq] at hu
      exact h g0 hg0 h1 h2 uid hu

theorem justAdmin_transfer {admins : List Admin} {s0 : WState} {agid : Nat}
    {t t2 : WState} (hg : t2.groups = t.groups)
    (hemail : ∀ uid, emailOf t2 uid = emailOf t uid)
    (h : justAdmin admins s0 agid t) : justAdmin admins s0 agid t2 := by
  intro g hgm hid hle uid hu
  obtain ⟨e, he, ha⟩ := h g (hg ▸ hgm) hid hle uid hu
  exact ⟨e, by rw [hemail]; exact he, ha⟩

theorem justAdmin_shrink_map {admins : List Admin} {s0 : WState} {agid : Nat}
    {t : WState} {f : Group → Group} (hid : ∀ g, (f g).id = g.id)
    (hsub : ∀ g u, u ∈ (f g).members → u ∈ g.members)
    (h : justAdmin admins s0 agid t) :
    justAdmin admins s0 agid { t with groups := t.groups.map f } := by
  intro g hg h1 h2 uid hu
  rcases List.mem_map.mp hg with ⟨g0, hg0, rfl⟩
  rw [hid g0] at h1 h2
  exact h g0 hg0 h1 h2 uid (hsub g0 uid hu)

theorem justAdmin_filter {admins : List Admin} {s0 : WState} {agid : Nat}
    {t : WState} (keep : Group → Bool) (h : justAdmin admins s0 agid t) :
    justAdmin admins s0 agid { t with groups := t.groups.filter keep } := by
  intro g hg
  exact h g (List.mem_of_mem_filter hg)

theorem justAdmin_addUserToGroup {admins : List Admin} {s0 : WState} {agid : Nat}
    {t : WState} (uid2 gid : Nat)
    (hj : ∃ e, emailOf t uid2 = some e ∧ admins.any (fun a => a.email = e) = true)
    (h : justAdmin admins s0 agid t) :
    justAdmin admins s0 agid (addUserToGroup uid2 gid t).1 := by
  rcases addUserToGroup_eq uid2 gid t with he | he <;> rw [he]
  · exact h
  · intro g hg h1 h2 uid hu
    rcases List.mem_map.mp hg with ⟨g0, hg0, rfl⟩
    rw [addMem_id] at h1 h2
    unfold addMem at hu
    by_cases hq : g0.id = gid
    · rw [if_pos hq] at hu
      rcases List.mem_append.mp hu with hu1 | hu1
      · exact h g0 hg0 h1 h2 uid hu1
      · have huid : uid = uid2 := by simpa using hu1
        subst huid
        exact hj
    · rw [if_neg hq] at hu
      exact h g0 hg0 h1 h2 uid hu

theorem justAdmin_removeUserFromGroup {admins : List Admin} {s0 : WState}
    {agid : Nat} {t : WState} (uid2 gid : Nat) (h : justAdmin admins s0 agid t) :
    justAdmin admins s0 agid (removeUserFromGroup uid2 gid t).1 := by
  rw [removeUserFromGroup_eq]
  exact justAdmin_shrink_map (remMem_id uid2 gid) (fun g u hu => remMem_sub uid2 gid g hu) h

theorem justAdmin_makeUserAdmin {admins : List Admin} {s0 : WState} {agid : Nat}
    {t : WState} (uid2 : Nat) (h : justAdmin admins s0 agid t) :
    justAdmin admins s0 agid (makeUserAdmin uid2 t).1 :=
  justAdmin_transfer (groups_makeUserAdmin uid2 t) (emailOf_makeUserAdmin uid2 t) h

theorem justAdmin_removeUserAdmin {admins : List Admin} {s0 : WState} {agid : Nat}
    {t : WState} (uid2 : Nat) (h : justAdmin admins s0 agid t) :
    justAdmin admins s0 agid (removeUserAdmin uid2 t).1 :=
  justAdmin_transfer (groups_removeUserAdmin uid2 t) (emailOf_removeUserAdmin uid2 t) h

theorem justAdmin_deleteGroup {admins : List Admin} {s0 : WState} {agid : Nat}
    {t : WState} (gid : Nat) (h : justAdmin admins s0 agid t) :
    justAdmin admins s0 agid (deleteGroup gid t).1 := by
  rw [deleteGroup_eq]
  exact justAdmin_filter _ h

theorem justUnit_removeUserFromGroup {s0 : WState} {activeUsers : List User}
    {uum : List (String × List OrgUnit)} {t : WState} (uid2 gid : Nat)
    (h : justUnit s0 activeUsers uum t) :
    justUnit s0 activeUsers uum (removeUserFromGroup uid2 gid t).1 := by
  rw [removeUserFromGroup_eq]
  exact justUnit_shrink_map (remMem_id uid2 gid) (remMem_name uid2 gid)
    (fun g u hu => remMem_sub uid2 gid g hu) h

theorem justUnit_deleteGroup {s0 : WState} {activeUsers : List User}
    {uum : List (String × List OrgUnit)} {t : WState} (gid : Nat)
    (h : justUnit s0 activeUsers uum t) :
    justUnit s0 activeUsers uum (deleteGroup gid t).1 := by
  rw [deleteGroup_eq]
  exact justUnit_filter _ h

theorem justUnit_makeUserAdmin {s0 : WState} {activeUsers : List User}
    {uum : List (String × List OrgUnit)} {t : WState} (uid2 : Nat)
    (h : justUnit s0 activeUsers uum t) :
    justUnit s0 activeUsers uum (makeUserAdmin uid2 t).1 :=
  justUnit_groups_eq (groups_makeUserAdmin uid2 t) h

theorem justUnit_removeUserAdmin {s0 : WState} {activeUsers : List User}
    {uum : List (String × List OrgUnit)} {t : WState} (uid2 : Nat)
    (h : justUnit s0 activeUsers uum t) :
    justUnit s0 activeUsers uum (removeUserAdmin uid2 t).1 :=
  justUnit_groups_eq (groups_removeUserAdmin uid2 t) h

theorem namesValid_groups_eq {valid : List String} {t t2 : WState}
    (hg : t2.groups = t.groups) (h : namesValid valid t) : namesValid valid t2 := by
  intro g hgm
  exact h g (hg ▸ hgm)

theorem namesValid_map {valid : List String} {t : WState} {f : Group → Group}
    (hname : ∀ g, (f g).name = g.name) (h : namesValid valid t) :
    namesValid valid { t with groups := t.groups.map f } := by
  intro g hg
  rcases List.mem_map.mp hg with ⟨g0, hg0, rfl⟩
  rw [hname g0]
  exact h g0 hg0

theorem namesValid_filter {valid : List String} {t : WState} (keep : Group → Bool)
    (h : namesValid valid t) :
    namesValid valid { t with groups := t.groups.filter keep } := by
  intro g hg
  exact h g (List.mem_of_mem_filter hg)

theorem deletePhase_namesValid (valid : List String) :
    ∀ (l : List Group) (t : WState),
      (∀ g ∈ t.groups, (∃ g0 ∈ l, g.id = g0.id ∧ g.name = g0.name) ∨
        g.name.lowerStr = ADMIN_GROUP_NAME.lowerStr ∨
        valid.contains g.name.lowerStr = true) →
      namesValid valid (stepAll (deleteObsoleteStep valid) l t).1
  | [], t, h => by
    rw [stepAll_nil]
    intro g hg
    rcases h g hg with ⟨g0, hg0, _⟩ | h2 | h3
    · cases hg0
    · exact Or.inl h2
    · exact Or.inr h3
  | g0 :: l, t, h => by
    rw [stepAll_cons]
    show namesValid valid (stepAll (deleteObsoleteStep valid) l
      (deleteObsoleteStep valid g0 t).1).1
    unfold deleteObsoleteStep
    by_cases h1 : g0.name.lowerStr = ADMIN_GROUP_NAME.lowerStr
    · simp only [if_pos h1]
      apply deletePhase_namesValid valid l t
      intro g hg
      rcases h g hg with ⟨gs, hgs, hid, hnm⟩ | h2 | h3
      · rcases List.mem_cons.mp hgs with rfl | hgs2
        · exact Or.inr (Or.inl (by rw [hnm]; exact h1))
        · exact Or.inl ⟨gs, hgs2, hid, hnm⟩
      · exact Or.inr (Or.inl h2)
      · exact Or.inr (Or.inr h3)
    · simp only [if_neg h1]
      cases hc : valid.contains g0.name.lowerStr
      · simp only [Bool.false_eq_true, if_false]
        rw [deleteGroup_eq]
        apply deletePhase_namesValid valid l
        intro g hg
        have hg2 := List.mem_filter.mp hg
        have hgne : g.id ≠ g0.id := by simpa using hg2.2
        rcases h g hg2.1 with ⟨gs, hgs, hid, hnm⟩ | h2 | h3
        · rcases List.mem_cons.mp hgs with rfl | hgs2
          · exact absurd hid hgne
          · exact Or.inl ⟨gs, hgs2, hid, hnm⟩
        · exact Or.inr (Or.inl h2)
        · exact Or.inr (Or.inr h3)
      · simp only [if_true]
        apply deletePhase_namesValid valid l t
        intro g hg
        rcases h g hg with ⟨gs, hgs, hid, hnm⟩ | h2 | h3
        · rcases List.mem_cons.mp hgs with rfl | hgs2
          · exact Or.inr (Or.inr (by rw [hnm]; exact hc))
          · exact Or.inl ⟨gs, hgs2, hid, hnm⟩
        · exact Or.inr (Or.inl h2)
        · exact Or.inr (Or.inr h3)

theorem ped_alias {s0 : WState} {valid : List String} {agid : Nat} {t : WState}
    (hped : Ped s0 valid agid t)
    (hgids : (s0.groups.map (fun g => g.id)).Nodup)
    (hgbound : ∀ g ∈ s0.groups, g.id < s0.nextId)
    {g0 : Group} (hg0 : g0 ∈ s0.groups) :
    ∀ g ∈ t.groups, g.id = g0.id → g.name = g0.name := by
  intro g hg hid
  rcases hped g hg with ⟨gs, hgs, hidq, hnm⟩ | h2 | h3
  · have hgse : gs = g0 := gmem_id_unique hgids hgs hg0 (by omega)
    rw [hnm, hgse]
  · obtain ⟨hle, _, _⟩ := h2
    have := hgbound g0 hg0
    omega
  · obtain ⟨_, _, hle⟩ := h3
    have := hgbound g0 hg0
    omega

theorem assocN_some_mem {β : Type} {l : List (Nat × β)} {k : Nat} {v : β}
    (h : assocN l k = some v) : ∃ p ∈ l, p.1 = k ∧ p.2 = v := by
  unfold assocN at h
  cases hf : l.find? (fun p => p.1 = k) with
  | none => rw [hf] at h; simp at h
  | some p =>
    rw [hf] at h
    have hpv : p.2 = v := by simpa using h
    exact ⟨p, List.mem_of_find?_eq_some hf, by simpa using List.find?_some hf, hpv⟩

theorem filterUnits_subset {allowed : Option (List String)} {units : List OrgUnit}
    {unit : OrgUnit} (h : unit ∈ filterUnits allowed units) : unit ∈ units := by
  unfold filterUnits at h
  split at h
  · exact h
  · exact List.mem_of_mem_filter h

theorem getUserUnits_mem {d : Dir} {e : String} {unit : OrgUnit}
    (h : unit ∈ getUserUnits d e) : ∃ p ∈ d.units, unit ∈ p.2 := by
  unfold getUserUnits at h
  split at h
  · cases h
  · cases h
  · next sciper _ =>
    cases ha : assocN d.units sciper with
    | none => rw [ha] at h; cases h
    | some l2 =>
      rw [ha] at h
      obtain ⟨p, hp, _, hp2⟩ := assocN_some_mem ha
      exact ⟨p, hp, by rw [hp2]; simpa using h⟩

theorem uum_mem_shape {cfg : Config} {d : Dir} {activeUsers : List User}
    {p : String × List OrgUnit} (hp : p ∈ userUnitsMap cfg d activeUsers) :
    ∃ user ∈ activeUsers, p =
      (user.email, filterUnits (getAllowedUnits cfg.allowedUnitsFile)
        (getUserUnits d user.email)) := by
  rcases List.mem_map.mp hp with ⟨user, huser, he⟩
  exact ⟨user, huser, he.symm⟩

theorem uum_nonadmin {cfg : Config} {d : Dir} {activeUsers : List User}
    (hadm : ∀ p ∈ d.units, ∀ unit ∈ p.2,
      unit.name.lowerStr ≠ ADMIN_GROUP_NAME.lowerStr)
    {e : String} {units : List OrgUnit}
    (ha : assoc (userUnitsMap cfg d activeUsers) e = some units)
    {unit : OrgUnit} (hu : unit ∈ units) :
    unit.name.lowerStr ≠ ADMIN_GROUP_NAME.lowerStr := by
  obtain ⟨p, hp, _, hp2⟩ := assoc_some_mem ha
  obtain ⟨user, _, hpe⟩ := uum_mem_shape hp
  rw [hpe] at hp2
  rw [← hp2] at hu
  have h1 : unit ∈ getUserUnits d user.email := filterUnits_subset hu
  obtain ⟨q, hq, hq2⟩ := getUserUnits_mem h1
  exact hadm q hq unit hq2

theorem unit_in_valid {uum : List (String × List OrgUnit)} {e : String}
    {units : List OrgUnit} (ha : assoc uum e = some units) {unit : OrgUnit}
    (hu : unit ∈ units) :
    (validGroupNames uum).contains unit.name.lowerStr = true := by
  obtain ⟨p, hp, _, hp2⟩ := assoc_some_mem ha
  have hmem : unit.name.lowerStr ∈ validGroupNames uum := by
    unfold validGroupNames
    refine List.mem_cons_of_mem _ ?_
    refine List.mem_map.mpr ⟨unit, ?_, rfl⟩
    refine List.mem_flatten.mpr ⟨p.2, List.mem_map.mpr ⟨p, hp, rfl⟩, ?_⟩
    rw [hp2]
    exact hu
  simpa using hmem

theorem findGroupIn_none_parts {l : List Group} {n : String}
    (h : findGroupIn l n = none) :
    l.find? (fun g => g.name = n) = none ∧
      l.find? (fun g => g.name.lowerStr = n.lowerStr) = none := by
  unfold findGroupIn at h
  split at h
  · exact absurd h (by simp)
  · next heq => exact ⟨heq, h⟩

theorem sp_create_add {s0 : WState} {t : WState} (uid : Nat) (n : String)
    (hGWF : GWF s0 t) (hnone : findGroupIn t.groups n = none) :
    settledPair uid n (addUserToGroup uid (createGroup n t).1.id (createGroup n t).2.1).1 := by
  have hparts := findGroupIn_none_parts hnone
  rw [createGroup_eq]
  unfold addUserToGroup
  have hlnone : t.groups.find? (fun g2 => g2.id = t.nextId) = none :=
    List.find?_eq_none.mpr (fun g hg => by
      simp only [decide_eq_true_eq]
      exact Nat.ne_of_lt (hGWF.2.1 g hg))
  have hfmain : (t.groups ++ [({ id := t.nextId, name := n, members := [] } : Group)]).find?
      (fun g2 => g2.id = t.nextId) =
      some { id := t.nextId, name := n, members := [] } := by
    rw [find?_append_none_left hlnone]
    simp
  rw [hfmain]
  have hnm : uid ∉ ([] : List Nat) := by simp
  simp only [if_neg hnm]
  refine ⟨addMem uid t.nextId { id := t.nextId, name := n, members := [] }, ?_, ?_⟩
  · show findGroupIn ((t.groups ++ [({ id := t.nextId, name := n, members := [] } : Group)]).map
      (addMem uid t.nextId)) n =
      some (addMem uid t.nextId { id := t.nextId, name := n, members := [] })
    rw [findGroupIn_map (addMem_name uid t.nextId)]
    have hfind : findGroupIn (t.groups ++ [({ id := t.nextId, name := n, members := [] } : Group)]) n =
        some { id := t.nextId, name := n, members := [] } := by
      unfold findGroupIn
      rw [find?_append_none_left hparts.1]
      simp
    rw [hfind]
    rfl
  · show uid ∈ (addMem uid t.nextId { id := t.nextId, name := n, members := [] }).members
    unfold addMem
    simp

theorem processUnit_GWF {s0 : WState} (user : User) (unit : OrgUnit) {t : WState}
    (h : GWF s0 t) : GWF s0 (processUnit user unit t).1 := by
  unfold processUnit
  cases hf : findGroupByName t unit.name with
  | some g => exact GWF_addUserToGroup s0 _ _ h
  | none => exact GWF_addUserToGroup s0 _ _ (GWF_createGroup s0 _ h)

theorem processUnit_Ped {s0 : WState} {valid : List String} {agid : Nat}
    (user : User) (unit : OrgUnit) {t : WState}
    (hn1 : unit.name.lowerStr ≠ ADMIN_GROUP_NAME.lowerStr)
    (hn2 : valid.contains unit.name.lowerStr = true) (hGWF : GWF s0 t)
    (h : Ped s0 valid agid t) : Ped s0 valid agid (processUnit user unit t).1 := by
  unfold processUnit
  cases hf : findGroupByName t unit.name with
  | some g => exact Ped_addUserToGroup _ _ h
  | none => exact Ped_addUserToGroup _ _ (Ped_createUnit hn1 hn2 hGWF.2.2 h)

theorem processUnit_sp (user : User) (unit : OrgUnit) {t : WState} {uid : Nat}
    {n : String} (hb : t.groups.length ≤ 100) (h : settledPair uid n t) :
    settledPair uid n (processUnit user unit t).1 := by
  unfold processUnit
  cases hf : findGroupByName t unit.name with
  | some g => exact sp_addUserToGroup _ _ h
  | none =>
    obtain ⟨gw, hgw, hm⟩ := h
    have hgmem := (findGroupIn_mem hgw).1
    have hgci := (findGroupIn_mem hgw).2
    have hnone : findGroupIn t.groups unit.name = none := by
      rw [← findGroupByName_eq_list t unit.name hb]
      exact hf
    have hne : unit.name.lowerStr ≠ n.lowerStr := by
      intro hcontra
      exact (findGroupIn_none hnone gw hgmem) (by rw [hgci]; exact hcontra.symm)
    have h2 : settledPair uid n (createGroup unit.name t).2.1 := by
      rw [createGroup_eq]
      exact sp_append_fresh hne ⟨gw, hgw, hm⟩
    exact sp_addUserToGroup _ _ h2

theorem processUnit_sp_est {s0 : WState} (user : User) (unit : OrgUnit) {t : WState}
    (hb : t.groups.length ≤ 100) (hGWF : GWF s0 t) :
    settledPair user.id unit.name (processUnit user unit t).1 := by
  unfold processUnit
  cases hf : findGroupByName t unit.name with
  | some g =>
    have hfi : findGroupIn t.groups unit.name = some g := by
      rw [← findGroupByName_eq_list t unit.name hb]
      exact hf
    have hgm := (findGroupIn_mem hfi).1
    show settledPair user.id unit.name (addUserToGroup user.id g.id t).1
    unfold addUserToGroup
    rw [find?_gid_of_mem_nodup hGWF.1 hgm]
    by_cases hm : user.id ∈ g.members
    · simp only [if_pos hm]
      exact ⟨g, hfi, hm⟩
    · simp only [if_neg hm]
      refine ⟨addMem user.id g.id g, ?_, ?_⟩
      · show findGroupIn (t.groups.map (addMem user.id g.id)) unit.name =
          some (addMem user.id g.id g)
        rw [findGroupIn_map (addMem_name user.id g.id), hfi]
        rfl
      · show user.id ∈ (addMem user.id g.id g).members
        unfold addMem
        simp
  | none =>
    have hnone : findGroupIn t.groups unit.name = none := by
      rw [← findGroupByName_eq_list t unit.name hb]
      exact hf
    exact sp_create_add user.id unit.name hGWF hnone

theorem processUnit_justUnit {s0 : WState} {activeUsers : List User}
    {uum : List (String × List OrgUnit)} (user : User)
    (unit : OrgUnit) {t : WState} (hGWF : GWF s0 t)
    (huser : user ∈ activeUsers)
    (hunit : unit ∈ (assoc uum user.email).getD [])
    (h : justUnit s0 activeUsers uum t) :
    justUnit s0 activeUsers uum (processUnit user unit t).1 := by
  unfold processUnit
  cases hf : findGroupByName t unit.name with
  | some g =>
    have hgm := (findGroupByName_some_mem hf).1
    have hgci := (findGroupByName_some_mem hf).2
    refine justUnit_addUserToGroup user.id g.id ?_ h
    intro g2 hg2 hgid _ _
    have hge : g2 = g := gmem_id_unique hGWF.1 hg2 hgm hgid
    refine ⟨user, huser, rfl, List.any_eq_true.mpr ⟨unit, hunit, ?_⟩⟩
    simp only [decide_eq_true_eq]
    rw [hge, hgci]
  | none =>
    have h1 : justUnit s0 activeUsers uum (createGroup unit.name t).2.1 :=
      justUnit_createGroup unit.name h
    have hGWF1 : GWF s0 (createGroup unit.name t).2.1 := GWF_createGroup s0 _ hGWF
    refine justUnit_addUserToGroup user.id (createGroup unit.name t).1.id ?_ h1
    intro g2 hg2 hgid _ _
    have hgn : ({ id := t.nextId, name := unit.name, members := [] } : Group) ∈
        (createGroup unit.name t).2.1.groups := by
      rw [createGroup_eq]
      exact List.mem_append_right _ (List.mem_singleton_self _)
    have hge : g2 = { id := t.nextId, name := unit.name, members := [] } :=
      gmem_id_unique hGWF1.1 hg2 hgn hgid
    refine ⟨user, huser, rfl, List.any_eq_true.mpr ⟨unit, hunit, ?_⟩⟩
    simp only [decide_eq_true_eq]
    rw [hge]

/-- Invariants carried through the find-or-create phase of `syncUsers`. -/
def Inv1 (s0 : WState) (valid : List String) (activeUsers : List User)
    (uum : List (String × List OrgUnit)) (t : WState) : Prop :=
  GWF s0 t ∧ (∀ agid, Ped s0 valid agid t) ∧ justUnit s0 activeUsers uum t ∧
    t.users.map userSkel = s0.users.map userSkel

theorem processUnit_Inv1 {s0 : WState} {valid : List String} {activeUsers : List User}
    {uum : List (String × List OrgUnit)} (user : User) (unit : OrgUnit) {t : WState}
    (hN : ∀ e units, assoc uum e = some units → ∀ unit2 ∈ units,
      unit2.name.lowerStr ≠ ADMIN_GROUP_NAME.lowerStr ∧
        valid.contains unit2.name.lowerStr = true)
    (huser : user ∈ activeUsers) (hunit : unit ∈ (assoc uum user.email).getD [])
    (h : Inv1 s0 valid activeUsers uum t) :
    Inv1 s0 valid activeUsers uum (processUnit user unit t).1 := by
  obtain ⟨h1, h2, h3, h4⟩ := h
  have hprops : unit.name.lowerStr ≠ ADMIN_GROUP_NAME.lowerStr ∧
      valid.contains unit.name.lowerStr = true := by
    cases hassoc : assoc uum user.email with
    | none => rw [hassoc] at hunit; simp at hunit
    | some units =>
      have hu2 : unit ∈ units := by rw [hassoc] at hunit; simpa using hunit
      exact hN _ _ hassoc unit hu2
  exact ⟨processUnit_GWF user unit h1,
    fun agid => processUnit_Ped user unit hprops.1 hprops.2 h1 (h2 agid),
    processUnit_justUnit user unit h1 huser hunit h3,
    by rw [skel_processUnit]; exact h4⟩

theorem processUser_Inv1 {s0 : WState} {valid : List String} {activeUsers : List User}
    {uum : List (String × List OrgUnit)} (user : User) {t : WState}
    (hN : ∀ e units, assoc uum e = some units → ∀ unit2 ∈ units,
      unit2.name.lowerStr ≠ ADMIN_GROUP_NAME.lowerStr ∧
        valid.contains unit2.name.lowerStr = true)
    (huser : user ∈ activeUsers) (h : Inv1 s0 valid activeUsers uum t) :
    Inv1 s0 valid activeUsers uum (processUser uum user t).1 := by
  unfold processUser
  exact stepAll_pres
    (fun unit hunit t2 ht2 => processUnit_Inv1 user unit hN huser hunit ht2) h

/-- Preservation of a settled pair through one user's unit loop, paying
the group and membership budgets. -/
theorem unitLoop_sp (user : User) {uid : Nat} {n : String} :
    ∀ (units : List OrgUnit) (bg bm : Nat) (t : WState),
      SB (units.length + bg) (units.length + bm) t →
      settledPair uid n t →
      settledPair uid n (stepAll (processUnit user) units t).1
  | [], _, _, _, _, h => h
  | unit :: us, bg, bm, t, hS, h => by
    rw [stepAll_cons]
    exact unitLoop_sp user us bg bm _
      (SB_processUnit user unit
        (SB_mono (by simp only [List.length_cons]; omega)
          (by simp only [List.length_cons]; omega) hS))
      (processUnit_sp user unit (SB_groups_le hS) h)

theorem processUser_sp {uum : List (String × List OrgUnit)} (user : User)
    {t : WState} {uid : Nat} {n : String} (bg bm : Nat)
    (hS : SB (((assoc uum user.email).getD []).length + bg)
      (((assoc uum user.email).getD []).length + bm) t)
    (h : settledPair uid n t) :
    settledPair uid n (processUser uum user t).1 := by
  unfold processUser
  exact unitLoop_sp user _ bg bm t hS h

theorem processUser_sp_est {s0 : WState} {valid : List String} {activeUsers : List User}
    {uum : List (String × List OrgUnit)} (user : User) {t : WState} (bg bm : Nat)
    (hN : ∀ e units, assoc uum e = some units → ∀ unit2 ∈ units,
      unit2.name.lowerStr ≠ ADMIN_GROUP_NAME.lowerStr ∧
        valid.contains unit2.name.lowerStr = true)
    (huser : user ∈ activeUsers)
    (hS : SB (((assoc uum user.email).getD []).length + bg)
      (((assoc uum user.email).getD []).length + bm) t)
    (h : Inv1 s0 valid activeUsers uum t) :
    ∀ unit ∈ (assoc uum user.email).getD [],
      settledPair user.id unit.name (processUser uum user t).1 := by
  unfold processUser
  refine stepAll_ind_est
    (P := fun m t2 => (∀ u2 ∈ m, u2 ∈ (assoc uum user.email).getD []) ∧
      SB (m.length + bg) (m.length + bm) t2 ∧ Inv1 s0 valid activeUsers uum t2)
    (Q := fun unit t2 => settledPair user.id unit.name t2)
    ?_ ?_ ?_ ((assoc uum user.email).getD []) t ⟨fun u2 h2 => h2, hS, h⟩
  · intro x xs t2 h2
    exact ⟨fun u2 hu2 => h2.1 u2 (List.mem_cons_of_mem x hu2),
      SB_processUnit user x
        (SB_mono (by simp only [List.length_cons]; omega)
          (by simp only [List.length_cons]; omega) h2.2.1),
      processUnit_Inv1 user x hN huser (h2.1 x (List.mem_cons_self x xs)) h2.2.2⟩
  · intro x xs t2 h2
    exact processUnit_sp_est user x (SB_groups_le h2.2.1) h2.2.2.1
  · intro x xs y t2 h2 hq
    exact processUnit_sp user x (SB_groups_le h2.2.1) hq

theorem phase1_Inv1 {s0 : WState} {valid : List String} {activeUsers : List User}
    {uum : List (String × List OrgUnit)} {t : WState}
    (hN : ∀ e units, assoc uum e = some units → ∀ unit2 ∈ units,
      unit2.name.lowerStr ≠ ADMIN_GROUP_NAME.lowerStr ∧
        valid.contains unit2.name.lowerStr = true)
    (h : Inv1 s0 valid activeUsers uum t) :
    Inv1 s0 valid activeUsers uum (stepAll (processUser uum) activeUsers t).1 :=
  stepAll_pres (fun user huser t2 ht2 => processUser_Inv1 user hN huser ht2) h

/-- Settled pairs established for every processed (user, unit) pair of
the find-or-create phase, under the page budgets. -/
theorem phase1_sp_all {s0 : WState} {valid : List String} {activeUsers : List User}
    {uum : List (String × List OrgUnit)}
    (hN : ∀ e units, assoc uum e = some units → ∀ unit2 ∈ units,
      unit2.name.lowerStr ≠ ADMIN_GROUP_NAME.lowerStr ∧
        valid.contains unit2.name.lowerStr = true) :
    ∀ (users : List User) (bg bm : Nat) (t : WState),
      (∀ u2 ∈ users, u2 ∈ activeUsers) →
      SB (unitBudget uum users + bg) (unitBudget uum users + bm) t →
      Inv1 s0 valid activeUsers uum t →
      ∀ user ∈ users, ∀ unit ∈ (assoc uum user.email).getD [],
        settledPair user.id unit.name (stepAll (processUser uum) users t).1 := by
  intro users bg bm t hsub hS hI
  refine stepAll_ind_est
    (P := fun m t2 => (∀ u2 ∈ m, u2 ∈ activeUsers) ∧
      SB (unitBudget uum m + bg) (unitBudget uum m + bm) t2 ∧
      Inv1 s0 valid activeUsers uum t2)
    (Q := fun user2 t2 => ∀ unit ∈ (assoc uum user2.email).getD [],
      settledPair user2.id unit.name t2)
    ?_ ?_ ?_ users t ⟨hsub, hS, hI⟩
  · intro x xs t2 h2
    have hS2 : SB (((assoc uum x.email).getD []).length + (unitBudget uum xs + bg))
        (((assoc uum x.email).getD []).length + (unitBudget uum xs + bm)) t2 := by
      refine SB_mono ?_ ?_ h2.2.1 <;> rw [unitBudget_cons] <;> omega
    exact ⟨fun u2 hu2 => h2.1 u2 (List.mem_cons_of_mem x hu2),
      SB_processUser uum x hS2,
      processUser_Inv1 x hN (h2.1 x (List.mem_cons_self x xs)) h2.2.2⟩
  · intro x xs t2 h2
    have hS2 : SB (((assoc uum x.email).getD []).length + (unitBudget uum xs + bg))
        (((assoc uum x.email).getD []).length + (unitBudget uum xs + bm)) t2 := by
      refine SB_mono ?_ ?_ h2.2.1 <;> rw [unitBudget_cons] <;> omega
    exact processUser_sp_est x (unitBudget uum xs + bg) (unitBudget uum xs + bm)
      hN (h2.1 x (List.mem_cons_self x xs)) hS2 h2.2.2
  · intro x xs y t2 h2 hq
    intro unit hunit
    have hS2 : SB (((assoc uum x.email).getD []).length + (unitBudget uum xs + bg))
        (((assoc uum x.email).getD []).length + (unitBudget uum xs + bm)) t2 := by
      refine SB_mono ?_ ?_ h2.2.1 <;> rw [unitBudget_cons] <;> omega
    exact processUser_sp x (unitBudget uum xs + bg) (unitBudget uum xs + bm)
      hS2 (hq unit hunit)

theorem ensureAdminGroup_GWF {s0 : WState} {t : WState} (h : GWF s0 t) :
    GWF s0 (ensureAdminGroup t).2.1 := by
  unfold ensureAdminGroup
  cases hf : findGroupByName t ADMIN_GROUP_NAME with
  | some g => exact h
  | none => exact GWF_createGroup s0 _ h

theorem ensureAdminGroup_adminResolved (t : WState) (hb : t.groups.length ≤ 100) :
    adminResolved (ensureAdminGroup t).1.id (ensureAdminGroup t).2.1 := by
  unfold ensureAdminGroup
  cases hf : findGroupByName t ADMIN_GROUP_NAME with
  | some ag =>
    refine ⟨ag, ?_, rfl⟩
    rw [← findGroupByName_eq_list t ADMIN_GROUP_NAME hb]
    exact hf
  | none =>
    have hnone : findGroupIn t.groups ADMIN_GROUP_NAME = none := by
      rw [← findGroupByName_eq_list t ADMIN_GROUP_NAME hb]
      exact hf
    have hparts := findGroupIn_none_parts hnone
    refine ⟨{ id := t.nextId, name := ADMIN_GROUP_NAME, members := [] }, ?_, rfl⟩
    show findGroupIn
      (t.groups ++ [({ id := t.nextId, name := ADMIN_GROUP_NAME, members := [] } : Group)])
      ADMIN_GROUP_NAME =
      some { id := t.nextId, name := ADMIN_GROUP_NAME, members := [] }
    unfold findGroupIn
    rw [find?_append_none_left hparts.1]
    simp

theorem ensureAdminGroup_Ped {s0 : WState} {valid : List String} {t : WState}
    (hGWF : GWF s0 t) (h : ∀ agid, Ped s0 valid agid t) :
    Ped s0 valid (ensureAdminGroup t).1.id (ensureAdminGroup t).2.1 := by
  unfold ensureAdminGroup
  cases hf : findGroupByName t ADMIN_GROUP_NAME with
  | some ag => exact h ag.id
  | none => exact Ped_createAdmin hGWF.2.2 (h t.nextId)

theorem ensureAdminGroup_sp {t : WState} {uid : Nat} {n : String}
    (hb : t.groups.length ≤ 100)
    (h : settledPair uid n t) : settledPair uid n (ensureAdminGroup t).2.1 := by
  unfold ensureAdminGroup
  cases hf : findGroupByName t ADMIN_GROUP_NAME with
  | some ag => exact h
  | none =>
    obtain ⟨gw, hgw, hm⟩ := h
    have hgmem := (findGroupIn_mem hgw).1
    have hgci := (findGroupIn_mem hgw).2
    have hnone : findGroupIn t.groups ADMIN_GROUP_NAME = none := by
      rw [← findGroupByName_eq_list t ADMIN_GROUP_NAME hb]
      exact hf
    have hne : ADMIN_GROUP_NAME.lowerStr ≠ n.lowerStr := by
      intro hcontra
      exact (findGroupIn_none hnone gw hgmem) (by rw [hgci]; exact hcontra.symm)
    rw [createGroup_eq]
    exact sp_append_fresh hne ⟨gw, hgw, hm⟩

theorem ensureAdminGroup_justUnit {s0 : WState} {activeUsers : List User}
    {uum : List (String × List OrgUnit)} {t : WState}
    (h : justUnit s0 activeUsers uum t) :
    justUnit s0 activeUsers uum (ensureAdminGroup t).2.1 := by
  unfold ensureAdminGroup
  cases hf : findGroupByName t ADMIN_GROUP_NAME with
  | some ag => exact h
  | none => exact justUnit_createGroup _ h

theorem ensureAdminGroup_justAdmin {s0 : WState} {valid : List String}
    (admins : List Admin) {t : WState} (hGWF : GWF s0 t)
    (hPed : ∀ agid, Ped s0 valid agid t)
    (hgbound0 : ∀ g ∈ s0.groups, g.id < s0.nextId) :
    justAdmin admins s0 (ensureAdminGroup t).1.id (ensureAdminGroup t).2.1 := by
  unfold ensureAdminGroup
  cases hf : findGroupByName t ADMIN_GROUP_NAME with
  | some ag =>
    have hagmem := (findGroupByName_some_mem hf).1
    have hagci := (findGroupByName_some_mem hf).2
    intro g hg hid hle uid hu
    have hge : g = ag := gmem_id_unique hGWF.1 hg hagmem hid
    rcases hPed (g.id + 1) g hg with ⟨gs, hgs, hidq, _⟩ | ⟨_, hnadm, _⟩ | ⟨hid3, _, _⟩
    · have := hgbound0 gs hgs
      omega
    · rw [hge] at hnadm
      exact absurd hagci hnadm
    · omega
  | none =>
    intro g hg hid hle uid hu
    rcases List.mem_append.mp hg with hg1 | hg1
    · have := hGWF.2.1 g hg1
      have hideq : g.id = t.nextId := hid
      omega
    · have hge : g = { id := t.nextId, name := ADMIN_GROUP_NAME, members := [] } := by
        simpa using hg1
      rw [hge] at hu
      simp at hu

theorem ensureAdminGroup_skel (t : WState) :
    (ensureAdminGroup t).2.1.users.map userSkel = t.users.map userSkel := by
  rw [users_ensureAdminGroup]

theorem findUserByEmail_mem {cfg : Config} {t : WState} {e : String} {u : User}
    (h : findUserByEmail cfg t e = some u) :
    u ∈ t.users ∧ u.email = e ∧ u.email ≠ cfg.adminEmail := by
  unfold findUserByEmail getAllUsers listPage at h
  have hm := List.mem_of_find?_eq_some h
  have hp := List.find?_some h
  have hf := List.mem_filter.mp hm
  exact ⟨(List.take_sublist _ _).subset hf.1, by simpa using hp,
    by simpa using hf.2⟩

theorem emailOf_of_mem {t : WState} {u : User}
    (hnd : (t.users.map (fun v => v.id)).Nodup) (hm : u ∈ t.users) :
    emailOf t u.id = some u.email := by
  unfold emailOf
  rw [find?_id_of_mem_nodup hnd hm]
  rfl

theorem uids_nodup_of_skel {s0 t : WState}
    (hsk : t.users.map userSkel = s0.users.map userSkel)
    (h : (s0.users.map (fun u => u.id)).Nodup) :
    (t.users.map (fun u => u.id)).Nodup := by
  rw [ids_map_skel, hsk, ← ids_map_skel]
  exact h

theorem emails_nodup_of_skel {s0 t : WState}
    (hsk : t.users.map userSkel = s0.users.map userSkel)
    (h : (s0.users.map (fun u => u.email)).Nodup) :
    (t.users.map (fun u => u.email)).Nodup := by
  rw [emails_map_skel, hsk, ← emails_map_skel]
  exact h

theorem emailOf_adminAddStep (cfg : Config) (agid : Nat) (admin : Admin)
    (t : WState) (uid : Nat) :
    emailOf (adminAddStep cfg agid admin t).1 uid = emailOf t uid := by
  unfold adminAddStep
  cases hf : findUserByEmail cfg t admin.email with
  | none => rfl
  | some user =>
    show emailOf (makeUserAdmin user.id (addUserToGroup user.id agid t).1).1 uid =
      emailOf t uid
    rw [emailOf_makeUserAdmin, emailOf_users_eq (users_addUserToGroup _ _ _)]

theorem adminAddStep_GWF {s0 : WState} (cfg : Config) (agid : Nat) (admin : Admin)
    {t : WState} (h : GWF s0 t) : GWF s0 (adminAddStep cfg agid admin t).1 := by
  unfold adminAddStep
  cases hf : findUserByEmail cfg t admin.email with
  | none => exact h
  | some user => exact GWF_makeUserAdmin s0 _ (GWF_addUserToGroup s0 _ _ h)

theorem adminAddStep_Ped {s0 : WState} {valid : List String} {agid : Nat}
    (cfg : Config) (agid2 : Nat) (admin : Admin) {t : WState}
    (h : Ped s0 valid agid t) : Ped s0 valid agid (adminAddStep cfg agid2 admin t).1 := by
  unfold adminAddStep
  cases hf : findUserByEmail cfg t admin.email with
  | none => exact h
  | some user => exact Ped_makeUserAdmin _ (Ped_addUserToGroup _ _ h)

theorem adminAddStep_sp (cfg : Config) (agid2 : Nat) (admin : Admin) {t : WState}
    {uid : Nat} {n : String} (h : settledPair uid n t) :
    settledPair uid n (adminAddStep cfg agid2 admin t).1 := by
  unfold adminAddStep
  cases hf : findUserByEmail cfg t admin.email with
  | none => exact h
  | some user =>
    exact sp_groups_eq (groups_makeUserAdmin _ _) (sp_addUserToGroup _ _ h)

theorem adminAddStep_adminResolved {agid : Nat} (cfg : Config) (agid2 : Nat)
    (admin : Admin) {t : WState} (h : adminResolved agid t) :
    adminResolved agid (adminAddStep cfg agid2 admin t).1 := by
  unfold adminAddStep
  cases hf : findUserByEmail cfg t admin.email with
  | none => exact h
  | some user =>
    exact adminResolved_makeUserAdmin _ (adminResolved_addUserToGroup _ _ h)

theorem adminAddStep_justUnit {s0 : WState} {activeUsers : List User}
    {uum : List (String × List OrgUnit)} {agid : Nat} (cfg : Config) (admin : Admin)
    {t : WState} (hGWF : GWF s0 t) (har : adminResolved agid t)
    (h : justUnit s0 activeUsers uum t) :
    justUnit s0 activeUsers uum (adminAddStep cfg agid admin t).1 := by
  unfold adminAddStep
  cases hf : findUserByEmail cfg t admin.email with
  | none => exact h
  | some user =>
    obtain ⟨ag, hagf, hagid⟩ := har
    have hagmem := (findGroupIn_mem hagf).1
    have hagci := (findGroupIn_mem hagf).2
    refine justUnit_makeUserAdmin _ (justUnit_addUserToGroup _ _ ?_ h)
    intro g2 hg2 hgid _ hnadm
    have hge : g2 = ag := gmem_id_unique hGWF.1 hg2 hagmem (by omega)
    rw [hge] at hnadm
    exact absurd hagci hnadm

theorem adminAddStep_justAdmin {s0 : WState} {admins : List Admin} {agid : Nat}
    (cfg : Config) (admin : Admin) {t : WState}
    (hadm_in : admin ∈ admins)
    (hnd : (t.users.map (fun v => v.id)).Nodup)
    (h : justAdmin admins s0 agid t) :
    justAdmin admins s0 agid (adminAddStep cfg agid admin t).1 := by
  unfold adminAddStep
  cases hf : findUserByEmail cfg t admin.email with
  | none => exact h
  | some user =>
    obtain ⟨hum, hue, _⟩ := findUserByEmail_mem hf
    refine justAdmin_makeUserAdmin _ (justAdmin_addUserToGroup _ _ ?_ h)
    refine ⟨user.email, emailOf_of_mem hnd hum, ?_⟩
    exact List.any_eq_true.mpr ⟨admin, hadm_in, by simp [hue]⟩

theorem adminAddStep_P2_pres {agid : Nat} (cfg : Config) (admin2 admin : Admin)
    {t : WState} (h : P2pred cfg agid admin t) :
    P2pred cfg agid admin (adminAddStep cfg agid admin2 t).1 := by
  intro uid hemail hne
  rw [emailOf_adminAddStep] at hemail
  obtain ⟨hmem, hrole⟩ := h uid hemail hne
  unfold adminAddStep
  cases hf : findUserByEmail cfg t admin2.email with
  | none => exact ⟨hmem, hrole⟩
  | some user =>
    constructor
    · exact memAllId_makeUserAdmin _ (memAllId_addUserToGroup _ _ hmem)
    · have h1 : roleOf (addUserToGroup user.id agid t).1 uid = some "admin" := by
        rw [roleOf_eq_of_users_eq (users_addUserToGroup _ _ _)]
        exact hrole
      exact roleOf_makeUserAdmin_sticky _ _ _ h1

theorem adminAddStep_P2_est {s0 : WState} {agid : Nat} (cfg : Config) (admin : Admin)
    {t : WState} (hu100 : t.users.length ≤ 100)
    (hGWF : GWF s0 t) (har : adminResolved agid t)
    (hnd : (t.users.map (fun v => v.id)).Nodup)
    (hnde : (t.users.map (fun v => v.email)).Nodup) :
    P2pred cfg agid admin (adminAddStep cfg agid admin t).1 := by
  unfold adminAddStep
  cases hf : findUserByEmail cfg t admin.email with
  | none =>
    intro uid hemail hne
    exfalso
    unfold emailOf at hemail
    cases hfu : t.users.find? (fun v => v.id = uid) with
    | none => rw [hfu] at hemail; cases hemail
    | some u =>
      rw [hfu] at hemail
      have hue : u.email = admin.email := by simpa using hemail
      have hum : u ∈ t.users := List.mem_of_find?_eq_some hfu
      have hua : u ∈ t.users.filter (fun v => v.email ≠ cfg.adminEmail) := by
        refine List.mem_filter.mpr ⟨hum, ?_⟩
        simp only [decide_eq_true_eq]
        rw [hue]
        exact hne
      unfold findUserByEmail at hf
      rw [getAllUsers_full cfg hu100] at hf
      have hno := List.find?_eq_none.mp hf u hua
      simp [hue] at hno
  | some user =>
    obtain ⟨hum, hue, huna⟩ := findUserByEmail_mem hf
    intro uid hemail hne
    show memAllId agid uid (makeUserAdmin user.id (addUserToGroup user.id agid t).1).1 ∧
      roleOf (makeUserAdmin user.id (addUserToGroup user.id agid t).1).1 uid = some "admin"
    have hemt : emailOf t uid = some admin.email := by
      rw [← emailOf_users_eq (users_addUserToGroup user.id agid t),
        ← emailOf_makeUserAdmin user.id]
      exact hemail
    have huid : uid = user.id := by
      unfold emailOf at hemt
      cases hfu : t.users.find? (fun v => v.id = uid) with
      | none => rw [hfu] at hemt; cases hemt
      | some u2 =>
        rw [hfu] at hemt
        have hue2 : u2.email = admin.email := by simpa using hemt
        have hu2m : u2 ∈ t.users := List.mem_of_find?_eq_some hfu
        have he12 : u2 = user := mem_email_unique hnde hu2m hum (by rw [hue2, hue])
        have hid2 : u2.id = uid := by simpa using List.find?_some hfu
        rw [← hid2, he12]
    subst huid
    obtain ⟨ag, hagf, hagid⟩ := har
    have hagmem := (findGroupIn_mem hagf).1
    constructor
    · refine memAllId_makeUserAdmin _ ?_
      have hm1 := memAllId_addSelf hGWF.1 hagmem user.id
      rw [hagid] at hm1
      exact hm1
    · have hfind2 : (addUserToGroup user.id agid t).1.users.find?
          (fun v => v.id = user.id) = some user := by
        rw [users_addUserToGroup]
        exact find?_id_of_mem_nodup hnd hum
      exact roleOf_makeUserAdmin_self hfind2

/-- All directory admins applied. -/
def P2All (cfg : Config) (admins : List Admin) (agid : Nat) (t : WState) : Prop :=
  ∀ admin ∈ admins, P2pred cfg agid admin t

/-- Invariant bundle carried from the admin-group phase to the end of the run. -/
def Inv3 (cfg : Config) (s0 : WState) (valid : List String) (activeUsers : List User)
    (uum : List (String × List OrgUnit)) (admins : List Admin) (agid : Nat)
    (t : WState) : Prop :=
  GWF s0 t ∧ Ped s0 valid agid t ∧ justUnit s0 activeUsers uum t ∧
    justAdmin admins s0 agid t ∧ adminResolved agid t ∧
    t.users.map userSkel = s0.users.map userSkel ∧
    (∀ user ∈ activeUsers, ∀ unit ∈ (assoc uum user.email).getD [],
      settledPair user.id unit.name t)

theorem adminAddStep_Inv3 {cfg : Config} {s0 : WState} {valid : List String}
    {activeUsers : List User} {uum : List (String × List OrgUnit)}
    {admins : List Admin} {agid : Nat} (admin : Admin) {t : WState}
    (hadm_in : admin ∈ admins) (hids0 : (s0.users.map (fun u => u.id)).Nodup)
    (h : Inv3 cfg s0 valid activeUsers uum admins agid t) :
    Inv3 cfg s0 valid activeUsers uum admins agid (adminAddStep cfg agid admin t).1 := by
  obtain ⟨h1, h2, h3, h4, h5, h6, h7⟩ := h
  exact ⟨adminAddStep_GWF cfg agid admin h1,
    adminAddStep_Ped cfg agid admin h2,
    adminAddStep_justUnit cfg admin h1 h5 h3,
    adminAddStep_justAdmin cfg admin hadm_in (uids_nodup_of_skel h6 hids0) h4,
    adminAddStep_adminResolved cfg agid admin h5,
    by rw [skel_adminAddStep]; exact h6,
    fun user hu unit hun => adminAddStep_sp cfg agid admin (h7 user hu unit hun)⟩

theorem phase3_Inv3 {cfg : Config} {s0 : WState} {valid : List String}
    {activeUsers : List User} {uum : List (String × List OrgUnit)}
    {admins : List Admin} {agid : Nat} {t : WState}
    (hids0 : (s0.users.map (fun u => u.id)).Nodup)
    (h : Inv3 cfg s0 valid activeUsers uum admins agid t) :
    Inv3 cfg s0 valid activeUsers uum admins agid
      (stepAll (adminAddStep cfg agid) admins t).1 :=
  stepAll_pres (fun admin hadm t2 ht2 => adminAddStep_Inv3 admin hadm hids0 ht2) h

theorem phase3_P2All {cfg : Config} {s0 : WState} {valid : List String}
    {activeUsers : List User} {uum : List (String × List OrgUnit)}
    {admins : List Admin} {agid : Nat} {t : WState}
    (hu0 : s0.users.length ≤ 100)
    (hids0 : (s0.users.map (fun u => u.id)).Nodup)
    (hemails0 : (s0.users.map (fun u => u.email)).Nodup)
    (h : Inv3 cfg s0 valid activeUsers uum admins agid t) :
    P2All cfg admins agid (stepAll (adminAddStep cfg agid) admins t).1 := by
  intro admin hadm
  exact stepAll_establishes
    (Q := fun admin2 t2 => P2pred cfg agid admin2 t2)
    (I := Inv3 cfg s0 valid activeUsers uum admins agid)
    (fun a ha t2 ht2 => adminAddStep_Inv3 a ha hids0 ht2)
    (fun a _ t2 ht2 => adminAddStep_P2_est cfg a
      (by rw [length_of_skel ht2.2.2.2.2.2.1]; exact hu0)
      ht2.1 ht2.2.2.2.2.1
      (uids_nodup_of_skel ht2.2.2.2.2.2.1 hids0)
      (emails_nodup_of_skel ht2.2.2.2.2.2.1 hemails0))
    (fun x _ y _ t2 hq => adminAddStep_P2_pres cfg x y hq)
    h admin hadm

theorem deleteObsoleteStep_cases (valid : List String) (g0 : Group) (t : WState) :
    deleteObsoleteStep valid g0 t = (t, []) ∨
      (g0.name.lowerStr ≠ ADMIN_GROUP_NAME.lowerStr ∧
        valid.contains g0.name.lowerStr = false ∧
        deleteObsoleteStep valid g0 t = deleteGroup g0.id t) := by
  unfold deleteObsoleteStep
  by_cases h1 : g0.name.lowerStr = ADMIN_GROUP_NAME.lowerStr
  · rw [if_pos h1]
    exact Or.inl rfl
  · rw [if_neg h1]
    cases hc : valid.contains g0.name.lowerStr
    · rw [if_neg (by simp)]
      exact Or.inr ⟨h1, rfl, rfl⟩
    · rw [if_pos (by simp)]
      exact Or.inl rfl

theorem deleteObsoleteStep_Inv3 {cfg : Config} {s0 : WState} {valid : List String}
    {activeUsers : List User} {uum : List (String × List OrgUnit)}
    {admins : List Admin} {agid : Nat} (g0 : Group) {t : WState}
    (hg0 : g0 ∈ s0.groups)
    (hgids0 : (s0.groups.map (fun g => g.id)).Nodup)
    (hgbound0 : ∀ g ∈ s0.groups, g.id < s0.nextId)
    (hV : ∀ e units, assoc uum e = some units → ∀ unit2 ∈ units,
      valid.contains unit2.name.lowerStr = true)
    (h : Inv3 cfg s0 valid activeUsers uum admins agid t) :
    Inv3 cfg s0 valid activeUsers uum admins agid (deleteObsoleteStep valid g0 t).1 := by
  obtain ⟨h1, h2, h3, h4, h5, h6, h7⟩ := h
  rcases deleteObsoleteStep_cases valid g0 t with he | ⟨hna, hnc, he⟩ <;> rw [he]
  · exact ⟨h1, h2, h3, h4, h5, h6, h7⟩
  · have halias := ped_alias h2 hgids0 hgbound0 hg0
    rw [deleteGroup_eq]
    refine ⟨?_, Ped_filter _ h2, justUnit_filter _ h3, justAdmin_filter _ h4, ?_, h6, ?_⟩
    · have := GWF_deleteGroup s0 g0.id h1
      rw [deleteGroup_eq] at this
      exact this
    · refine adminResolved_filter_keep ?_ h5
      intro g hg hci
      by_cases hgg : g.id = g0.id
      · exfalso
        have hname := halias g hg hgg
        rw [hname] at hci
        exact hna hci
      · simp [hgg]
    · intro user hu unit hun
      have hsp := h7 user hu unit hun
      refine sp_filter_keep ?_ hsp
      intro g hg hci
      by_cases hgg : g.id = g0.id
      · exfalso
        have hname := halias g hg hgg
        have hvc : valid.contains unit.name.lowerStr = true := by
          cases hassoc : assoc uum user.email with
          | none => rw [hassoc] at hun; simp at hun
          | some units =>
            have hu2 : unit ∈ units := by rw [hassoc] at hun; simpa using hun
            exact hV _ _ hassoc unit hu2
        have hl : g0.name.lowerStr = unit.name.lowerStr := by
          rw [← hname]
          exact hci
        rw [hl] at hnc
        rw [hvc] at hnc
        cases hnc
      · simp [hgg]

theorem deleteObsoleteStep_P2All {cfg : Config} {admins : List Admin} {agid : Nat}
    (valid : List String) (g0 : Group) {t : WState}
    (h : P2All cfg admins agid t) :
    P2All cfg admins agid (deleteObsoleteStep valid g0 t).1 := by
  intro admin hadm uid hemail hne
  rcases deleteObsoleteStep_cases valid g0 t with he | ⟨_, _, he⟩ <;> rw [he] at hemail ⊢
  · exact h admin hadm uid hemail hne
  · rw [deleteGroup_eq] at hemail ⊢
    have hemt : emailOf t uid = some admin.email := hemail
    obtain ⟨hmem, hrole⟩ := h admin hadm uid hemt hne
    constructor
    · intro g hg hid
      exact hmem g (List.mem_of_mem_filter hg) hid
    · exact hrole

theorem ped_to_deletePhase_hyp {s0 : WState} {valid : List String} {agid : Nat}
    {t : WState} (h : Ped s0 valid agid t) :
    ∀ g ∈ t.groups, (∃ g0 ∈ s0.groups, g.id = g0.id ∧ g.name = g0.name) ∨
      g.name.lowerStr = ADMIN_GROUP_NAME.lowerStr ∨
      valid.contains g.name.lowerStr = true := by
  intro g hg
  rcases h g hg with h1 | ⟨_, _, hc⟩ | ⟨_, hadm, _⟩
  · exact Or.inl h1
  · exact Or.inr (Or.inr hc)
  · exact Or.inr (Or.inl hadm)

theorem phase4_Inv3 {cfg : Config} {s0 : WState} {valid : List String}
    {activeUsers : List User} {uum : List (String × List OrgUnit)}
    {admins : List Admin} {agid : Nat} {t : WState}
    (hgids0 : (s0.groups.map (fun g => g.id)).Nodup)
    (hgbound0 : ∀ g ∈ s0.groups, g.id < s0.nextId)
    (hV : ∀ e units, assoc uum e = some units → ∀ unit2 ∈ units,
      valid.contains unit2.name.lowerStr = true)
    (h : Inv3 cfg s0 valid activeUsers uum admins agid t) :
    Inv3 cfg s0 valid activeUsers uum admins agid
      (stepAll (deleteObsoleteStep valid) s0.groups t).1 :=
  stepAll_pres
    (fun g0 hg0 t2 ht2 => deleteObsoleteStep_Inv3 g0 hg0 hgids0 hgbound0 hV ht2) h

theorem phase4_P2All {cfg : Config} {admins : List Admin} {agid : Nat}
    (valid : List String) (l : List Group) {t : WState}
    (h : P2All cfg admins agid t) :
    P2All cfg admins agid (stepAll (deleteObsoleteStep valid) l t).1 :=
  stepAll_pres (fun g0 _ t2 ht2 => deleteObsoleteStep_P2All valid g0 ht2) h

theorem sp_removeUserFromGroup_of_ne {t : WState} {uid : Nat} {n : String}
    (uid2 gid : Nat)
    (hsafe : ∀ g ∈ t.groups, g.name.lowerStr = n.lowerStr → g.id = gid → uid2 ≠ uid)
    (h : settledPair uid n t) : settledPair uid n (removeUserFromGroup uid2 gid t).1 := by
  rw [removeUserFromGroup_eq]
  obtain ⟨g, hg, hm⟩ := h
  have hgmem := (findGroupIn_mem hg).1
  have hgci := (findGroupIn_mem hg).2
  refine ⟨remMem uid2 gid g, ?_, ?_⟩
  · show findGroupIn (t.groups.map (remMem uid2 gid)) n = some (remMem uid2 gid g)
    rw [findGroupIn_map (remMem_name uid2 gid), hg]
    rfl
  · unfold remMem
    by_cases hq : g.id = gid
    · rw [if_pos hq]
      have hne := hsafe g hgmem hgci hq
      exact List.mem_filter.mpr ⟨hm, by simp [Ne.symm hne]⟩
    · rw [if_neg hq]
      exact hm

theorem cleanupAdminMember_cases (admins : List Admin) (gid : Nat) (m : User)
    (t : WState) :
    (cleanupAdminMember admins gid m t = (t, []) ∧
      admins.any (fun a => a.email = m.email) = true) ∨
    (admins.any (fun a => a.email = m.email) = false ∧
      cleanupAdminMember admins gid m t =
        ((removeUserAdmin m.id (removeUserFromGroup m.id gid t).1).1,
          (removeUserFromGroup m.id gid t).2 ++
            (removeUserAdmin m.id (removeUserFromGroup m.id gid t).1).2)) := by
  unfold cleanupAdminMember
  cases ha : admins.any (fun a => a.email = m.email)
  · rw [if_neg (by simp)]
    exact Or.inr ⟨rfl, rfl⟩
  · rw [if_pos (by simp)]
    exact Or.inl ⟨rfl, rfl⟩

theorem cleanupUnitMember_cases (activeUsers : List User)
    (uum : List (String × List OrgUnit)) (gid : Nat) (gname : String) (m : User)
    (t : WState) :
    (cleanupUnitMember activeUsers uum gid gname m t = (t, []) ∧
      ∀ user, activeUsers.find? (fun u => u.id = m.id) = some user →
        ((assoc uum user.email).getD []).any
          (fun unit => unit.name.lowerStr = gname.lowerStr) = true) ∨
    (∃ user, activeUsers.find? (fun u => u.id = m.id) = some user ∧
      ((assoc uum user.email).getD []).any
        (fun unit => unit.name.lowerStr = gname.lowerStr) = false ∧
      cleanupUnitMember activeUsers uum gid gname m t = removeUserFromGroup m.id gid t) := by
  unfold cleanupUnitMember
  split
  · next heq =>
    refine Or.inl ⟨rfl, fun user h => ?_⟩
    rw [heq] at h
    cases h
  · next user0 heq =>
    by_cases ha : (((assoc uum user0.email).getD []).any
        (fun unit => decide (unit.name.lowerStr = gname.lowerStr))) = true
    · rw [if_pos ha]
      refine Or.inl ⟨rfl, fun user h => ?_⟩
      rw [heq] at h
      have huser : user = user0 := (Option.some_inj.mp h).symm
      rw [huser]
      exact ha
    · rw [if_neg ha]
      exact Or.inr ⟨user0, heq, by simpa using ha, rfl⟩

theorem emailOf_cleanupAdminMember (admins : List Admin) (gid : Nat) (m : User)
    (t : WState) (uid : Nat) :
    emailOf (cleanupAdminMember admins gid m t).1 uid = emailOf t uid := by
  rcases cleanupAdminMember_cases admins gid m t with ⟨he, _⟩ | ⟨_, he⟩
  · rw [he]
  · rw [he]
    show emailOf (removeUserAdmin m.id (removeUserFromGroup m.id gid t).1).1 uid =
      emailOf t uid
    rw [emailOf_removeUserAdmin, emailOf_users_eq (users_removeUserFromGroup _ _ _)]

theorem emailOf_cleanupUnitMember (activeUsers : List User)
    (uum : List (String × List OrgUnit)) (gid : Nat) (gname : String) (m : User)
    (t : WState) (uid : Nat) :
    emailOf (cleanupUnitMember activeUsers uum gid gname m t).1 uid = emailOf t uid := by
  rcases cleanupUnitMember_cases activeUsers uum gid gname m t with ⟨he, _⟩ | ⟨user, _, _, he⟩
  · rw [he]
  · rw [he]
    exact emailOf_users_eq (users_removeUserFromGroup _ _ _) uid

theorem notMemberIn_removeUserAdmin (uid2 : Nat) {t : WState} {gid uid : Nat}
    (h : notMemberIn t gid uid) : notMemberIn (removeUserAdmin uid2 t).1 gid uid :=
  notMemberIn_pres_groups_eq (groups_removeUserAdmin uid2 t) h

theorem cleanupAdminMember_notMemberIn (admins : List Admin) (gid2 : Nat) (m : User)
    {t : WState} {gid uid : Nat} (h : notMemberIn t gid uid) :
    notMemberIn (cleanupAdminMember admins gid2 m t).1 gid uid := by
  rcases cleanupAdminMember_cases admins gid2 m t with ⟨he, _⟩ | ⟨_, he⟩ <;> rw [he]
  · exact h
  · exact notMemberIn_removeUserAdmin _ (notMemberIn_pres_removeUserFromGroup _ _ _ _ t h)

theorem cleanupUnitMember_notMemberIn (activeUsers : List User)
    (uum : List (String × List OrgUnit)) (gid2 : Nat) (gname : String) (m : User)
    {t : WState} {gid uid : Nat} (h : notMemberIn t gid uid) :
    notMemberIn (cleanupUnitMember activeUsers uum gid2 gname m t).1 gid uid := by
  rcases cleanupUnitMember_cases activeUsers uum gid2 gname m t with ⟨he, _⟩ | ⟨user, _, _, he⟩ <;>
    rw [he]
  · exact h
  · exact notMemberIn_pres_removeUserFromGroup _ _ _ _ t h

theorem memIn_back_removeUserFromGroup (uid2 gid2 : Nat) {t : WState} {gid uid : Nat}
    (h : memIn (removeUserFromGroup uid2 gid2 t).1 gid uid) : memIn t gid uid := by
  rw [removeUserFromGroup_eq] at h
  obtain ⟨g, hg, hid, hu⟩ := h
  rcases List.mem_map.mp hg with ⟨g0, hg0, rfl⟩
  exact ⟨g0, hg0, by rw [← remMem_id uid2 gid2 g0]; exact hid, remMem_sub uid2 gid2 g0 hu⟩

theorem memIn_groups_eq {t t2 : WState} (hg : t2.groups = t.groups) {gid uid : Nat}
    (h : memIn t2 gid uid) : memIn t gid uid := by
  obtain ⟨g, hgm, hid, hu⟩ := h
  exact ⟨g, hg ▸ hgm, hid, hu⟩

theorem memIn_back_cleanupAdminMember (admins : List Admin) (gid2 : Nat) (m : User)
    {t : WState} {gid uid : Nat}
    (h : memIn (cleanupAdminMember admins gid2 m t).1 gid uid) : memIn t gid uid := by
  rcases cleanupAdminMember_cases admins gid2 m t with ⟨he, _⟩ | ⟨_, he⟩ <;> rw [he] at h
  · exact h
  · exact memIn_back_removeUserFromGroup _ _
      (memIn_groups_eq (groups_removeUserAdmin _ _) h)

theorem memIn_back_cleanupUnitMember (activeUsers : List User)
    (uum : List (String × List OrgUnit)) (gid2 : Nat) (gname : String) (m : User)
    {t : WState} {gid uid : Nat}
    (h : memIn (cleanupUnitMember activeUsers uum gid2 gname m t).1 gid uid) :
    memIn t gid uid := by
  rcases cleanupUnitMember_cases activeUsers uum gid2 gname m t with ⟨he, _⟩ | ⟨user, _, _, he⟩ <;>
    rw [he] at h
  · exact h
  · exact memIn_back_removeUserFromGroup _ _ h

theorem getGroupMembers_sub {gid : Nat} {t : WState} {m : User}
    (hm : m ∈ getGroupMembers gid t) : m ∈ getGroupMembersSpec gid t := by
  unfold getGroupMembers at hm
  unfold getGroupMembersSpec
  split at hm
  · cases hm
  · next g hf =>
    exact (List.take_sublist _ _).subset hm

theorem getGroupMembersSpec_props {gid : Nat} {t : WState} {m : User}
    (hm : m ∈ getGroupMembersSpec gid t) :
    t.users.find? (fun v => v.id = m.id) = some m := by
  unfold getGroupMembersSpec at hm
  split at hm
  · cases hm
  · rcases List.mem_filterMap.mp hm with ⟨uid2, _, hf2⟩
    have hmid : m.id = uid2 := by simpa using List.find?_some hf2
    rw [hmid]
    exact hf2

theorem getGroupMembers_props {gid : Nat} {t : WState} {m : User}
    (hm : m ∈ getGroupMembers gid t) :
    t.users.find? (fun v => v.id = m.id) = some m :=
  getGroupMembersSpec_props (getGroupMembers_sub hm)

theorem getGroupMembersSpec_emailOf {gid : Nat} {t : WState} {m : User}
    (hm : m ∈ getGroupMembersSpec gid t) : emailOf t m.id = some m.email := by
  unfold emailOf
  rw [getGroupMembersSpec_props hm]
  rfl

theorem getGroupMembers_emailOf {gid : Nat} {t : WState} {m : User}
    (hm : m ∈ getGroupMembers gid t) : emailOf t m.id = some m.email := by
  unfold emailOf
  rw [getGroupMembers_props hm]
  rfl

theorem assoc_getD_mem {β : Type} {l : List (String × List β)} {e : String} {x : β}
    (hx : x ∈ (assoc l e).getD []) : ∃ v, assoc l e = some v ∧ x ∈ v := by
  cases hassoc : assoc l e with
  | none => rw [hassoc] at hx; simp at hx
  | some v =>
    refine ⟨v, rfl, ?_⟩
    rw [hassoc] at hx
    simpa using hx

/-- The full invariant bundle of the cleanup phase. -/
def Inv5 (cfg : Config) (s0 : WState) (valid : List String) (activeUsers : List User)
    (uum : List (String × List OrgUnit)) (admins : List Admin) (agid : Nat)
    (t : WState) : Prop :=
  Inv3 cfg s0 valid activeUsers uum admins agid t ∧ P2All cfg admins agid t ∧
    namesValid valid t

/-- Email consistency of a resolved member snapshot. -/
def EmOK (mems : List User) (t : WState) : Prop :=
  ∀ m ∈ mems, emailOf t m.id = some m.email

theorem prunedAdmin_removeUserFromGroup {admins : List Admin} {gid : Nat}
    (uid2 gid2 : Nat) {t : WState} (h : prunedAdmin admins gid t) :
    prunedAdmin admins gid (removeUserFromGroup uid2 gid2 t).1 := by
  rw [removeUserFromGroup_eq]
  intro g hg hid uid hu u hfu
  rcases List.mem_map.mp hg with ⟨g0, hg0, rfl⟩
  rw [remMem_id] at hid
  exact h g0 hg0 hid uid (remMem_sub uid2 gid2 g0 hu) u hfu

theorem prunedAdmin_removeUserAdmin {admins : List Admin} {gid : Nat} (uid2 : Nat)
    {t : WState} (h : prunedAdmin admins gid t) :
    prunedAdmin admins gid (removeUserAdmin uid2 t).1 := by
  unfold removeUserAdmin
  split
  · exact h
  · split
    · exact h
    · intro g hg hid uid hu u hfu
      rw [find?_id_roleUpdate] at hfu
      cases hf0 : t.users.find? (fun v => v.id = uid) with
      | none => rw [hf0] at hfu; cases hfu
      | some u0 =>
        rw [hf0] at hfu
        have hfu2 : (if u0.id = uid2 then { u0 with role := "viewer" } else u0) = u := by
          simpa using hfu
        have hres := h g hg hid uid hu u0 hf0
        have hemail : u.email = u0.email := by
          by_cases h2 : u0.id = uid2
          · rw [if_pos h2] at hfu2
            rw [← hfu2]
          · rw [if_neg h2] at hfu2
            rw [← hfu2]
        rw [hemail]
        exact hres

theorem prunedAdmin_cleanupAdminMember {admins : List Admin} {gid : Nat}
    (gid2 : Nat) (m : User) {t : WState} (h : prunedAdmin admins gid t) :
    prunedAdmin admins gid (cleanupAdminMember admins gid2 m t).1 := by
  rcases cleanupAdminMember_cases admins gid2 m t with ⟨he, _⟩ | ⟨_, he⟩ <;> rw [he]
  · exact h
  · exact prunedAdmin_removeUserAdmin _ (prunedAdmin_removeUserFromGroup _ _ h)

theorem prunedAdmin_cleanupUnitMember {admins : List Admin} {gid : Nat}
    (activeUsers : List User) (uum : List (String × List OrgUnit)) (gid2 : Nat)
    (gname : String) (m : User) {t : WState} (h : prunedAdmin admins gid t) :
    prunedAdmin admins gid (cleanupUnitMember activeUsers uum gid2 gname m t).1 := by
  rcases cleanupUnitMember_cases activeUsers uum gid2 gname m t with ⟨he, _⟩ | ⟨user, _, _, he⟩ <;>
    rw [he]
  · exact h
  · exact prunedAdmin_removeUserFromGroup _ _ h

theorem prunedUnit_groups_eq {activeUsers : List User}
    {uum : List (String × List OrgUnit)} {gid : Nat} {gname : String} {t t2 : WState}
    (hg : t2.groups = t.groups) (h : prunedUnit activeUsers uum gid gname t) :
    prunedUnit activeUsers uum gid gname t2 := by
  intro g hgm
  exact h g (hg ▸ hgm)

theorem prunedUnit_removeUserFromGroup {activeUsers : List User}
    {uum : List (String × List OrgUnit)} {gid : Nat} {gname : String}
    (uid2 gid2 : Nat) {t : WState} (h : prunedUnit activeUsers uum gid gname t) :
    prunedUnit activeUsers uum gid gname (removeUserFromGroup uid2 gid2 t).1 := by
  rw [removeUserFromGroup_eq]
  intro g hg hid uid hu user hfu
  rcases List.mem_map.mp hg with ⟨g0, hg0, rfl⟩
  rw [remMem_id] at hid
  exact h g0 hg0 hid uid (remMem_sub uid2 gid2 g0 hu) user hfu

theorem prunedUnit_cleanupAdminMember {activeUsers : List User}
    {uum : List (String × List OrgUnit)} {gid : Nat} {gname : String}
    (admins : List Admin) (gid2 : Nat) (m : User) {t : WState}
    (h : prunedUnit activeUsers uum gid gname t) :
    prunedUnit activeUsers uum gid gname (cleanupAdminMember admins gid2 m t).1 := by
  rcases cleanupAdminMember_cases admins gid2 m t with ⟨he, _⟩ | ⟨_, he⟩ <;> rw [he]
  · exact h
  · exact prunedUnit_groups_eq (groups_removeUserAdmin _ _)
      (prunedUnit_removeUserFromGroup _ _ h)

theorem prunedUnit_cleanupUnitMember {activeUsers : List User}
    {uum : List (String × List OrgUnit)} {gid : Nat} {gname : String}
    (activeUsers2 : List User) (uum2 : List (String × List OrgUnit)) (gid2 : Nat)
    (gname2 : String) (m : User) {t : WState}
    (h : prunedUnit activeUsers uum gid gname t) :
    prunedUnit activeUsers uum gid gname
      (cleanupUnitMember activeUsers2 uum2 gid2 gname2 m t).1 := by
  rcases cleanupUnitMember_cases activeUsers2 uum2 gid2 gname2 m t with ⟨he, _⟩ | ⟨user, _, _, he⟩ <;>
    rw [he]
  · exact h
  · exact prunedUnit_removeUserFromGroup _ _ h

theorem cleanupAdminMember_Inv5 {cfg : Config} {s0 : WState} {valid : List String}
    {activeUsers : List User} {uum : List (String × List OrgUnit)}
    {admins : List Admin} {agid : Nat} (g0 : Group) (m : User) {t : WState}
    (hg0 : g0 ∈ s0.groups) (hg0adm : g0.name.lowerStr = ADMIN_GROUP_NAME.lowerStr)
    (hgids0 : (s0.groups.map (fun g => g.id)).Nodup)
    (hgbound0 : ∀ g ∈ s0.groups, g.id < s0.nextId)
    (hNadm : ∀ e units, assoc uum e = some units → ∀ unit2 ∈ units,
      unit2.name.lowerStr ≠ ADMIN_GROUP_NAME.lowerStr)
    (hm : emailOf t m.id = some m.email)
    (h : Inv5 cfg s0 valid activeUsers uum admins agid t) :
    Inv5 cfg s0 valid activeUsers uum admins agid
      (cleanupAdminMember admins g0.id m t).1 := by
  obtain ⟨⟨h1, h2, h3, h4, h5, h6, h7⟩, hP2, hNV⟩ := h
  rcases cleanupAdminMember_cases admins g0.id m t with ⟨he, _⟩ | ⟨hany, he⟩ <;> rw [he]
  · exact ⟨⟨h1, h2, h3, h4, h5, h6, h7⟩, hP2, hNV⟩
  · have halias := ped_alias h2 hgids0 hgbound0 hg0
    refine ⟨⟨?_, ?_, ?_, ?_, ?_, ?_, ?_⟩, ?_, ?_⟩
    · exact GWF_removeUserAdmin s0 _ (GWF_removeUserFromGroup s0 _ _ h1)
    · exact Ped_removeUserAdmin _ (Ped_removeUserFromGroup _ _ h2)
    · exact justUnit_removeUserAdmin _ (justUnit_removeUserFromGroup _ _ h3)
    · exact justAdmin_removeUserAdmin _ (justAdmin_removeUserFromGroup _ _ h4)
    · exact adminResolved_removeUserAdmin _ (adminResolved_removeUserFromGroup _ _ h5)
    · show (removeUserAdmin m.id (removeUserFromGroup m.id g0.id t).1).1.users.map userSkel =
        s0.users.map userSkel
      rw [skel_removeUserAdmin, users_removeUserFromGroup]
      exact h6
    · intro user hu unit hun
      have hsafe : ∀ g ∈ t.groups, g.name.lowerStr = unit.name.lowerStr →
          g.id = g0.id → m.id ≠ user.id := by
        intro g hg hci hid
        exfalso
        have hname := halias g hg hid
        obtain ⟨units, hassoc, hunit2⟩ := assoc_getD_mem hun
        have hna := hNadm _ _ hassoc unit hunit2
        rw [hname] at hci
        exact hna (hci.symm.trans hg0adm)
      have hspR := sp_removeUserFromGroup_of_ne m.id g0.id hsafe (h7 user hu unit hun)
      exact sp_groups_eq (groups_removeUserAdmin _ _) hspR
    · intro admin hadm uid hemail hne
      have hemt : emailOf t uid = some admin.email := by
        rw [← emailOf_users_eq (users_removeUserFromGroup m.id g0.id t),
          ← emailOf_removeUserAdmin m.id]
        exact hemail
      obtain ⟨hmem, hrole⟩ := hP2 admin hadm uid hemt hne
      have hmne : m.id ≠ uid := by
        intro hcontra
        rw [hcontra, hemt] at hm
        have hme : m.email = admin.email := by
          have := Option.some_inj.mp hm
          rw [this]
        have : admins.any (fun a => a.email = m.email) = true :=
          List.any_eq_true.mpr ⟨admin, hadm, by simp [hme]⟩
        rw [this] at hany
        cases hany
      constructor
      · exact memAllId_removeUserAdmin _
          (memAllId_removeUserFromGroup m.id g0.id (Or.inr hmne) hmem)
      · show roleOf (removeUserAdmin m.id (removeUserFromGroup m.id g0.id t).1).1 uid =
          some "admin"
        rw [roleOf_removeUserAdmin_other _ (Ne.symm hmne),
          roleOf_eq_of_users_eq (users_removeUserFromGroup m.id g0.id t)]
        exact hrole
    · exact namesValid_groups_eq (groups_removeUserAdmin _ _)
        (namesValid_map (remMem_name m.id g0.id) hNV)

theorem cleanupUnitMember_Inv5 {cfg : Config} {s0 : WState} {valid : List String}
    {activeUsers : List User} {uum : List (String × List OrgUnit)}
    {admins : List Admin} {agid : Nat} (g0 : Group) (m : User) {t : WState}
    (hg0 : g0 ∈ s0.groups) (hg0na : g0.name.lowerStr ≠ ADMIN_GROUP_NAME.lowerStr)
    (hgids0 : (s0.groups.map (fun g => g.id)).Nodup)
    (hgbound0 : ∀ g ∈ s0.groups, g.id < s0.nextId)
    (hactND : (activeUsers.map (fun u => u.id)).Nodup)
    (h : Inv5 cfg s0 valid activeUsers uum admins agid t) :
    Inv5 cfg s0 valid activeUsers uum admins agid
      (cleanupUnitMember activeUsers uum g0.id g0.name m t).1 := by
  obtain ⟨⟨h1, h2, h3, h4, h5, h6, h7⟩, hP2, hNV⟩ := h
  rcases cleanupUnitMember_cases activeUsers uum g0.id g0.name m t with
    ⟨he, _⟩ | ⟨user0, hfu0, hany0, he⟩ <;> rw [he]
  · exact ⟨⟨h1, h2, h3, h4, h5, h6, h7⟩, hP2, hNV⟩
  · have halias := ped_alias h2 hgids0 hgbound0 hg0
    have hgne : g0.id ≠ agid := by
      intro hcontra
      obtain ⟨agT, hagf, hagid⟩ := h5
      have hagmem := (findGroupIn_mem hagf).1
      have hagci := (findGroupIn_mem hagf).2
      have hname := halias agT hagmem (by omega)
      rw [hname] at hagci
      exact hg0na hagci
    refine ⟨⟨?_, ?_, ?_, ?_, ?_, ?_, ?_⟩, ?_, ?_⟩
    · exact GWF_removeUserFromGroup s0 _ _ h1
    · exact Ped_removeUserFromGroup _ _ h2
    · exact justUnit_removeUserFromGroup _ _ h3
    · exact justAdmin_removeUserFromGroup _ _ h4
    · exact adminResolved_removeUserFromGroup _ _ h5
    · show (removeUserFromGroup m.id g0.id t).1.users.map userSkel =
        s0.users.map userSkel
      rw [users_removeUserFromGroup]
      exact h6
    · intro user hu unit hun
      have hsafe : ∀ g ∈ t.groups, g.name.lowerStr = unit.name.lowerStr →
          g.id = g0.id → m.id ≠ user.id := by
        intro g hg hci hid hcontra
        have hname := halias g hg hid
        have hfuser : activeUsers.find? (fun u => u.id = m.id) = some user := by
          rw [hcontra]
          exact find?_id_of_mem_nodup hactND hu
        rw [hfu0] at hfuser
        have huser0 : user0 = user := Option.some_inj.mp hfuser
        obtain ⟨units, hassoc, hunit2⟩ := assoc_getD_mem hun
        have hl : unit.name.lowerStr = g0.name.lowerStr := by
          rw [← hname]
          exact hci.symm
        have hanyT : ((assoc uum user0.email).getD []).any
            (fun unit2 => unit2.name.lowerStr = g0.name.lowerStr) = true := by
          rw [huser0]
          exact List.any_eq_true.mpr ⟨unit, hun, by simp [hl]⟩
        rw [hanyT] at hany0
        cases hany0
      exact sp_removeUserFromGroup_of_ne m.id g0.id hsafe (h7 user hu unit hun)
    · intro admin hadm uid hemail hne
      have hemt : emailOf t uid = some admin.email := by
        rw [← emailOf_users_eq (users_removeUserFromGroup m.id g0.id t)]
        exact hemail
      obtain ⟨hmem, hrole⟩ := hP2 admin hadm uid hemt hne
      constructor
      · exact memAllId_removeUserFromGroup m.id g0.id (Or.inl hgne) hmem
      · show roleOf (removeUserFromGroup m.id g0.id t).1 uid = some "admin"
        rw [roleOf_eq_of_users_eq (users_removeUserFromGroup m.id g0.id t)]
        exact hrole
    · exact namesValid_map (remMem_name m.id g0.id) hNV

theorem adminLoop_processed (admins : List Admin) (gid : Nat) :
    ∀ (mems : List User) (t : WState), EmOK mems t →
      ∀ m ∈ mems, admins.any (fun a => a.email = m.email) = true ∨
        notMemberIn (stepAll (cleanupAdminMember admins gid) mems t).1 gid m.id
  | [], _, _, _, hm => by cases hm
  | m0 :: mems, t, hE, m, hm => by
    rw [stepAll_cons]
    have hE1 : EmOK mems (cleanupAdminMember admins gid m0 t).1 := fun m2 h2 => by
      rw [emailOf_cleanupAdminMember]
      exact hE m2 (List.mem_cons_of_mem m0 h2)
    rcases List.mem_cons.mp hm with rfl | hm2
    · rcases cleanupAdminMember_cases admins gid m t with ⟨he, ha⟩ | ⟨ha, he⟩
      · exact Or.inl ha
      · right
        rw [he]
        exact stepAll_pres (P := fun t2 => notMemberIn t2 gid m.id)
          (fun m2 _ t2 ht2 => cleanupAdminMember_notMemberIn admins gid m2 ht2)
          (notMemberIn_removeUserAdmin _ (notMemberIn_removeUserFromGroup_self m.id gid t))
    · exact adminLoop_processed admins gid mems _ hE1 m hm2

theorem unitLoop_processed (activeUsers : List User)
    (uum : List (String × List OrgUnit)) (gid : Nat) (gname : String) :
    ∀ (mems : List User) (t : WState), ∀ m ∈ mems,
      (∀ user, activeUsers.find? (fun u => u.id = m.id) = some user →
        ((assoc uum user.email).getD []).any
          (fun unit => unit.name.lowerStr = gname.lowerStr) = true) ∨
      notMemberIn (stepAll (cleanupUnitMember activeUsers uum gid gname) mems t).1
        gid m.id
  | [], _, _, hm => by cases hm
  | m0 :: mems, t, m, hm => by
    rw [stepAll_cons]
    rcases List.mem_cons.mp hm with rfl | hm2
    · rcases cleanupUnitMember_cases activeUsers uum gid gname m t with
        ⟨he, ha⟩ | ⟨user0, hfu, hany, he⟩
      · exact Or.inl ha
      · right
        rw [he]
        exact stepAll_pres (P := fun t2 => notMemberIn t2 gid m.id)
          (fun m2 _ t2 ht2 =>
            cleanupUnitMember_notMemberIn activeUsers uum gid gname m2 ht2)
          (notMemberIn_removeUserFromGroup_self m.id gid t)
    · exact unitLoop_processed activeUsers uum gid gname mems _ m hm2

theorem adminLoop_prunedAdmin {admins : List Admin} {g0 : Group} {t : WState}
    (hnd : (t.groups.map (fun g => g.id)).Nodup)
    (hmb : ∀ g ∈ t.groups, g.members.length ≤ 100) :
    prunedAdmin admins g0.id
      (stepAll (cleanupAdminMember admins g0.id) (getGroupMembers g0.id t) t).1 := by
  rw [getGroupMembers_full g0.id hmb]
  intro g hg hid uid hu u hfu
  have hback : memIn t g0.id uid :=
    stepAll_back (Q := fun t2 => memIn t2 g0.id uid)
      (fun m2 _ t2 ht2 => memIn_back_cleanupAdminMember admins g0.id m2 ht2)
      ⟨g, hg, hid, hu⟩
  obtain ⟨gIn, hgIn, hidIn, huIn⟩ := hback
  have hfind : t.groups.find? (fun g2 => g2.id = g0.id) = some gIn := by
    rw [← hidIn]
    exact find?_gid_of_mem_nodup hnd hgIn
  have hskel : (stepAll (cleanupAdminMember admins g0.id) (getGroupMembersSpec g0.id t)
      t).1.users.map userSkel = t.users.map userSkel :=
    skel_stepAll (fun m2 t2 => skel_cleanupAdminMember admins g0.id m2 t2) _ t
  have htr := find?_id_skel_transfer hskel uid
  rw [hfu] at htr
  cases hf0 : t.users.find? (fun v => v.id = uid) with
  | none => rw [hf0] at htr; simp at htr
  | some u0 =>
    rw [hf0] at htr
    have hsk : userSkel u = userSkel u0 := by simpa using htr
    have hue : u.email = u0.email := (userSkel_fields hsk).2.1
    have hu0id : u0.id = uid := by simpa using List.find?_some hf0
    have hmem0 : u0 ∈ getGroupMembersSpec g0.id t := by
      unfold getGroupMembersSpec
      rw [hfind]
      exact List.mem_filterMap.mpr ⟨uid, huIn, hf0⟩
    have hEm : EmOK (getGroupMembersSpec g0.id t) t :=
      fun m2 h2 => getGroupMembersSpec_emailOf h2
    rcases adminLoop_processed admins g0.id (getGroupMembersSpec g0.id t) t hEm u0
      hmem0 with ha | hnm
    · rw [hue]
      exact ha
    · exfalso
      rw [hu0id] at hnm
      exact hnm g hg hid hu

theorem unitLoop_prunedUnit {s0 : WState} {activeUsers : List User}
    {uum : List (String × List OrgUnit)} {g0 : Group} {t : WState}
    (hndg : (t.groups.map (fun g => g.id)).Nodup)
    (hmb : ∀ g ∈ t.groups, g.members.length ≤ 100)
    (hskel : t.users.map userSkel = s0.users.map userSkel)
    (hids0 : (s0.users.map (fun u => u.id)).Nodup)
    (hsub : ∀ v ∈ activeUsers, v ∈ s0.users) :
    prunedUnit activeUsers uum g0.id g0.name
      (stepAll (cleanupUnitMember activeUsers uum g0.id g0.name)
        (getGroupMembers g0.id t) t).1 := by
  rw [getGroupMembers_full g0.id hmb]
  intro g hg hid uid hu user hfuser
  have huserm : user ∈ activeUsers := List.mem_of_find?_eq_some hfuser
  have huid : user.id = uid := by simpa using List.find?_some hfuser
  have huser0 : user ∈ s0.users := hsub user huserm
  have hback : memIn t g0.id uid :=
    stepAll_back (Q := fun t2 => memIn t2 g0.id uid)
      (fun m2 _ t2 ht2 => memIn_back_cleanupUnitMember activeUsers uum g0.id g0.name m2 ht2)
      ⟨g, hg, hid, hu⟩
  obtain ⟨gIn, hgIn, hidIn, huIn⟩ := hback
  have hfind : t.groups.find? (fun g2 => g2.id = g0.id) = some gIn := by
    rw [← hidIn]
    exact find?_gid_of_mem_nodup hndg hgIn
  have hfs0 : s0.users.find? (fun v => v.id = uid) = some user := by
    rw [← huid]
    exact find?_id_of_mem_nodup hids0 huser0
  have htr := find?_id_skel_transfer hskel uid
  rw [hfs0] at htr
  cases hf0 : t.users.find? (fun v => v.id = uid) with
  | none => rw [hf0] at htr; simp at htr
  | some u0 =>
    rw [hf0] at htr
    have hu0id : u0.id = uid := by simpa using List.find?_some hf0
    have hmem0 : u0 ∈ getGroupMembersSpec g0.id t := by
      unfold getGroupMembersSpec
      rw [hfind]
      exact List.mem_filterMap.mpr ⟨uid, huIn, hf0⟩
    rcases unitLoop_processed activeUsers uum g0.id g0.name (getGroupMembersSpec g0.id t)
      t u0 hmem0 with ha | hnm
    · apply ha user
      rw [hu0id]
      exact hfuser
    · exfalso
      rw [hu0id] at hnm
      exact hnm g hg hid hu

theorem cleanupGroup_Inv5 {cfg : Config} {s0 : WState} {valid : List String}
    {activeUsers : List User} {uum : List (String × List OrgUnit)}
    {admins : List Admin} {agid : Nat} (g0 : Group) {t : WState}
    (hg0 : g0 ∈ s0.groups)
    (hgids0 : (s0.groups.map (fun g => g.id)).Nodup)
    (hgbound0 : ∀ g ∈ s0.groups, g.id < s0.nextId)
    (hNadm : ∀ e units, assoc uum e = some units → ∀ unit2 ∈ units,
      unit2.name.lowerStr ≠ ADMIN_GROUP_NAME.lowerStr)
    (hactND : (activeUsers.map (fun u => u.id)).Nodup)
    (h : Inv5 cfg s0 valid activeUsers uum admins agid t) :
    Inv5 cfg s0 valid activeUsers uum admins agid
      (cleanupGroup admins activeUsers uum g0 t).1 := by
  unfold cleanupGroup
  split
  · next hadm =>
    have hE0 : EmOK (getGroupMembers g0.id t) t := fun m2 h2 => getGroupMembers_emailOf h2
    have hall := stepAll_pres
      (P := fun t2 => Inv5 cfg s0 valid activeUsers uum admins agid t2 ∧
        EmOK (getGroupMembers g0.id t) t2)
      (fun m hmem t2 ht2 =>
        ⟨cleanupAdminMember_Inv5 g0 m hg0 hadm hgids0 hgbound0 hNadm (ht2.2 m hmem) ht2.1,
          fun m2 h2 => by
            rw [emailOf_cleanupAdminMember]
            exact ht2.2 m2 h2⟩)
      ⟨h, hE0⟩
    exact hall.1
  · next hadm =>
    exact stepAll_pres
      (fun m _ t2 ht2 => cleanupUnitMember_Inv5 g0 m hg0 hadm hgids0 hgbound0 hactND ht2) h

theorem cleanupGroup_prunedAdmin_pres {admins : List Admin} {gid : Nat}
    (activeUsers : List User) (uum : List (String × List OrgUnit)) (g2 : Group)
    {t : WState} (h : prunedAdmin admins gid t) :
    prunedAdmin admins gid (cleanupGroup admins activeUsers uum g2 t).1 := by
  unfold cleanupGroup
  split
  · exact stepAll_pres (fun m _ t2 ht2 => prunedAdmin_cleanupAdminMember _ m ht2) h
  · exact stepAll_pres
      (fun m _ t2 ht2 => prunedAdmin_cleanupUnitMember activeUsers uum _ _ m ht2) h

theorem cleanupGroup_prunedUnit_pres {activeUsers : List User}
    {uum : List (String × List OrgUnit)} {gid : Nat} {gname : String}
    (admins : List Admin) (g2 : Group) {t : WState}
    (h : prunedUnit activeUsers uum gid gname t) :
    prunedUnit activeUsers uum gid gname (cleanupGroup admins activeUsers uum g2 t).1 := by
  unfold cleanupGroup
  split
  · exact stepAll_pres (fun m _ t2 ht2 => prunedUnit_cleanupAdminMember admins _ m ht2) h
  · exact stepAll_pres
      (fun m _ t2 ht2 => prunedUnit_cleanupUnitMember activeUsers uum _ _ m ht2) h

theorem cleanupGroup_est {cfg : Config} {s0 : WState} {valid : List String}
    {activeUsers : List User} {uum : List (String × List OrgUnit)}
    {admins : List Admin} {agid : Nat} (g0 : Group) {t : WState}
    (hids0 : (s0.users.map (fun u => u.id)).Nodup)
    (hsub : ∀ v ∈ activeUsers, v ∈ s0.users)
    (hmb : ∀ g ∈ t.groups, g.members.length ≤ 100)
    (h : Inv5 cfg s0 valid activeUsers uum admins agid t) :
    (g0.name.lowerStr = ADMIN_GROUP_NAME.lowerStr →
      prunedAdmin admins g0.id (cleanupGroup admins activeUsers uum g0 t).1) ∧
    (g0.name.lowerStr ≠ ADMIN_GROUP_NAME.lowerStr →
      prunedUnit activeUsers uum g0.id g0.name
        (cleanupGroup admins activeUsers uum g0 t).1) := by
  unfold cleanupGroup
  split
  · next hadm =>
    refine ⟨fun _ => ?_, fun hna => absurd hadm hna⟩
    exact adminLoop_prunedAdmin h.1.1.1 hmb
  · next hadm =>
    refine ⟨fun hyes => absurd hyes hadm, fun _ => ?_⟩
    exact unitLoop_prunedUnit h.1.1.1 hmb h.1.2.2.2.2.2.1 hids0 hsub

theorem phase5_Inv5 {cfg : Config} {s0 : WState} {valid : List String}
    {activeUsers : List User} {uum : List (String × List OrgUnit)}
    {admins : List Admin} {agid : Nat} {t : WState}
    (hgids0 : (s0.groups.map (fun g => g.id)).Nodup)
    (hgbound0 : ∀ g ∈ s0.groups, g.id < s0.nextId)
    (hNadm : ∀ e units, assoc uum e = some units → ∀ unit2 ∈ units,
      unit2.name.lowerStr ≠ ADMIN_GROUP_NAME.lowerStr)
    (hactND : (activeUsers.map (fun u => u.id)).Nodup)
    (h : Inv5 cfg s0 valid activeUsers uum admins agid t) :
    Inv5 cfg s0 valid activeUsers uum admins agid
      (stepAll (cleanupGroup admins activeUsers uum) s0.groups t).1 :=
  stepAll_pres
    (fun g0 hg0 t2 ht2 => cleanupGroup_Inv5 g0 hg0 hgids0 hgbound0 hNadm hactND ht2) h

theorem phase5_pruned {cfg : Config} {s0 : WState} {valid : List String}
    {activeUsers : List User} {uum : List (String × List OrgUnit)}
    {admins : List Admin} {agid : Nat} {t : WState}
    (hgids0 : (s0.groups.map (fun g => g.id)).Nodup)
    (hgbound0 : ∀ g ∈ s0.groups, g.id < s0.nextId)
    (hNadm : ∀ e units, assoc uum e = some units → ∀ unit2 ∈ units,
      unit2.name.lowerStr ≠ ADMIN_GROUP_NAME.lowerStr)
    (hactND : (activeUsers.map (fun u => u.id)).Nodup)
    (hids0 : (s0.users.map (fun u => u.id)).Nodup)
    (hsub : ∀ v ∈ activeUsers, v ∈ s0.users)
    (hSB : SB 0 0 t)
    (h : Inv5 cfg s0 valid activeUsers uum admins agid t) :
    ∀ g0 ∈ s0.groups,
      (g0.name.lowerStr = ADMIN_GROUP_NAME.lowerStr →
        prunedAdmin admins g0.id
          (stepAll (cleanupGroup admins activeUsers uum) s0.groups t).1) ∧
      (g0.name.lowerStr ≠ ADMIN_GROUP_NAME.lowerStr →
        prunedUnit activeUsers uum g0.id g0.name
          (stepAll (cleanupGroup admins activeUsers uum) s0.groups t).1) := by
  intro g0 hg0
  exact stepAll_establishes
    (Q := fun g2 t2 =>
      (g2.name.lowerStr = ADMIN_GROUP_NAME.lowerStr → prunedAdmin admins g2.id t2) ∧
      (g2.name.lowerStr ≠ ADMIN_GROUP_NAME.lowerStr →
        prunedUnit activeUsers uum g2.id g2.name t2))
    (I := fun t2 => Inv5 cfg s0 valid activeUsers uum admins agid t2 ∧ SB 0 0 t2)
    (fun g2 hg2 t2 ht2 =>
      ⟨cleanupGroup_Inv5 g2 hg2 hgids0 hgbound0 hNadm hactND ht2.1,
        SB_cleanupGroup _ _ _ g2 ht2.2⟩)
    (fun g2 _ t2 ht2 =>
      cleanupGroup_est g2 hids0 hsub (SB_members_le ht2.2) ht2.1)
    (fun x _ y _ t2 hq => by
      refine ⟨fun hadm => ?_, fun hna => ?_⟩
      · exact cleanupGroup_prunedAdmin_pres activeUsers uum x (hq.1 hadm)
      · exact cleanupGroup_prunedUnit_pres admins x (hq.2 hna))
    ⟨h, hSB⟩ g0 hg0

theorem processUnit_noop {s1 : WState} (user : User) (unit : OrgUnit)
    (hglen : s1.groups.length ≤ 100)
    (hgid : (s1.groups.map (fun g => g.id)).Nodup)
    (h : settledPair user.id unit.name s1) : processUnit user unit s1 = (s1, []) := by
  obtain ⟨g, hfi, hm⟩ := h
  unfold processUnit
  rw [show findGroupByName s1 unit.name = some g from by
    rw [findGroupByName_eq_list s1 unit.name hglen]; exact hfi]
  show addUserToGroup user.id g.id s1 = (s1, [])
  unfold addUserToGroup
  rw [find?_gid_of_mem_nodup hgid (findGroupIn_mem hfi).1]
  simp [hm]

theorem processUser_noop {s1 : WState} {uum : List (String × List OrgUnit)}
    (user : User) (hglen : s1.groups.length ≤ 100)
    (hgid : (s1.groups.map (fun g => g.id)).Nodup)
    (h : ∀ unit ∈ (assoc uum user.email).getD [], settledPair user.id unit.name s1) :
    processUser uum user s1 = (s1, []) := by
  unfold processUser
  exact stepAll_noop
    (fun unit hunit => processUnit_noop user unit hglen hgid (h unit hunit))

theorem adminAddStep_noop {cfg : Config} {s1 : WState} {ag : Group} (admin : Admin)
    (hgid : (s1.groups.map (fun g => g.id)).Nodup)
    (huid : (s1.users.map (fun u => u.id)).Nodup)
    (hag : findGroupIn s1.groups ADMIN_GROUP_NAME = some ag)
    (hP2 : ∀ user, findUserByEmail cfg s1 admin.email = some user →
      user.id ∈ ag.members ∧ user.role = "admin") :
    adminAddStep cfg ag.id admin s1 = (s1, []) := by
  unfold adminAddStep
  cases hf : findUserByEmail cfg s1 admin.email with
  | none => rfl
  | some user =>
    obtain ⟨hmem, hrole⟩ := hP2 user hf
    have hagmem := (findGroupIn_mem hag).1
    have ha1 : addUserToGroup user.id ag.id s1 = (s1, []) := by
      unfold addUserToGroup
      rw [find?_gid_of_mem_nodup hgid hagmem]
      simp [hmem]
    have hm1 : makeUserAdmin user.id s1 = (s1, []) := by
      unfold makeUserAdmin
      rw [find?_id_of_mem_nodup huid (findUserByEmail_mem hf).1]
      simp [hrole]
    show ((makeUserAdmin user.id (addUserToGroup user.id ag.id s1).1).1,
      (addUserToGroup user.id ag.id s1).2 ++
        (makeUserAdmin user.id (addUserToGroup user.id ag.id s1).1).2) = (s1, [])
    rw [ha1]
    show ((makeUserAdmin user.id s1).1, [] ++ (makeUserAdmin user.id s1).2) = (s1, [])
    rw [hm1]
    rfl

theorem deleteObsolete_noop {s1 : WState} (valid : List String) (g : Group)
    (h : g.name.lowerStr = ADMIN_GROUP_NAME.lowerStr ∨
      valid.contains g.name.lowerStr = true) :
    deleteObsoleteStep valid g s1 = (s1, []) := by
  unfold deleteObsoleteStep
  by_cases h1 : g.name.lowerStr = ADMIN_GROUP_NAME.lowerStr
  · rw [if_pos h1]
  · rcases h with h | h
    · exact absurd h h1
    · rw [if_neg h1, if_pos h]

theorem cleanupGroup_noop {cfg : Config} {d : Dir} {s1 : WState}
    {admins : List Admin} (g : Group)
    (hgmem : g ∈ s1.groups)
    (hP4 : g.name.lowerStr = ADMIN_GROUP_NAME.lowerStr →
      ∀ u ∈ getGroupMembers g.id s1,
        admins.any (fun a => a.email = u.email) = true)
    (hP5 : g.name.lowerStr ≠ ADMIN_GROUP_NAME.lowerStr →
      ∀ u ∈ getGroupMembers g.id s1, ∀ user,
        (getAllUsers cfg s1).find? (fun v => v.id = u.id) = some user →
          ((assoc (userUnitsMap cfg d (getAllUsers cfg s1)) user.email).getD []).any
            (fun unit => unit.name.lowerStr = g.name.lowerStr) = true) :
    cleanupGroup admins (getAllUsers cfg s1)
      (userUnitsMap cfg d (getAllUsers cfg s1)) g s1 = (s1, []) := by
  unfold cleanupGroup
  split
  · next hadm =>
    refine stepAll_noop (fun m hmem => ?_)
    unfold cleanupAdminMember
    rw [if_pos (hP4 hadm m hmem)]
  · next hadm =>
    refine stepAll_noop (fun m hmem => ?_)
    unfold cleanupUnitMember
    cases hf : (getAllUsers cfg s1).find? (fun u => u.id = m.id) with
    | none => rfl
    | some user =>
      simp [hP5 hadm m hmem user hf]

theorem settled_run_silent (cfg : Config) (d : Dir) (s1 : WState)
    (hne : (getAllUsers cfg s1).isEmpty = false)
    (hglen : s1.groups.length ≤ 100)
    (hgid : (s1.groups.map (fun g => g.id)).Nodup)
    (huid : (s1.users.map (fun u => u.id)).Nodup)
    (ag : Group) (hag : findGroupIn s1.groups ADMIN_GROUP_NAME = some ag)
    (hP1 : ∀ user ∈ getAllUsers cfg s1,
      ∀ unit ∈ (assoc (userUnitsMap cfg d (getAllUsers cfg s1)) user.email).getD [],
        settledPair user.id unit.name s1)
    (hP2 : ∀ admin ∈ getAllAdmins cfg d, ∀ user,
      findUserByEmail cfg s1 admin.email = some user →
        user.id ∈ ag.members ∧ user.role = "admin")
    (hP3 : namesValid (validGroupNames (userUnitsMap cfg d (getAllUsers cfg s1))) s1)
    (hP4 : ∀ g ∈ s1.groups, g.name.lowerStr = ADMIN_GROUP_NAME.lowerStr →
      ∀ u ∈ getGroupMembers g.id s1,
        (getAllAdmins cfg d).any (fun a => a.email = u.email) = true)
    (hP5 : ∀ g ∈ s1.groups, g.name.lowerStr ≠ ADMIN_GROUP_NAME.lowerStr →
      ∀ u ∈ getGroupMembers g.id s1, ∀ user,
        (getAllUsers cfg s1).find? (fun v => v.id = u.id) = some user →
          ((assoc (userUnitsMap cfg d (getAllUsers cfg s1)) user.email).getD []).any
            (fun unit => unit.name.lowerStr = g.name.lowerStr) = true) :
    syncUsers cfg d s1 = (s1, [], true) := by
  have h1 : stepAll (processUser (userUnitsMap cfg d (getAllUsers cfg s1)))
      (getAllUsers cfg s1) s1 = (s1, []) :=
    stepAll_noop (fun user huser => processUser_noop user hglen hgid (hP1 user huser))
  have h2 : ensureAdminGroup s1 = (ag, s1, []) := by
    unfold ensureAdminGroup
    rw [show findGroupByName s1 ADMIN_GROUP_NAME = some ag from by
      rw [findGroupByName_eq_list s1 ADMIN_GROUP_NAME hglen]; exact hag]
  have h3 : stepAll (adminAddStep cfg ag.id) (getAllAdmins cfg d) s1 = (s1, []) :=
    stepAll_noop (fun admin hadm =>
      adminAddStep_noop admin hgid huid hag (hP2 admin hadm))
  have h4 : stepAll
      (deleteObsoleteStep (validGroupNames (userUnitsMap cfg d (getAllUsers cfg s1))))
      (getAllGroups s1) s1 = (s1, []) :=
    stepAll_noop (fun g hg => deleteObsolete_noop _ g (hP3 g (getAllGroups_mem hg)))
  have h5 : stepAll
      (cleanupGroup (getAllAdmins cfg d) (getAllUsers cfg s1)
        (userUnitsMap cfg d (getAllUsers cfg s1)))
      (getAllGroups s1) s1 = (s1, []) :=
    stepAll_noop (fun g hg =>
      cleanupGroup_noop g (getAllGroups_mem hg)
        (fun hadm => hP4 g (getAllGroups_mem hg) hadm)
        (fun hadm => hP5 g (getAllGroups_mem hg) hadm))
  rw [syncUsers_eq_nonempty cfg d s1 hne]
  simp only [h1, h2, h3, h4, h5]
  rfl

theorem getAllUsers_ids_nodup (cfg : Config) {s0 : WState}
    (hids : (s0.users.map (fun u => u.id)).Nodup) :
    ((getAllUsers cfg s0).map (fun u => u.id)).Nodup :=
  List.Nodup.sublist
    (((List.filter_sublist _).trans (List.take_sublist _ _)).map _) hids

theorem getAllUsers_sub {cfg : Config} {s0 : WState} :
    ∀ v ∈ getAllUsers cfg s0, v ∈ s0.users :=
  fun v hv => (getAllUsers_mem_users hv).1

theorem first_run_settles (cfg : Config) (d : Dir) (s0 : WState)
    (hie : (getAllUsers cfg s0).isEmpty = false)
    (hids : (s0.users.map (fun u => u.id)).Nodup)
    (hemails : (s0.users.map (fun u => u.email)).Nodup)
    (hgids : (s0.groups.map (fun g => g.id)).Nodup)
    (hgbound : ∀ g ∈ s0.groups, g.id < s0.nextId)
    (hadm : ∀ p ∈ d.units, ∀ unit ∈ p.2,
      unit.name.lowerStr ≠ ADMIN_GROUP_NAME.lowerStr)
    (hSB : SB (runBudget cfg d s0 + 1)
      (runBudget cfg d s0 + (getAllAdmins cfg d).length) s0) :
    ∃ agid,
      Inv5 cfg s0 (validGroupNames (userUnitsMap cfg d (getAllUsers cfg s0)))
        (getAllUsers cfg s0) (userUnitsMap cfg d (getAllUsers cfg s0))
        (getAllAdmins cfg d) agid (syncUsers cfg d s0).1 ∧
      (∀ g0 ∈ s0.groups,
        (g0.name.lowerStr = ADMIN_GROUP_NAME.lowerStr →
          prunedAdmin (getAllAdmins cfg d) g0.id (syncUsers cfg d s0).1) ∧
        (g0.name.lowerStr ≠ ADMIN_GROUP_NAME.lowerStr →
          prunedUnit (getAllUsers cfg s0) (userUnitsMap cfg d (getAllUsers cfg s0))
            g0.id g0.name (syncUsers cfg d s0).1)) ∧
      SB 0 0 (syncUsers cfg d s0).1 := by
  have hN : ∀ e units,
      assoc (userUnitsMap cfg d (getAllUsers cfg s0)) e = some units →
      ∀ unit2 ∈ units, unit2.name.lowerStr ≠ ADMIN_GROUP_NAME.lowerStr ∧
        (validGroupNames (userUnitsMap cfg d (getAllUsers cfg s0))).contains
          unit2.name.lowerStr = true :=
    fun e units ha unit2 hu => ⟨uum_nonadmin hadm ha hu, unit_in_valid ha hu⟩
  have hu0 : s0.users.length ≤ 100 := SB_users_le hSB
  have hglen0 : s0.groups.length ≤ 100 := SB_groups_le hSB
  have hInv0 : Inv1 s0 (validGroupNames (userUnitsMap cfg d (getAllUsers cfg s0)))
      (getAllUsers cfg s0) (userUnitsMap cfg d (getAllUsers cfg s0)) s0 := by
    refine ⟨⟨hgids, hgbound, Nat.le_refl _⟩, ?_, ?_, rfl⟩
    · intro agid g hg
      exact Or.inl ⟨g, hg, rfl, rfl⟩
    · intro g hg hle _ uid _
      exact absurd hle (by have := hgbound g hg; omega)
  have hInv1r1 := phase1_Inv1 hN hInv0
  have hSB1 : SB 1 (getAllAdmins cfg d).length
      (stepAll (processUser (userUnitsMap cfg d (getAllUsers cfg s0)))
        (getAllUsers cfg s0) s0).1 :=
    SB_phase1 (userUnitsMap cfg d (getAllUsers cfg s0)) (getAllUsers cfg s0) 1
      (getAllAdmins cfg d).length s0 hSB
  have hbr1 : (stepAll (processUser (userUnitsMap cfg d (getAllUsers cfg s0)))
      (getAllUsers cfg s0) s0).1.groups.length ≤ 100 := SB_groups_le hSB1
  have hsp1 := phase1_sp_all hN (getAllUsers cfg s0) 1 (getAllAdmins cfg d).length s0
    (fun u h => h) hSB hInv0
  have hInv3t2 : Inv3 cfg s0 (validGroupNames (userUnitsMap cfg d (getAllUsers cfg s0)))
      (getAllUsers cfg s0) (userUnitsMap cfg d (getAllUsers cfg s0))
      (getAllAdmins cfg d)
      (ensureAdminGroup (stepAll (processUser (userUnitsMap cfg d (getAllUsers cfg s0)))
        (getAllUsers cfg s0) s0).1).1.id
      (ensureAdminGroup (stepAll (processUser (userUnitsMap cfg d (getAllUsers cfg s0)))
        (getAllUsers cfg s0) s0).1).2.1 := by
    refine ⟨ensureAdminGroup_GWF hInv1r1.1,
      ensureAdminGroup_Ped hInv1r1.1 hInv1r1.2.1,
      ensureAdminGroup_justUnit hInv1r1.2.2.1,
      ensureAdminGroup_justAdmin (getAllAdmins cfg d) hInv1r1.1 hInv1r1.2.1 hgbound,
      ensureAdminGroup_adminResolved _ hbr1, ?_,
      fun user hu unit hun => ensureAdminGroup_sp hbr1 (hsp1 user hu unit hun)⟩
    rw [ensureAdminGroup_skel]
    exact hInv1r1.2.2.2
  have hSB2 : SB 0 (getAllAdmins cfg d).length
      (ensureAdminGroup (stepAll (processUser (userUnitsMap cfg d (getAllUsers cfg s0)))
        (getAllUsers cfg s0) s0).1).2.1 := SB_ensureAdminGroup hSB1
  have hInv3r3 := phase3_Inv3 hids hInv3t2
  have hP2r3 := phase3_P2All hu0 hids hemails hInv3t2
  have hSB3 : SB 0 0
      (stepAll (adminAddStep cfg
        (ensureAdminGroup (stepAll (processUser (userUnitsMap cfg d (getAllUsers cfg s0)))
          (getAllUsers cfg s0) s0).1).1.id) (getAllAdmins cfg d)
        (ensureAdminGroup (stepAll (processUser (userUnitsMap cfg d (getAllUsers cfg s0)))
          (getAllUsers cfg s0) s0).1).2.1).1 :=
    SB_phase3 cfg
      (ensureAdminGroup (stepAll (processUser (userUnitsMap cfg d (getAllUsers cfg s0)))
        (getAllUsers cfg s0) s0).1).1.id (getAllAdmins cfg d) 0 0 _ hSB2
  have hInv4 := phase4_Inv3 hgids hgbound
    (fun e units ha unit2 hu => (hN e units ha unit2 hu).2) hInv3r3
  have hP2r4 := phase4_P2All
    (validGroupNames (userUnitsMap cfg d (getAllUsers cfg s0))) s0.groups hP2r3
  have hNV4 := deletePhase_namesValid
    (validGroupNames (userUnitsMap cfg d (getAllUsers cfg s0))) s0.groups _
    (ped_to_deletePhase_hyp hInv3r3.2.1)
  have hInv54 : Inv5 cfg s0 (validGroupNames (userUnitsMap cfg d (getAllUsers cfg s0)))
      (getAllUsers cfg s0) (userUnitsMap cfg d (getAllUsers cfg s0))
      (getAllAdmins cfg d)
      (ensureAdminGroup (stepAll (processUser (userUnitsMap cfg d (getAllUsers cfg s0)))
        (getAllUsers cfg s0) s0).1).1.id
      (stepAll (deleteObsoleteStep
        (validGroupNames (userUnitsMap cfg d (getAllUsers cfg s0)))) s0.groups
        (stepAll (adminAddStep cfg
          (ensureAdminGroup (stepAll (processUser (userUnitsMap cfg d (getAllUsers cfg s0)))
            (getAllUsers cfg s0) s0).1).1.id) (getAllAdmins cfg d)
          (ensureAdminGroup (stepAll (processUser (userUnitsMap cfg d (getAllUsers cfg s0)))
            (getAllUsers cfg s0) s0).1).2.1).1).1 :=
    ⟨hInv4, hP2r4, hNV4⟩
  have hNadm2 : ∀ e units,
      assoc (userUnitsMap cfg d (getAllUsers cfg s0)) e = some units →
      ∀ unit2 ∈ units, unit2.name.lowerStr ≠ ADMIN_GROUP_NAME.lowerStr :=
    fun e units ha unit2 hu => (hN e units ha unit2 hu).1
  have hactND := getAllUsers_ids_nodup cfg hids
  have hSB4 : SB 0 0
      (stepAll (deleteObsoleteStep
        (validGroupNames (userUnitsMap cfg d (getAllUsers cfg s0)))) s0.groups
        (stepAll (adminAddStep cfg
          (ensureAdminGroup (stepAll (processUser (userUnitsMap cfg d (getAllUsers cfg s0)))
            (getAllUsers cfg s0) s0).1).1.id) (getAllAdmins cfg d)
          (ensureAdminGroup (stepAll (processUser (userUnitsMap cfg d (getAllUsers cfg s0)))
            (getAllUsers cfg s0) s0).1).2.1).1).1 :=
    stepAll_pres (fun g0 _ t2 ht2 => SB_deleteObsoleteStep _ g0 ht2) hSB3
  have hInv5 := phase5_Inv5 hgids hgbound hNadm2 hactND hInv54
  have hpr := phase5_pruned hgids hgbound hNadm2 hactND hids getAllUsers_sub hSB4 hInv54
  have hSB5 : SB 0 0
      (stepAll (cleanupGroup (getAllAdmins cfg d) (getAllUsers cfg s0)
        (userUnitsMap cfg d (getAllUsers cfg s0))) s0.groups
        (stepAll (deleteObsoleteStep
          (validGroupNames (userUnitsMap cfg d (getAllUsers cfg s0)))) s0.groups
          (stepAll (adminAddStep cfg
            (ensureAdminGroup (stepAll (processUser (userUnitsMap cfg d (getAllUsers cfg s0)))
              (getAllUsers cfg s0) s0).1).1.id) (getAllAdmins cfg d)
            (ensureAdminGroup (stepAll (processUser (userUnitsMap cfg d (getAllUsers cfg s0)))
              (getAllUsers cfg s0) s0).1).2.1).1).1).1 :=
    stepAll_pres (fun g0 _ t2 ht2 => SB_cleanupGroup _ _ _ g0 ht2) hSB4
  have hrun : (syncUsers cfg d s0).1 =
      (stepAll (cleanupGroup (getAllAdmins cfg d) (getAllUsers cfg s0)
        (userUnitsMap cfg d (getAllUsers cfg s0))) s0.groups
        (stepAll (deleteObsoleteStep
          (validGroupNames (userUnitsMap cfg d (getAllUsers cfg s0)))) s0.groups
          (stepAll (adminAddStep cfg
            (ensureAdminGroup (stepAll (processUser (userUnitsMap cfg d (getAllUsers cfg s0)))
              (getAllUsers cfg s0) s0).1).1.id) (getAllAdmins cfg d)
            (ensureAdminGroup (stepAll (processUser (userUnitsMap cfg d (getAllUsers cfg s0)))
              (getAllUsers cfg s0) s0).1).2.1).1).1).1 := by
    rw [syncUsers_eq_nonempty cfg d s0 hie, getAllGroups_full hglen0]
  refine ⟨(ensureAdminGroup (stepAll (processUser (userUnitsMap cfg d (getAllUsers cfg s0)))
      (getAllUsers cfg s0) s0).1).1.id, ?_, ?_, ?_⟩
  · rw [hrun]
    exact hInv5
  · rw [hrun]
    exact hpr
  · rw [hrun]
    exact hSB5

theorem isEmpty_of_skel {l1 l2 : List User} (h : l1.map userSkel = l2.map userSkel) :
    l1.isEmpty = l2.isEmpty := by
  cases l1 with
  | nil =>
    cases l2 with
    | nil => rfl
    | cons v l2 => simp at h
  | cons u l1 =>
    cases l2 with
    | nil => simp at h
    | cons v l2 => rfl

theorem userUnitsMap_congr (cfg : Config) (d : Dir) {l1 l2 : List User}
    (h : l1.map (fun u => u.email) = l2.map (fun u => u.email)) :
    userUnitsMap cfg d l1 = userUnitsMap cfg d l2 := by
  unfold userUnitsMap
  have h1 : l1.map (fun user => (user.email,
      filterUnits (getAllowedUnits cfg.allowedUnitsFile) (getUserUnits d user.email))) =
      (l1.map (fun u => u.email)).map (fun e => (e,
        filterUnits (getAllowedUnits cfg.allowedUnitsFile) (getUserUnits d e))) := by
    rw [List.map_map]
    rfl
  have h2 : l2.map (fun user => (user.email,
      filterUnits (getAllowedUnits cfg.allowedUnitsFile) (getUserUnits d user.email))) =
      (l2.map (fun u => u.email)).map (fun e => (e,
        filterUnits (getAllowedUnits cfg.allowedUnitsFile) (getUserUnits d e))) := by
    rw [List.map_map]
    rfl
  rw [h1, h2, h]

theorem settled_of_Inv5 (cfg : Config) (d : Dir) (s0 s1 : WState) (agid : Nat)
    (hie0 : (getAllUsers cfg s0).isEmpty = false)
    (hglen1 : s1.groups.length ≤ 100)
    (hids : (s0.users.map (fun u => u.id)).Nodup)
    (hInv : Inv5 cfg s0 (validGroupNames (userUnitsMap cfg d (getAllUsers cfg s0)))
      (getAllUsers cfg s0) (userUnitsMap cfg d (getAllUsers cfg s0))
      (getAllAdmins cfg d) agid s1)
    (hpr : ∀ g0 ∈ s0.groups,
      (g0.name.lowerStr = ADMIN_GROUP_NAME.lowerStr →
        prunedAdmin (getAllAdmins cfg d) g0.id s1) ∧
      (g0.name.lowerStr ≠ ADMIN_GROUP_NAME.lowerStr →
        prunedUnit (getAllUsers cfg s0) (userUnitsMap cfg d (getAllUsers cfg s0))
          g0.id g0.name s1)) :
    syncUsers cfg d s1 = (s1, [], true) := by
  obtain ⟨⟨hGWF, hPed, hJU, hJA, hAR, hskel, hspall⟩, hP2, hNV⟩ := hInv
  have hskelAct : (getAllUsers cfg s1).map userSkel =
      (getAllUsers cfg s0).map userSkel := by
    unfold getAllUsers listPage
    have htake : (s1.users.take 100).map userSkel =
        (s0.users.take 100).map userSkel := by
      rw [List.map_take, List.map_take, hskel]
    exact map_skel_filter_email (fun e => decide (e ≠ cfg.adminEmail)) htake
  have hne1 : (getAllUsers cfg s1).isEmpty = false := by
    rw [isEmpty_of_skel hskelAct]
    exact hie0
  have hemAct : (getAllUsers cfg s1).map (fun u => u.email) =
      (getAllUsers cfg s0).map (fun u => u.email) := by
    rw [emails_map_skel, hskelAct, ← emails_map_skel]
  have huum : userUnitsMap cfg d (getAllUsers cfg s1) =
      userUnitsMap cfg d (getAllUsers cfg s0) := userUnitsMap_congr cfg d hemAct
  have hgid1 := hGWF.1
  have huid1 : (s1.users.map (fun u => u.id)).Nodup := uids_nodup_of_skel hskel hids
  have hactND0 := getAllUsers_ids_nodup cfg hids
  obtain ⟨ag1, hag1, hagid1⟩ := hAR
  refine settled_run_silent cfg d s1 hne1 hglen1 hgid1 huid1 ag1 hag1 ?_ ?_ ?_ ?_ ?_
  · intro user1 hu1 unit hun
    rw [huum] at hun
    obtain ⟨user, huser, hid, hem⟩ := mem_skel_transfer hskelAct hu1
    rw [← hem] at hun
    have hsp := hspall user huser unit hun
    rw [hid] at hsp
    exact hsp
  · intro admin hadm user1 hf
    obtain ⟨hmem1, hemail1, hnea⟩ := findUserByEmail_mem hf
    have hemOf : emailOf s1 user1.id = some admin.email := by
      rw [emailOf_of_mem huid1 hmem1, hemail1]
    have hneadm : admin.email ≠ cfg.adminEmail := by
      rw [← hemail1]
      exact hnea
    obtain ⟨hmA, hrole⟩ := hP2 admin hadm user1.id hemOf hneadm
    refine ⟨hmA ag1 (findGroupIn_mem hag1).1 hagid1, ?_⟩
    unfold roleOf at hrole
    rw [find?_id_of_mem_nodup huid1 hmem1] at hrole
    simpa using hrole
  · rw [huum]
    exact hNV
  · intro g hg hadmci u hu
    have hfind : s1.groups.find? (fun g2 => g2.id = g.id) = some g :=
      find?_gid_of_mem_nodup hgid1 hg
    unfold getGroupMembers at hu
    rw [hfind] at hu
    have hu2 : u ∈ g.members.filterMap
        (fun uid => s1.users.find? (fun v => v.id = uid)) :=
      (List.take_sublist _ _).subset hu
    obtain ⟨uid, huidm, hfu⟩ := List.mem_filterMap.mp hu2
    rcases hPed g hg with ⟨g0, hg0, hidq, hnm⟩ | ⟨_, hna, _⟩ | ⟨hideq, _, hle⟩
    · have hadm0 : g0.name.lowerStr = ADMIN_GROUP_NAME.lowerStr := by
        rw [← hnm]
        exact hadmci
      exact (hpr g0 hg0).1 hadm0 g hg hidq uid huidm u hfu
    · exact absurd hadmci hna
    · obtain ⟨e, hemOf, hany⟩ := hJA g hg hideq hle uid huidm
      unfold emailOf at hemOf
      rw [hfu] at hemOf
      have he : u.email = e := by simpa using hemOf
      rw [he]
      exact hany
  · intro g hg hna u hu user1 hfu1
    rw [huum]
    have hfind : s1.groups.find? (fun g2 => g2.id = g.id) = some g :=
      find?_gid_of_mem_nodup hgid1 hg
    unfold getGroupMembers at hu
    rw [hfind] at hu
    have hu2 : u ∈ g.members.filterMap
        (fun uid => s1.users.find? (fun v => v.id = uid)) :=
      (List.take_sublist _ _).subset hu
    obtain ⟨uid, huidm, hfu⟩ := List.mem_filterMap.mp hu2
    have huidu : u.id = uid := by simpa using List.find?_some hfu
    have htr := find?_id_skel_transfer hskelAct u.id
    rw [hfu1] at htr
    cases hf0 : (getAllUsers cfg s0).find? (fun v => v.id = u.id) with
    | none => rw [hf0] at htr; simp at htr
    | some user0 =>
      rw [hf0] at htr
      have hsk : userSkel user1 = userSkel user0 := by simpa using htr
      have hem10 : user1.email = user0.email := (userSkel_fields hsk).2.1
      rcases hPed g hg with ⟨g0, hg0, hidq, hnm⟩ | ⟨hle, hna2, _⟩ | ⟨_, hciadm, _⟩
      · have hna0 : g0.name.lowerStr ≠ ADMIN_GROUP_NAME.lowerStr := by
          rw [← hnm]
          exact hna
        have hres := (hpr g0 hg0).2 hna0 g hg hidq uid huidm user0
          (by rw [← huidu]; exact hf0)
        rw [hem10, hnm]
        exact hres
      · obtain ⟨userJ, huserJ, hidJ, hanyJ⟩ := hJU g hg hle hna2 uid huidm
        have hfJ : (getAllUsers cfg s0).find? (fun v => v.id = u.id) = some userJ := by
          rw [huidu, ← hidJ]
          exact find?_id_of_mem_nodup hactND0 huserJ
        rw [hf0] at hfJ
        have hu0J : user0 = userJ := Option.some_inj.mp hfJ
        rw [hem10, hu0J]
        exact hanyJ
      · exact absurd hciadm hna

/-- C4 (amended): the Unit/Group phase is idempotent on well-formed workspaces
whenever no directory unit is named case-insensitively `admin` and every
list the run consults stays within its single fetched page: starting
from a workspace with distinct user ids, distinct user emails, distinct
group ids all below the id counter, whose user table fits in one page
and whose group table and per-group member lists keep fitting in one
page even after the run's potential creations and additions (the `SB`
bound, paying one group and one membership per processed (user, unit)
pair plus the admin group and one admin-group membership per directory
admin), a second run of `syncUsers` over the same directory emits no
mutation events.  (The reserved-unit restriction is forced by
`c4_counterexample`, where a unit named `ADMIN` makes the second run
emit a member-add and a member-removal; the page bounds are forced by
the single-page list requests refuted in `c5_counterexample`.) -/
theorem c4_second_run_silent (cfg : Config) (d : Dir) (s0 : WState)
    (hids : (s0.users.map (fun u => u.id)).Nodup)
    (hemails : (s0.users.map (fun u => u.email)).Nodup)
    (hgids : (s0.groups.map (fun g => g.id)).Nodup)
    (hgbound : ∀ g ∈ s0.groups, g.id < s0.nextId)
    (hadm : ∀ p ∈ d.units, ∀ unit ∈ p.2,
      unit.name.lowerStr ≠ ADMIN_GROUP_NAME.lowerStr)
    (hSB : SB (runBudget cfg d s0 + 1)
      (runBudget cfg d s0 + (getAllAdmins cfg d).length) s0) :
    (syncUsers cfg d (syncUsers cfg d s0).1).2.1 = [] := by
  cases hie : (getAllUsers cfg s0).isEmpty with
  | true =>
    rw [syncUsers_empty cfg d s0 hie]
    show (syncUsers cfg d s0).2.1 = []
    rw [syncUsers_empty cfg d s0 hie]
  | false =>
    obtain ⟨agid, hInv, hpr, hSBfin⟩ :=
      first_run_settles cfg d s0 hie hids hemails hgids hgbound hadm hSB
    have hsilent := settled_of_Inv5 cfg d s0 (syncUsers cfg d s0).1 agid hie
      (SB_groups_le hSBfin) hids hInv hpr
    rw [hsilent]

/-- Concrete workspace for the C4 witness. -/
def c4s0 : WState :=
  { users := [{ id := 1, email := "u@x", role := "viewer", suspended := false }],
    groups := [], collections := [], nextId := 10 }

/-- Concrete directory for the C4 witness. -/
def c4dir : Dir :=
  { persons := [("u@x", some 7)], units := [(7, [{ name := "IC" }])], groups := [] }

/-- Concrete configuration for the C4 witness. -/
def c4cfg : Config :=
  { adminEmail := "root@x", allowedCollections := [], allowedUnitsFile := none,
    dirAdminGroup := "admins" }

theorem c4_witness :
    ((c4s0.users.map (fun u => u.id)).Nodup ∧
      (c4s0.users.map (fun u => u.email)).Nodup ∧
      (c4s0.groups.map (fun g => g.id)).Nodup ∧
      (∀ g ∈ c4s0.groups, g.id < c4s0.nextId) ∧
      (∀ p ∈ c4dir.units, ∀ unit ∈ p.2,
        unit.name.lowerStr ≠ ADMIN_GROUP_NAME.lowerStr) ∧
      SB (runBudget c4cfg c4dir c4s0 + 1)
        (runBudget c4cfg c4dir c4s0 + (getAllAdmins c4cfg c4dir).length) c4s0) ∧
    (syncUsers c4cfg c4dir (syncUsers c4cfg c4dir c4s0).1).2.1 = [] :=
  ⟨⟨by decide, by decide, by decide, by decide, by decide,
    by unfold SB; decide⟩,
    c4_second_run_silent c4cfg c4dir c4s0 (by decide) (by decide) (by decide)
      (by decide) (by decide) (by unfold SB; decide)⟩

end SidocSync
